import Mathlib

/-!
# tcpechoserver: the epoll echo server and the io_uring chat server

A shallow embedding of the two servers of the repository:

* `Epoll`: `epollechoserver/server` (`EPollBuffer`, `EPoll`, `Session`),
* `Uring`: `tcpchatserver/server` (`UringBuffer`, `IOUring`, `Session`, `SessionManager`).

Bytes are natural numbers; `int` values are `Int`; a pointer into a buffer pool is the
index of the slot it points to; results of system calls are explicit arguments. In the
io_uring server the objects whose destructor acts on the process are followed to the end
of their scope: a `std::string` releases its storage, the last `SocketPtr` of a `Socket`
closes its descriptor, and a `Session` closes its connections.
-/

/-! ## Byte-level helpers shared by both servers -/

/-- The `len` bytes of `mem` that start at offset `off`. -/
def readBytes (mem : List Nat) (off len : Nat) : List Nat :=
  (mem.drop off).take len

/-- Store `bs` into `mem` from offset `off` on (a `memcpy` into `mem + off`). -/
def writeBytes (mem : List Nat) (off : Nat) (bs : List Nat) : List Nat :=
  mem.take off ++ bs ++ mem.drop (off + bs.length)

/-- A `uint16_t` as it lies in memory on the little-endian host. -/
def u16le (v : Nat) : List Nat :=
  [v % 256, v / 256 % 256]

/-- The `uint16_t` read from the two bytes `lo`, `hi` on the little-endian host. -/
def u16of (lo hi : Nat) : Nat :=
  lo % 256 + 256 * (hi % 256)

/-- The packed `ChatMessageHeader { type; length }` as 3 bytes of memory. -/
def headerBytes (type length : Nat) : List Nat :=
  (type % 256) :: u16le length

/-- Value of `std::unordered_map::find`. -/
def mapFind {β : Type} (m : List (Int × β)) (k : Int) : Option β :=
  (m.find? (fun e => e.1 == k)).map Prod.snd

/-- Map after `std::unordered_map::erase(k)`. -/
def mapErase {β : Type} (m : List (Int × β)) (k : Int) : List (Int × β) :=
  m.filter (fun e => e.1 != k)

/-- Map after `m[k] = v`. -/
def mapSet {β : Type} (m : List (Int × β)) (k : Int) (v : β) : List (Int × β) :=
  (k, v) :: mapErase m k

/-- The class `Socket` (Socket.h), reduced to its descriptor. -/
structure Socket where
  mSocketFd : Int
deriving DecidableEq, Repr

/-- Transcription of `Socket::isValid`. -/
def Socket.isValid (s : Socket) : Bool :=
  decide (0 ≤ s.mSocketFd)

/-- Transcription of `Socket::getSocketFd`. -/
def Socket.getSocketFd (s : Socket) : Int :=
  s.mSocketFd

/-! ## Protocol constants (Context.h) -/

def SERVER_ACK : Nat := 0x01
def SERVER_ERROR : Nat := 0x02
def SERVER_CHAT : Nat := 0x03
def SERVER_NOTIFICATION : Nat := 0x04
def SERVER_ECHO : Nat := 0x05
def CLIENT_JOIN : Nat := 0x11
def CLIENT_LEAVE : Nat := 0x12
def CLIENT_CHAT : Nat := 0x13
def CLIENT_COMMAND : Nat := 0x14

/-- Value of `MAX_MESSAGE_SIZE`. -/
def MAX_MESSAGE_SIZE : Nat := 1021

/-- Value of `sizeof(ChatMessageHeader)` under `#pragma pack(push, 1)`. -/
def CHAT_MESSAGE_HEADER_SIZE : Nat := 3

/-- Value of `sizeof(ChatMessage)`: the header and `char data[1021]`. -/
def SIZEOF_CHAT_MESSAGE : Nat := 1024

/-- Value of `EAGAIN` (equal to `EWOULDBLOCK`) on Linux. -/
def EAGAIN : Nat := 11

/-- The struct `ChatMessage`: header fields and the 1021 payload bytes. -/
structure ChatMessage where
  type : Nat
  length : Nat
  data : List Nat
deriving DecidableEq, Repr

namespace Epoll

/-! ## EPollBuffer (EPollBuffer.h, EPollBuffer.cpp) -/

/-- The struct `IOBuffer`. `data = some i` is the pointer `buffer_pool_[i]`,
`data = none` is `nullptr`. -/
structure IOBuffer where
  data : Option Nat
  length : Nat
  write_offset : Nat
  buffer_id : Int
deriving DecidableEq, Repr

/-- The default constructor `IOBuffer()`: the empty handle. -/
def IOBuffer.empty : IOBuffer :=
  { data := none, length := 0, write_offset := 0, buffer_id := -1 }

/-- The constructor `IOBuffer(buf, id)` with `buf = buffer_pool_[id]`. -/
def IOBuffer.ofSlot (id : Int) : IOBuffer :=
  { data := some id.toNat, length := 0, write_offset := 0, buffer_id := id }

/-- The class `EPollBuffer`: `buffer_pool_[i]` is the storage of slot `i`,
`free_buffers_` the `std::list<int>` of free slots, `client_buffers_` the
per-descriptor queues (front of a queue is the head of its list). -/
structure EPollBuffer where
  buffer_pool_ : List (List Nat)
  free_buffers_ : List Int
  buffer_size_ : Nat
  buffer_count_ : Nat
  client_buffers_ : List (Int × List IOBuffer)
deriving DecidableEq, Repr

/-- The constructor `EPollBuffer(buffer_size, buffer_count)`; the bytes of a fresh
`new uint8_t[buffer_size]` are taken to be 0. -/
def EPollBuffer.new (buffer_size buffer_count : Nat) : EPollBuffer :=
  { buffer_pool_ := List.replicate buffer_count (List.replicate buffer_size 0)
    free_buffers_ := (List.range buffer_count).map Int.ofNat
    buffer_size_ := buffer_size
    buffer_count_ := buffer_count
    client_buffers_ := [] }

/-- Transcription of `EPollBuffer::hasAvailableBuffers`. -/
def EPollBuffer.hasAvailableBuffers (p : EPollBuffer) : Bool :=
  !p.free_buffers_.isEmpty

/-- Transcription of `EPollBuffer::allocateBuffer`: the handle returned and the pool after. -/
def EPollBuffer.allocateBuffer (p : EPollBuffer) : IOBuffer × EPollBuffer :=
  match p.free_buffers_ with
  | [] => (IOBuffer.empty, p)
  | buffer_id :: rest => (IOBuffer.ofSlot buffer_id, { p with free_buffers_ := rest })

/-- Transcription of `EPollBuffer::releaseBuffer`. -/
def EPollBuffer.releaseBuffer (p : EPollBuffer) (buffer_id : Int) : EPollBuffer :=
  if buffer_id < 0 ∨ buffer_id ≥ (p.buffer_pool_.length : Int) then p
  else { p with free_buffers_ := p.free_buffers_ ++ [buffer_id] }

/-- The queue `client_buffers_[client_fd]` (empty when the key is absent). -/
def EPollBuffer.queue (p : EPollBuffer) (client_fd : Int) : List IOBuffer :=
  (mapFind p.client_buffers_ client_fd).getD []

/-- Transcription of `EPollBuffer::addToClientQueue`. -/
def EPollBuffer.addToClientQueue (p : EPollBuffer) (client_fd : Int) (buffer : IOBuffer) :
    EPollBuffer :=
  { p with client_buffers_ := mapSet p.client_buffers_ client_fd (p.queue client_fd ++ [buffer]) }

/-- Transcription of `EPollBuffer::hasDataToWrite`. -/
def EPollBuffer.hasDataToWrite (p : EPollBuffer) (client_fd : Int) : Bool :=
  match mapFind p.client_buffers_ client_fd with
  | some (_ :: _) => true
  | _ => false

/-- Transcription of `EPollBuffer::getNextBufferToWrite` (the static empty buffer when
there is none). -/
def EPollBuffer.getNextBufferToWrite (p : EPollBuffer) (client_fd : Int) : IOBuffer :=
  match mapFind p.client_buffers_ client_fd with
  | some (b :: _) => b
  | _ => IOBuffer.empty

/-- Transcription of `EPollBuffer::removeProcessedBuffer`. -/
def EPollBuffer.removeProcessedBuffer (p : EPollBuffer) (client_fd : Int) : EPollBuffer :=
  match mapFind p.client_buffers_ client_fd with
  | some (b :: rest) =>
    ({ p with client_buffers_ := mapSet p.client_buffers_ client_fd rest }).releaseBuffer
      b.buffer_id
  | _ => p

/-- The loop of `EPollBuffer::clearClientBuffers`: release every queued buffer. -/
def EPollBuffer.releaseAll (p : EPollBuffer) : List IOBuffer → EPollBuffer
  | [] => p
  | b :: rest => (p.releaseBuffer b.buffer_id).releaseAll rest

/-- Transcription of `EPollBuffer::clearClientBuffers`. -/
def EPollBuffer.clearClientBuffers (p : EPollBuffer) (client_fd : Int) : EPollBuffer :=
  match mapFind p.client_buffers_ client_fd with
  | some q =>
    let p1 := p.releaseAll q
    { p1 with client_buffers_ := mapErase p1.client_buffers_ client_fd }
  | none => p

/-- Storage of the slot a handle points to (no bytes behind a null pointer). -/
def EPollBuffer.slot (p : EPollBuffer) (data : Option Nat) : List Nat :=
  match data with
  | some i => p.buffer_pool_.getD i []
  | none => []

/-- The pool after a `memcpy` of `bs` to `data + off`. -/
def EPollBuffer.store (p : EPollBuffer) (data : Option Nat) (off : Nat) (bs : List Nat) :
    EPollBuffer :=
  match data with
  | some i => { p with buffer_pool_ := p.buffer_pool_.set i (writeBytes (p.slot data) off bs) }
  | none => p

/-- The valid bytes of a buffer: `data[0 .. length)`. -/
def EPollBuffer.bytesOf (p : EPollBuffer) (b : IOBuffer) : List Nat :=
  readBytes (p.slot b.data) 0 b.length

/-- Outcome of one `read(2)`: the bytes the peer has made available (the call stores at
most the requested count and returns how many; none is end of file), or failure with an
`errno`. -/
inductive ReadResult where
  | data (bs : List Nat)
  | fail (errno : Nat)
deriving DecidableEq, Repr

/-- Outcome of one `write(2)`: the count the kernel offers to accept (at most the
requested count is taken), or failure with an `errno`. -/
inductive WriteResult where
  | wrote (n : Nat)
  | fail (errno : Nat)
deriving DecidableEq, Repr

/-- Transcription of `EPollBuffer::readToBuffer`. `r` is the outcome of the `read` call
if one is made, `errno` the current `errno`. Returns the return value, the updated
handle, the pool, `errno`, and whether `read` was called. -/
def EPollBuffer.readToBuffer (p : EPollBuffer) (buffer : IOBuffer) (r : ReadResult)
    (errno : Nat) : Int × IOBuffer × EPollBuffer × Nat × Bool :=
  if buffer.data.isNone ∨ buffer.length ≥ p.buffer_size_ then (-1, buffer, p, errno, false)
  else
    match r with
    | ReadResult.data bs =>
      let got := bs.take (p.buffer_size_ - buffer.length)
      let p1 := p.store buffer.data buffer.length got
      if got.length > 0 then
        ((got.length : Int), { buffer with length := buffer.length + got.length }, p1, errno, true)
      else (0, buffer, p1, errno, true)
    | ReadResult.fail e =>
      if e = EAGAIN then (0, buffer, p, e, true) else (-1, buffer, p, e, true)

/-- Transcription of `EPollBuffer::writeFromBuffer`. `w` is the outcome of the `write`
call if one is made. Returns the return value, the updated handle, the bytes the
descriptor received, `errno`, and whether `write` was called. -/
def EPollBuffer.writeFromBuffer (p : EPollBuffer) (buffer : IOBuffer) (w : WriteResult)
    (errno : Nat) : Int × IOBuffer × List Nat × Nat × Bool :=
  if buffer.data.isNone ∨ buffer.write_offset ≥ buffer.length then (-1, buffer, [], errno, false)
  else
    let remaining := buffer.length - buffer.write_offset
    match w with
    | WriteResult.wrote n =>
      let k := min n remaining
      if k > 0 then
        ((k : Int), { buffer with write_offset := buffer.write_offset + k },
          readBytes (p.slot buffer.data) buffer.write_offset k, errno, true)
      else (0, buffer, [], errno, true)
    | WriteResult.fail e =>
      if e = EAGAIN then (0, buffer, [], e, true) else (-1, buffer, [], e, true)

/-- The `memcpy(&message, buffer.data, sizeof(ChatMessage))` of `getMessageFromBuffer`. -/
def EPollBuffer.copyMessage (p : EPollBuffer) (buffer : IOBuffer) : ChatMessage :=
  let mem := p.slot buffer.data
  { type := mem.getD 0 0 % 256
    length := u16of (mem.getD 1 0) (mem.getD 2 0)
    data := readBytes mem CHAT_MESSAGE_HEADER_SIZE MAX_MESSAGE_SIZE }

/-- Transcription of `EPollBuffer::getMessageFromBuffer`: the return value and the
contents of the out-parameter `message` afterwards. -/
def EPollBuffer.getMessageFromBuffer (p : EPollBuffer) (buffer : IOBuffer)
    (message : ChatMessage) : Bool × ChatMessage :=
  if buffer.data.isNone ∨ buffer.length < SIZEOF_CHAT_MESSAGE then (false, message)
  else
    let message1 := p.copyMessage buffer
    if message1.length > MAX_MESSAGE_SIZE then (false, message1)
    else if buffer.length < CHAT_MESSAGE_HEADER_SIZE + message1.length then (false, message1)
    else (true, message1)

/-- Transcription of `EPollBuffer::makeMessage` (`data = none` is a null source): the
updated handle and the pool. -/
def EPollBuffer.makeMessage (p : EPollBuffer) (buffer : IOBuffer) (type : Nat)
    (data : Option (List Nat)) (length : Nat) : IOBuffer × EPollBuffer :=
  if buffer.data.isNone ∨ length > MAX_MESSAGE_SIZE then (buffer, p)
  else
    let p1 := p.store buffer.data 0 (headerBytes type length)
    let p2 :=
      match data with
      | some bs => if length > 0 then p1.store buffer.data CHAT_MESSAGE_HEADER_SIZE (bs.take length)
                   else p1
      | none => p1
    ({ buffer with length := CHAT_MESSAGE_HEADER_SIZE + length, write_offset := 0 }, p2)

/-! ## EPoll (EPoll.h, EPoll.cpp) -/

def EPOLLIN : Nat := 0x001
def EPOLLOUT : Nat := 0x004
def EPOLLRDHUP : Nat := 0x2000
def EPOLLET : Nat := 0x80000000

/-- Value of `EPoll::BASE_EVENTS`. -/
def BASE_EVENTS : Nat := EPOLLIN ||| EPOLLET ||| EPOLLRDHUP

/-- The class `EPoll` together with the kernel objects it drives: `interest` is the
interest list of the epoll instance (descriptor and event mask), `closed` the
descriptors passed to `close(2)`, latest first. -/
structure EPoll where
  epoll_fd_ : Int
  epoll_initialized_ : Bool
  buffer_manager_ : EPollBuffer
  fd_contexts_ : List (Int × Nat)
  interest : List (Int × Nat)
  closed : List Int
deriving DecidableEq, Repr

/-- The constructor `EPoll()`: a default pool of 256 buffers of 1024 bytes. -/
def EPoll.new : EPoll :=
  { epoll_fd_ := -1, epoll_initialized_ := false
    buffer_manager_ := EPollBuffer.new 1024 256
    fd_contexts_ := [], interest := [], closed := [] }

/-- Transcription of `EPoll::initEPoll`; `created` is the value of `epoll_create1(0)`,
`none` is the thrown `runtime_error`. -/
def EPoll.initEPoll (e : EPoll) (created : Int) : Option EPoll :=
  if e.epoll_initialized_ then some e
  else if created = -1 then none
  else some { e with epoll_fd_ := created, epoll_initialized_ := true }

/-- Transcription of `EPoll::addEvent`; `EPOLL_CTL_ADD` fails on a descriptor that is
already in the interest list. -/
def EPoll.addEvent (e : EPoll) (fd : Int) (events : Nat) : Bool × EPoll :=
  if !e.epoll_initialized_ then (false, e)
  else if (mapFind e.interest fd).isSome then (false, e)
  else (true, { e with interest := mapSet e.interest fd events })

/-- Transcription of `EPoll::modifyEvent`; `EPOLL_CTL_MOD` fails on a descriptor that is
not in the interest list. -/
def EPoll.modifyEvent (e : EPoll) (fd : Int) (events : Nat) : Bool × EPoll :=
  if !e.epoll_initialized_ then (false, e)
  else if (mapFind e.interest fd).isNone then (false, e)
  else (true, { e with interest := mapSet e.interest fd events })

/-- Transcription of `EPoll::removeEvent`; `EPOLL_CTL_DEL` fails on a descriptor that is
not in the interest list. -/
def EPoll.removeEvent (e : EPoll) (fd : Int) : Bool × EPoll :=
  if !e.epoll_initialized_ then (false, e)
  else if (mapFind e.interest fd).isNone then (false, e)
  else (true, { e with interest := mapErase e.interest fd })

/-- Transcription of `EPoll::prepareRead`. -/
def EPoll.prepareRead (e : EPoll) (client_fd : Int) : EPoll :=
  (e.addEvent client_fd (EPOLLIN ||| EPOLLET ||| EPOLLRDHUP)).2

/-- Transcription of `EPoll::prepareWrite`. `buf = none` is a null pointer, otherwise
the bytes at `buf` (at least `len` of them). -/
def EPoll.prepareWrite (e : EPoll) (client_fd : Int) (buf : Option (List Nat)) (len : Nat) :
    Bool × EPoll :=
  match buf with
  | none => (false, e)
  | some bytes =>
    if len = 0 then (false, e)
    else if !e.epoll_initialized_ then (false, e)
    else if !e.buffer_manager_.hasAvailableBuffers then (false, e)
    else
      let (buffer, bm1) := e.buffer_manager_.allocateBuffer
      if buffer.data.isNone then (false, { e with buffer_manager_ := bm1 })
      else if len > bm1.buffer_size_ then
        (false, { e with buffer_manager_ := bm1.releaseBuffer buffer.buffer_id })
      else
        let bm2 := bm1.store buffer.data 0 (bytes.take len)
        let buffer1 := { buffer with length := len }
        let bm3 := bm2.addToClientQueue client_fd buffer1
        ({ e with buffer_manager_ := bm3 }).modifyEvent client_fd (BASE_EVENTS ||| EPOLLOUT)

/-- Transcription of `EPoll::prepareClose`; closing a descriptor also drops it from the
interest list. -/
def EPoll.prepareClose (e : EPoll) (client_fd : Int) : EPoll :=
  let e1 := { e with buffer_manager_ := e.buffer_manager_.clearClientBuffers client_fd }
  let e2 := if e1.epoll_initialized_ ∧ e1.epoll_fd_ ≠ -1 then (e1.removeEvent client_fd).2 else e1
  { e2 with
    interest := mapErase e2.interest client_fd
    closed := client_fd :: e2.closed
    fd_contexts_ := mapErase e2.fd_contexts_ client_fd }

/-! ## Session (Session.h, Session.cpp) -/

/-- The class `Session` with the process state its handlers touch: `errno`, and `sent`,
the bytes each descriptor has accepted from `write(2)`, in order. -/
structure Session where
  session_id_ : Int
  client_sockets_ : List (Int × Socket)
  epoll_ : EPoll
  errno : Nat
  sent : List (Int × List Nat)
deriving DecidableEq, Repr

/-- The constructor `Session(id)`; `created` is the value of `epoll_create1(0)`. -/
def Session.new (id : Int) (created : Int) : Option Session :=
  (EPoll.new.initEPoll created).map fun e =>
    { session_id_ := id, client_sockets_ := [], epoll_ := e, errno := 0, sent := [] }

/-- Transcription of `Session::getClientFds`. -/
def Session.getClientFds (s : Session) : List Int :=
  s.client_sockets_.map Prod.fst

/-- Transcription of `Session::addClient`. -/
def Session.addClient (s : Session) (client_socket : Option Socket) : Session :=
  match client_socket with
  | none => s
  | some sock =>
    if !sock.isValid then s
    else
      let client_fd := sock.getSocketFd
      { s with
        epoll_ := s.epoll_.prepareRead client_fd
        client_sockets_ := mapSet s.client_sockets_ client_fd sock }

/-- Transcription of `Session::removeClient`. -/
def Session.removeClient (s : Session) (client_socket : Option Socket) : Session :=
  match client_socket with
  | none => s
  | some sock =>
    if !sock.isValid then s
    else
      let client_fd := sock.getSocketFd
      if (mapFind s.client_sockets_ client_fd).isSome then
        { s with
          client_sockets_ := mapErase s.client_sockets_ client_fd
          epoll_ := (s.epoll_.removeEvent client_fd).2 }
      else s

/-- Transcription of `Session::handleClose`. -/
def Session.handleClose (s : Session) (client_socket : Option Socket) : Session :=
  match client_socket with
  | none => s
  | some sock =>
    if !sock.isValid then s
    else
      let client_fd := sock.getSocketFd
      let e1 := (s.epoll_.removeEvent client_fd).2
      { s with
        client_sockets_ := mapErase s.client_sockets_ client_fd
        epoll_ := e1.prepareClose client_fd }

/-- The session after its buffer pool has been changed by `f`. -/
def Session.withPool (s : Session) (f : EPollBuffer → EPollBuffer) : Session :=
  { s with epoll_ := { s.epoll_ with buffer_manager_ := f s.epoll_.buffer_manager_ } }

/-- The message processing of `Session::handleRead` (Session.cpp 219-260) for a read of
`num_bytes_read > 0` bytes into `io_buffer`: echo the frame at the start of the buffer. -/
def Session.echoFrame (s : Session) (client_fd : Int) (io_buffer : IOBuffer)
    (num_bytes_read : Int) : Session :=
  if num_bytes_read ≥ (CHAT_MESSAGE_HEADER_SIZE : Int) then
    let mem := s.epoll_.buffer_manager_.slot io_buffer.data
    let length := u16of (mem.getD 1 0) (mem.getD 2 0)
    if length ≤ MAX_MESSAGE_SIZE ∧
        num_bytes_read ≥ ((CHAT_MESSAGE_HEADER_SIZE + length : Nat) : Int) then
      let echo_message := headerBytes SERVER_ECHO length ++ readBytes mem CHAT_MESSAGE_HEADER_SIZE length
      let total_size := CHAT_MESSAGE_HEADER_SIZE + length
      let (ok, e1) := s.epoll_.prepareWrite client_fd (some echo_message) total_size
      if !ok then { s with epoll_ := e1 }
      else { s with epoll_ := (e1.modifyEvent client_fd (BASE_EVENTS ||| EPOLLOUT)).2 }
    else s
  else s

/-- The `while (read_attempts++ < MAX_READ_ATTEMPTS)` loop of `Session::handleRead` with
`attempts` iterations left. `reads` are the outcomes of the coming `read` calls on the
descriptor; when they are used up a further `read` would block. -/
def Session.handleReadLoop (sock : Socket) : Nat → Session → List ReadResult →
    Session × List ReadResult
  | 0, s, reads => (s, reads)
  | attempts + 1, s, reads =>
    let client_fd := sock.getSocketFd
    let bm := s.epoll_.buffer_manager_
    if !bm.hasAvailableBuffers then (s, reads)
    else
      let (io_buffer, bm1) := bm.allocateBuffer
      if io_buffer.data.isNone then ({ s with epoll_ := { s.epoll_ with buffer_manager_ := bm1 } }, reads)
      else
        let r := reads.headD (ReadResult.fail EAGAIN)
        let (num_bytes_read, io_buffer1, bm2, errno1, called) := bm1.readToBuffer io_buffer r s.errno
        let reads1 := if called then reads.tail else reads
        let s1 := { s with epoll_ := { s.epoll_ with buffer_manager_ := bm2 }, errno := errno1 }
        let release := fun (t : Session) =>
          t.withPool fun q => q.releaseBuffer io_buffer1.buffer_id
        if num_bytes_read = 0 then (release s1, reads1)
        else if num_bytes_read < 0 then
          if errno1 = EAGAIN then (release s1, reads1)
          else ((release s1).handleClose (some sock), reads1)
        else
          let s2 := release (s1.echoFrame client_fd io_buffer1 num_bytes_read)
          if num_bytes_read < (s2.epoll_.buffer_manager_.buffer_size_ : Int) then (s2, reads1)
          else Session.handleReadLoop sock attempts s2 reads1

/-- Value of `MAX_READ_ATTEMPTS` in `Session::handleRead`. -/
def MAX_READ_ATTEMPTS : Nat := 100

/-- Transcription of `Session::handleRead`: the session afterwards and the outcomes of
`read` not yet consumed. -/
def Session.handleRead (s : Session) (client_socket : Option Socket) (reads : List ReadResult) :
    Session × List ReadResult :=
  match client_socket with
  | none => (s, reads)
  | some sock =>
    if !sock.isValid then (s, reads)
    else Session.handleReadLoop sock MAX_READ_ATTEMPTS s reads

/-- The `while (buffer_manager.hasDataToWrite(client_fd))` loop of `Session::handleWrite`;
every iteration that continues pops one buffer, so `fuel` starts at the queue length.
Returns the session, the unused `write` outcomes, `need_more_write`, and whether the
handler returned from inside the loop (after `handleClose`). -/
def Session.handleWriteLoop (sock : Socket) : Nat → Session → List WriteResult →
    Session × List WriteResult × Bool × Bool
  | 0, s, writes => (s, writes, false, false)
  | fuel + 1, s, writes =>
    let client_fd := sock.getSocketFd
    let bm := s.epoll_.buffer_manager_
    if !bm.hasDataToWrite client_fd then (s, writes, false, false)
    else
      let current_buffer := bm.getNextBufferToWrite client_fd
      if current_buffer.data.isNone then (s, writes, false, false)
      else
        let w := writes.headD (WriteResult.fail EAGAIN)
        let (written, buffer1, out, errno1, called) := bm.writeFromBuffer current_buffer w s.errno
        let writes1 := if called then writes.tail else writes
        let queue1 := buffer1 :: (bm.queue client_fd).tail
        let bm1 := { bm with client_buffers_ := mapSet bm.client_buffers_ client_fd queue1 }
        let s1 := { s with
          epoll_ := { s.epoll_ with buffer_manager_ := bm1 }
          errno := errno1
          sent := mapSet s.sent client_fd ((mapFind s.sent client_fd).getD [] ++ out) }
        if written < 0 then (s1.handleClose (some sock), writes1, false, true)
        else if written = 0 then (s1, writes1, true, false)
        else if buffer1.write_offset ≥ buffer1.length then
          Session.handleWriteLoop sock fuel
            { s1 with epoll_ := { s1.epoll_ with
                buffer_manager_ := bm1.removeProcessedBuffer client_fd } } writes1
        else (s1, writes1, true, false)

/-- Transcription of `Session::handleWrite`: the session afterwards and the outcomes of
`write` not yet consumed. -/
def Session.handleWrite (s : Session) (client_socket : Option Socket) (writes : List WriteResult) :
    Session × List WriteResult :=
  match client_socket with
  | none => (s, writes)
  | some sock =>
    if !sock.isValid then (s, writes)
    else
      let client_fd := sock.getSocketFd
      let (s1, writes1, need_more_write, returned) :=
        Session.handleWriteLoop sock (s.epoll_.buffer_manager_.queue client_fd).length s writes
      if returned then (s1, writes1)
      else if need_more_write ∨ s1.epoll_.buffer_manager_.hasDataToWrite client_fd then
        ({ s1 with epoll_ := (s1.epoll_.modifyEvent client_fd (BASE_EVENTS ||| EPOLLOUT)).2 }, writes1)
      else ({ s1 with epoll_ := (s1.epoll_.modifyEvent client_fd BASE_EVENTS).2 }, writes1)

end Epoll

namespace Uring

/-! ## Process memory, completion context (Context.h, IOUring.cpp) -/

/-- Process memory: the byte stored at each address. -/
abbrev Mem := Nat → Nat

/-- The `len` bytes of memory from address `addr` on. -/
def memRead (mem : Mem) (addr len : Nat) : List Nat :=
  (List.range len).map fun i => mem (addr + i)

/-- Memory after storing `bs` from address `addr` on. -/
def memWrite (mem : Mem) (addr : Nat) (bs : List Nat) : Mem :=
  fun a => if addr ≤ a ∧ a < addr + bs.length then bs.getD (a - addr) 0 else mem a

/-- The `int32_t` whose bit pattern is `n`. -/
def toInt32 (n : Nat) : Int :=
  if n % 2 ^ 32 < 2 ^ 31 then ((n % 2 ^ 32 : Nat) : Int) else ((n % 2 ^ 32 : Nat) : Int) - 2 ^ 32

/-- The bit pattern of an `int32_t`. -/
def ofInt32 (i : Int) : Nat :=
  (i % 2 ^ 32).toNat

/-- An `int32_t` as it lies in memory on the little-endian host. -/
def i32le (i : Int) : List Nat :=
  let n := ofInt32 i
  [n % 256, n / 256 % 256, n / 65536 % 256, n / 16777216 % 256]

def OP_ACCEPT : Nat := 1
def OP_READ : Nat := 2
def OP_WRITE : Nat := 3
def OP_CLOSE : Nat := 4

/-- The struct `Operation`. -/
structure Operation where
  client_fd : Int
  op_type : Nat
  buffer_idx : Nat
deriving DecidableEq, Repr

/-- The fields of `io_uring_cqe` the server reads. -/
structure Cqe where
  user_data : Nat
  res : Int
  flags : Nat
deriving DecidableEq, Repr

/-- Transcription of `getContext`: bytes 0-3, 4 and 5-6 of `user_data`. -/
def getContext (cqe : Cqe) : Operation :=
  { client_fd := toInt32 (cqe.user_data % 2 ^ 32)
    op_type := cqe.user_data / 2 ^ 32 % 256
    buffer_idx := cqe.user_data / 2 ^ 40 % 65536 }

/-- What a submission queue entry was prepared for. -/
inductive SqeOp where
  | unprepared
  | accept_multishot
  | recv_multishot
  | write
  | close
deriving DecidableEq, Repr

/-- The fields of `io_uring_sqe` the server sets. -/
structure Sqe where
  op : SqeOp
  fd : Int
  addr : Nat
  len : Nat
  user_data : Nat
  buffer_select : Bool
  buf_group : Nat
deriving DecidableEq, Repr

/-- The entry `getSQE` hands out, before it is prepared. -/
def Sqe.blank : Sqe :=
  { op := SqeOp.unprepared, fd := -1, addr := 0, len := 0, user_data := 0
    buffer_select := false, buf_group := 0 }

/-- Transcription of `IOUring::setContext`: bytes 0-6 of `user_data` are overwritten,
byte 7 is kept. -/
def setContext (sqe : Sqe) (type : Nat) (client_fd : Int) (buffer_idx : Nat) : Sqe :=
  if client_fd < -1 then sqe
  else
    { sqe with user_data :=
        ofInt32 client_fd + 2 ^ 32 * (type % 256) + 2 ^ 40 * (buffer_idx % 65536)
          + 2 ^ 56 * (sqe.user_data / 2 ^ 56 % 256) }

/-! ## UringBuffer (UringBuffer.h, UringBuffer.cpp) -/

/-- Value of `UringBuffer::IO_BUFFER_SIZE`. -/
def IO_BUFFER_SIZE : Nat := 1024

/-- Value of `UringBuffer::NUM_IO_BUFFERS`. -/
def NUM_IO_BUFFERS : Nat := 4096

/-- Value of `sizeof(io_uring_buf)`. -/
def SIZEOF_IO_URING_BUF : Nat := 16

/-- The loop `while (val > 1) { val >>= 1; ret++; }` of `log2<N>()`; it runs fewer
than `val` times, so `fuel = val` is never used up. -/
def log2Loop : Nat → Nat → Nat → Nat
  | 0, _, ret => ret
  | fuel + 1, val, ret => if val > 1 then log2Loop fuel (val >>> 1) (ret + 1) else ret

/-- Transcription of `log2<N>()`. -/
def log2 (n : Nat) : Nat :=
  log2Loop n n 0

/-- Transcription of `buffer_ring_size()`. -/
def buffer_ring_size : Nat :=
  (IO_BUFFER_SIZE + SIZEOF_IO_URING_BUF) * NUM_IO_BUFFERS % 2 ^ 32

/-- Transcription of `get_buffer_base_addr`. -/
def get_buffer_base_addr (ring_addr : Nat) : Nat :=
  ring_addr + SIZEOF_IO_URING_BUF * NUM_IO_BUFFERS

/-- The class `UringBuffer`: `buffer_base_addr_` (0 is `nullptr`) and `buf_ring`, the
buffer ids handed to the kernel with `io_uring_buf_ring_add`, oldest first. -/
structure UringBuffer where
  buffer_base_addr_ : Nat
  buf_ring : List Nat
deriving DecidableEq, Repr

/-- The constructor `UringBuffer(ring)` with the ring mapped at `ring_addr`: every
buffer is handed to the kernel, in index order. -/
def UringBuffer.new (ring_addr : Nat) : UringBuffer :=
  { buffer_base_addr_ := get_buffer_base_addr ring_addr
    buf_ring := List.range NUM_IO_BUFFERS }

/-- Transcription of `UringBuffer::getBufferAddr` (`none` is `nullptr`). -/
def UringBuffer.getBufferAddr (idx : Nat) (buf_base_addr : Nat) : Option Nat :=
  if idx ≥ NUM_IO_BUFFERS then none
  else if buf_base_addr = 0 then none
  else some (buf_base_addr + (idx <<< log2 IO_BUFFER_SIZE) % 2 ^ 32)

/-- Transcription of `UringBuffer::releaseBuffer`. -/
def UringBuffer.releaseBuffer (b : UringBuffer) (idx : Nat) (_buf_base_addr : Nat) : UringBuffer :=
  if idx ≥ NUM_IO_BUFFERS then b
  else { b with buf_ring := b.buf_ring ++ [idx] }

/-! ## IOUring (IOUring.h, IOUring.cpp) -/

/-- The class `IOUring`: `sqes` are the submission queue entries obtained so far, oldest
first. -/
structure IOUring where
  ring_initialized_ : Bool
  buffer_manager_ : UringBuffer
  sqes : List Sqe
deriving DecidableEq, Repr

/-- The constructor `IOUring()` with the buffer ring mapped at `ring_addr`. -/
def IOUring.new (ring_addr : Nat) : IOUring :=
  { ring_initialized_ := true, buffer_manager_ := UringBuffer.new ring_addr, sqes := [] }

/-- Transcription of `IOUring::prepareRead`. -/
def IOUring.prepareRead (r : IOUring) (client_fd : Int) : IOUring :=
  if client_fd < 0 then r
  else
    let sqe := setContext Sqe.blank OP_READ client_fd 0
    { r with sqes := r.sqes ++
        [{ sqe with op := SqeOp.recv_multishot, fd := client_fd, addr := 0, len := 0
                    buffer_select := true, buf_group := 1 }] }

/-- Transcription of `IOUring::prepareWrite` (`buf = 0` is `nullptr`). -/
def IOUring.prepareWrite (r : IOUring) (client_fd : Int) (buf : Nat) (len : Nat) (bid : Nat) :
    IOUring :=
  if buf = 0 then { r with sqes := r.sqes ++ [Sqe.blank] }
  else
    let sqe := { Sqe.blank with op := SqeOp.write, fd := client_fd, addr := buf, len := len }
    { r with sqes := r.sqes ++ [setContext sqe OP_WRITE client_fd bid] }

/-- Transcription of `IOUring::prepareClose`. -/
def IOUring.prepareClose (r : IOUring) (client_fd : Int) : IOUring :=
  let sqe := setContext Sqe.blank OP_CLOSE client_fd 0
  { r with sqes := r.sqes ++ [{ sqe with op := SqeOp.close, fd := client_fd }] }

/-- Transcription of `IOUring::releaseBuffer`. -/
def IOUring.releaseBuffer (r : IOUring) (idx : Nat) : IOUring :=
  { r with buffer_manager_ :=
      r.buffer_manager_.releaseBuffer idx r.buffer_manager_.buffer_base_addr_ }

/-- Transcription of `IOUring::handleWriteComplete`. -/
def IOUring.handleWriteComplete (r : IOUring) (_client_fd : Int) (buffer_idx : Nat)
    (_bytes_written : Int) : IOUring :=
  r.releaseBuffer buffer_idx

/-- The write entries among the submissions, oldest first. -/
def IOUring.writes (r : IOUring) : List Sqe :=
  r.sqes.filter fun q => q.op == SqeOp.write

/-- The receive entries among the submissions, oldest first. -/
def IOUring.recvs (r : IOUring) : List Sqe :=
  r.sqes.filter fun q => q.op == SqeOp.recv_multishot

/-- The close entries among the submissions, oldest first. -/
def IOUring.closes (r : IOUring) : List Sqe :=
  r.sqes.filter fun q => q.op == SqeOp.close

/-! ## Session and SessionManager (Session.cpp, SessionManager.cpp) -/

def EBADF : Int := 9
def ECONNRESET : Int := 104
def ENOBUFS : Int := 105

/-- Value of `IORING_CQE_F_BUFFER`. -/
def IORING_CQE_F_BUFFER : Nat := 1

/-- Value of `IORING_CQE_F_MORE`. -/
def IORING_CQE_F_MORE : Nat := 2

/-- Value of `IORING_CQE_BUFFER_SHIFT`: the selected buffer id is `flags >> 16`. -/
def IORING_CQE_BUFFER_SHIFT : Nat := 16

/-- The class `Session`. -/
structure Session where
  session_id_ : Int
  client_sockets_ : List (Int × Socket)
  io_ring_ : IOUring
  total_messages_ : Nat
deriving DecidableEq, Repr

/-- The constructor `Session(id)` with the buffer ring mapped at `ring_addr`. -/
def Session.new (id : Int) (ring_addr : Nat) : Session :=
  { session_id_ := id, client_sockets_ := [], io_ring_ := IOUring.new ring_addr
    total_messages_ := 0 }

/-- Transcription of `Session::getClientFds`. -/
def Session.getClientFds (s : Session) : List Int :=
  s.client_sockets_.map Prod.fst

/-- Transcription of `Session::addClient`. -/
def Session.addClient (s : Session) (client_socket : Option Socket) : Session :=
  match client_socket with
  | none => s
  | some sock =>
    if !sock.isValid then s
    else
      let client_fd := sock.getSocketFd
      if client_fd < 0 then s
      else
        { s with
          client_sockets_ := mapSet s.client_sockets_ client_fd sock
          io_ring_ := s.io_ring_.prepareRead client_fd }

/-- Transcription of `Session::removeClient`. -/
def Session.removeClient (s : Session) (client_socket : Option Socket) : Session :=
  match client_socket with
  | none => s
  | some sock =>
    if !sock.isValid then s
    else
      let client_fd := sock.getSocketFd
      if client_fd < 0 then s
      else { s with client_sockets_ := mapErase s.client_sockets_ client_fd }

/-- The singleton `SessionManager` with the sessions it owns, and the process state the
handlers touch: memory, the address `heap` at which the next `std::string` a handler
builds gets its storage, the addresses `freed` of string storage that has been released
since (latest first), and the descriptors passed to `close(2)` directly, latest first. -/
structure World where
  sessions_ : List (Int × Session)
  client_sessions_ : List (Int × Int)
  available_sessions_ : List Int
  next_session_id_ : Nat
  next_session_index_ : Nat
  mem : Mem
  heap : Nat
  freed : List Nat
  closed : List Int

/-- The session stored under `sid` in `sessions_`. -/
def World.session (w : World) (sid : Int) : Option Session :=
  mapFind w.sessions_ sid

/-- The world after the session stored under `sid` has been changed by `f`. -/
def World.updSession (w : World) (sid : Int) (f : Session → Session) : World :=
  match mapFind w.sessions_ sid with
  | some s => { w with sessions_ := w.sessions_.map fun e => if e.1 = sid then (e.1, f s) else e }
  | none => w

/-- Whether the connection map of some session holds the `Socket`: such an entry is a
`SocketPtr` that keeps the object alive. `Socket` objects are told apart by their
descriptor. -/
def World.holdsSocket (w : World) (sock : Socket) : Bool :=
  w.sessions_.any fun e => e.2.client_sockets_.any fun c => c.2 == sock

/-- The `SocketPtr` a handler holds goes out of scope. When no connection map holds the
`Socket`, the handler was its last owner and `Socket::~Socket` runs `close()`, which
passes a descriptor that is not negative to `::close`. -/
def World.releaseSocket (w : World) (sock : Socket) : World :=
  if w.holdsSocket sock then w
  else if 0 ≤ sock.mSocketFd then { w with closed := sock.mSocketFd :: w.closed }
  else w

/-- Transcription of `SessionManager::removeSession`. The temporary `Socket(client_fd)`
owns the descriptor and closes it when it goes out of scope. -/
def World.removeSession (w : World) (client_fd : Int) : World :=
  if client_fd < 0 then w
  else
    match mapFind w.client_sessions_ client_fd with
    | some session_id =>
      let w1 :=
        match mapFind w.sessions_ session_id with
        | some _ =>
          let w2 := w.updSession session_id fun s => s.removeClient (some ⟨client_fd⟩)
          { w2 with closed := client_fd :: w2.closed }
        | none => w
      { w1 with client_sessions_ := mapErase w1.client_sessions_ client_fd }
    | none => w

/-- Transcription of `SessionManager::getSessionByIndex`, called with an `int32_t` that is
converted to `size_t`: the key of the session found, `none` for `nullptr`. -/
def World.getSessionByIndex (w : World) (index : Int) : Option Int :=
  let i := (index % 2 ^ 64).toNat
  if i < w.available_sessions_.length then
    let session_id := w.available_sessions_.getD i 0
    (mapFind w.sessions_ session_id).map fun _ => session_id
  else none

/-- Result of a handler that may throw: the state reached, and the message of the
exception that left the handler, if one did. -/
abbrev Outcome := World × Option String

/-- Transcription of `Session::handleClose` on the session stored under `self`. -/
def handleClose (w : World) (self : Int) (client_socket : Option Socket) : World :=
  match client_socket with
  | none => w
  | some sock =>
    if !sock.isValid then w
    else
      let client_fd := sock.getSocketFd
      let w1 := w.updSession self fun s => s.removeClient (some sock)
      let w2 := w1.removeSession client_fd
      w2.updSession self fun s => { s with io_ring_ := s.io_ring_.prepareClose client_fd }

/-- Transcription of `Session::onClientJoinSession`. -/
def onClientJoinSession (w : World) (self : Int) (client_socket : Option Socket)
    (target_session_id : Int) : Outcome :=
  match client_socket with
  | none => (w, some "Invalid client socket")
  | some sock =>
    if !sock.isValid then (w, some "Invalid client socket")
    else
      let client_fd := sock.getSocketFd
      let w1 := w.updSession self fun s => s.removeClient (some sock)
      match w1.getSessionByIndex target_session_id with
      | none => (w1, some "요청한 세션을 찾을 수 없음")
      | some target =>
        let w2 := w1.removeSession client_fd
        (w2.updSession target fun s => s.addClient (some sock), none)

/-- Transcription of `Session::sendMessage`; `data` is the address passed as
`const void* data`. -/
def sendMessage (w : World) (self : Int) (client_socket : Option Socket) (msg_type : Nat)
    (data : Nat) (length : Nat) (buffer_idx : Nat) : Outcome :=
  match client_socket with
  | none => (w, some "Invalid client socket")
  | some sock =>
    if !sock.isValid then (w, some "Invalid client socket")
    else
      let client_fd := sock.getSocketFd
      let mutable_message := data
      let w1 := { w with mem := memWrite w.mem mutable_message (headerBytes msg_type (length % 65536)) }
      if length > MAX_MESSAGE_SIZE then (w1, some "메시지 크기 초과")
      else
        let total_size :=
          CHAT_MESSAGE_HEADER_SIZE + u16of (w1.mem (mutable_message + 1)) (w1.mem (mutable_message + 2))
        (w1.updSession self fun s =>
          { s with io_ring_ :=
              s.io_ring_.prepareWrite client_fd mutable_message (total_size % 2 ^ 32) buffer_idx },
         none)

/-- A `std::string` with the given text is built with its storage at `w.heap`: its bytes
and the terminating 0 are in memory from there on, and the storage is in use (again). -/
def World.putString (w : World) (text : String) : World :=
  { w with
    mem := memWrite w.mem w.heap (text.toUTF8.toList.map (fun b => b.toNat) ++ [0])
    freed := w.freed.filter fun a => a != w.heap }

/-- The `std::string` with its storage at `addr` goes out of scope: the storage is
released. What a later read of released storage finds is not defined; the bytes are left
as they were. -/
def World.freeString (w : World) (addr : Nat) : World :=
  { w with freed := addr :: w.freed }

/-- Transcription of `Session::handleJoinSession`; `message` is the address of the
`ChatMessage`. The strings `msg` and `error_message` are locals of the `if` block and of
the `catch` block: each is destroyed when its block is left, by `return`, by its end or by
an exception, which is after `sendMessage` has prepared the write that points into it and
before `processEvents` submits that write. `client_socket` is a copy of the caller's
`SocketPtr`, so no `Socket` is destroyed while the handler runs. -/
def handleJoinSession (w : World) (self : Int) (client_socket : Option Socket) (message : Nat)
    (buffer_idx : Nat) : Outcome :=
  match client_socket, w.session self with
  | some sock, some s =>
    if !sock.isValid then (w, none)
    else if message = 0 ∨ u16of (w.mem (message + 1)) (w.mem (message + 2)) < 4 then (w, none)
    else
      let data := message + CHAT_MESSAGE_HEADER_SIZE
      let requested_session_id :=
        toInt32 (w.mem data % 256 + 256 * (w.mem (data + 1) % 256)
          + 65536 * (w.mem (data + 2) % 256) + 16777216 * (w.mem (data + 3) % 256))
      if requested_session_id = s.session_id_ then
        let msg := "Already in session " ++ toString s.session_id_
        let r := sendMessage (w.putString msg) self client_socket SERVER_ACK w.heap
          msg.utf8ByteSize buffer_idx
        let w1 := r.1.freeString w.heap
        match r.2 with
        | none => (w1, none)
        | some what =>
          let error_message := "Failed to join session: " ++ what
          let r2 := sendMessage (w1.putString error_message) self client_socket SERVER_ERROR
            w1.heap error_message.utf8ByteSize buffer_idx
          (r2.1.freeString w1.heap, r2.2)
      else
        let r := onClientJoinSession w self client_socket requested_session_id
        match r.2 with
        | none => r
        | some what =>
          let error_message := "Failed to join session: " ++ what
          let r2 := sendMessage (r.1.putString error_message) self client_socket SERVER_ERROR
            r.1.heap error_message.utf8ByteSize buffer_idx
          (r2.1.freeString r.1.heap, r2.2)
  | _, _ => (w, none)

/-- Transcription of `Session::handleLeaveSession`. -/
def handleLeaveSession (w : World) (self : Int) (client_socket : Option Socket) (_message : Nat)
    (_buffer_idx : Nat) : World :=
  match client_socket with
  | none => w
  | some sock => if !sock.isValid then w else handleClose w self client_socket

/-- Transcription of `Session::handleChatMessage`. -/
def handleChatMessage (w : World) (self : Int) (client_socket : Option Socket) (message : Nat)
    (buffer_idx : Nat) : Outcome :=
  match client_socket with
  | none => (w, none)
  | some sock =>
    if !sock.isValid then (w, none)
    else
      let length := u16of (w.mem (message + 1)) (w.mem (message + 2))
      if message = 0 ∨ length = 0 ∨ length > MAX_MESSAGE_SIZE then (w, none)
      else
        sendMessage w self client_socket SERVER_ECHO (message + CHAT_MESSAGE_HEADER_SIZE) length
          buffer_idx

/-- Transcription of `Session::processMessage`; `total_messages_` is incremented when the
handler returns normally. -/
def processMessage (w : World) (self : Int) (client_socket : Option Socket) (message : Nat)
    (buffer_idx : Nat) : Outcome :=
  match client_socket with
  | none => (w, none)
  | some sock =>
    if !sock.isValid then (w, none)
    else
      let type := w.mem message % 256
      let r : Outcome :=
        if type = CLIENT_JOIN then handleJoinSession w self client_socket message buffer_idx
        else if type = CLIENT_LEAVE then
          (handleLeaveSession w self client_socket message buffer_idx, none)
        else if type = CLIENT_CHAT then handleChatMessage w self client_socket message buffer_idx
        else (w, none)
      match r.2 with
      | some what => (r.1, some what)
      | none =>
        (r.1.updSession self fun s => { s with total_messages_ := s.total_messages_ + 1 }, none)

/-- The statements of `Session::handleRead` that follow the copy
`SocketPtr client_socket = it->second`, for the session `s` stored under `self` and the
socket `sock` found in its connection map. -/
def handleReadBody (w : World) (self : Int) (s : Session) (sock : Socket) (cqe : Cqe)
    (ctx : Operation) : Outcome :=
  let result := cqe.res
  let client_fd := ctx.client_fd
  let buffer_idx := ctx.buffer_idx
  let client_socket := some sock
  if result = 0 ∨ result = -EBADF ∨ result = -ECONNRESET then
    (handleClose w self client_socket, none)
  else if result < 0 then
    if result = -ENOBUFS then (w, none) else (handleClose w self client_socket, none)
  else if cqe.flags &&& IORING_CQE_F_BUFFER = 0 then (handleClose w self client_socket, none)
  else
    match UringBuffer.getBufferAddr buffer_idx s.io_ring_.buffer_manager_.buffer_base_addr_ with
    | none => (handleClose w self client_socket, none)
    | some addr =>
      if result < (CHAT_MESSAGE_HEADER_SIZE : Int) then (handleClose w self client_socket, none)
      else
        let message := addr
        let msg_type := w.mem message % 256
        let length := u16of (w.mem (message + 1)) (w.mem (message + 2))
        let r : Outcome × Bool :=
          if msg_type < CLIENT_JOIN ∨ msg_type > CLIENT_COMMAND then
            ((handleClose w self client_socket, none), true)
          else if length > MAX_MESSAGE_SIZE then ((handleClose w self client_socket, none), true)
          else if length = 0 then ((handleClose w self client_socket, none), true)
          else if result < ((CHAT_MESSAGE_HEADER_SIZE + length : Nat) : Int) then
            ((handleClose w self client_socket, none), true)
          else (processMessage w self client_socket message buffer_idx, false)
        match r.1.2 with
        | some what => (r.1.1, some what)
        | none =>
          if !r.2 ∧ cqe.flags &&& IORING_CQE_F_MORE = 0 then
            (r.1.1.updSession self fun t => { t with io_ring_ := t.io_ring_.prepareRead client_fd },
             none)
          else r.1

/-- Transcription of `Session::handleRead` (a read completion `cqe` with decoded context
`ctx`) on the session stored under `self`. The local `client_socket` is a copy of the
`SocketPtr` in the connection map; it is released when the handler is left, by `return`
or by an exception. The handler prepares submission queue entries only: `processEvents`
submits them after the handlers of the batch have returned. -/
def handleRead (w : World) (self : Int) (cqe : Cqe) (ctx : Operation) : Outcome :=
  match w.session self with
  | none => (w, none)
  | some s =>
    match mapFind s.client_sockets_ ctx.client_fd with
    | none => (w, none)
    | some sock =>
      let r := handleReadBody w self s sock cqe ctx
      (r.1.releaseSocket sock, r.2)

/-- Transcription of `Session::handleWrite` on the session stored under `self`. The
argument of `handleClose` is a copy of the `SocketPtr` in the connection map, released
when the call has returned. -/
def handleWrite (w : World) (self : Int) (cqe : Cqe) (ctx : Operation) : World :=
  if cqe.res < 0 ∧ cqe.res ≠ -(EAGAIN : Int) ∧ cqe.res ≠ -ECONNRESET then
    match (w.session self).bind fun s => mapFind s.client_sockets_ ctx.client_fd with
    | some sock => (handleClose w self (some sock)).releaseSocket sock
    | none => w
  else
    w.updSession self fun s =>
      { s with io_ring_ := s.io_ring_.handleWriteComplete ctx.client_fd ctx.buffer_idx cqe.res }

end Uring

/-! ## Definitions used to state the properties -/

/-- The frame `CLIENT_CHAT(P)` on the wire: type 0x13, `|P|` as a little-endian
`uint16_t`, then `P`. -/
def chatFrame (P : List Nat) : List Nat :=
  0x13 :: u16le P.length ++ P

/-- The frame `SERVER_ECHO(P)` on the wire: type 0x05, `|P|` as a little-endian
`uint16_t`, then `P`. -/
def echoFrameBytes (P : List Nat) : List Nat :=
  0x05 :: u16le P.length ++ P

/-- The concatenation of the `CLIENT_CHAT` frames of the payloads, in order. -/
def chatFrames : List (List Nat) → List Nat
  | [] => []
  | P :: Ps => chatFrame P ++ chatFrames Ps

namespace Epoll

/-- One call on the buffer pool. -/
inductive PoolOp where
  | allocate
  | release (buffer_id : Int)
deriving DecidableEq, Repr

/-- The pool after one call. -/
def EPollBuffer.applyOp (p : EPollBuffer) : PoolOp → EPollBuffer
  | PoolOp.allocate => p.allocateBuffer.2
  | PoolOp.release buffer_id => p.releaseBuffer buffer_id

/-- The pool after a sequence of calls, first call first. -/
def EPollBuffer.runOps (p : EPollBuffer) : List PoolOp → EPollBuffer
  | [] => p
  | op :: ops => (p.applyOp op).runOps ops

/-- No call of the sequence releases an id that is in the free list at that moment. -/
def EPollBuffer.releasesOnlyLent (p : EPollBuffer) : List PoolOp → Prop
  | [] => True
  | PoolOp.allocate :: ops => (p.applyOp PoolOp.allocate).releasesOnlyLent ops
  | PoolOp.release buffer_id :: ops =>
    buffer_id ∉ p.free_buffers_ ∧ (p.applyOp (PoolOp.release buffer_id)).releasesOnlyLent ops

/-- Whether a sequence of calls releases only ids that are not free is decidable. -/
def EPollBuffer.decReleasesOnlyLent :
    (ops : List PoolOp) → (p : EPollBuffer) → Decidable (p.releasesOnlyLent ops)
  | [], _ => isTrue trivial
  | PoolOp.allocate :: ops, p => decReleasesOnlyLent ops (p.applyOp PoolOp.allocate)
  | PoolOp.release buffer_id :: ops, p =>
    @instDecidableAnd _ _ _ (decReleasesOnlyLent ops (p.applyOp (PoolOp.release buffer_id)))

instance (p : EPollBuffer) (ops : List PoolOp) : Decidable (p.releasesOnlyLent ops) :=
  EPollBuffer.decReleasesOnlyLent ops p

/-- The free list holds each id at most once and only indices of pool slots. -/
def EPollBuffer.FreeOk (p : EPollBuffer) : Prop :=
  p.free_buffers_.Nodup ∧ ∀ x ∈ p.free_buffers_, 0 ≤ x ∧ x < (p.buffer_pool_.length : Int)

/-- The default pool of a session with the frame `13 05 00 'Hello'` in slot 0. -/
def helloPool : EPollBuffer :=
  (EPollBuffer.new 1024 256).store (some 0) 0 [0x13, 5, 0, 72, 101, 108, 108, 111]

/-- The handle of slot 0 after 8 bytes have been read into it. -/
def helloBuffer : IOBuffer :=
  { data := some 0, length := 8, write_offset := 0, buffer_id := 0 }

end Epoll

namespace Epoll

/-- A session as `Session(0)` builds it (epoll descriptor 3) after `addClient` of the
connection with descriptor 5. -/
def demoSession : Session :=
  Session.addClient
    { session_id_ := 0, client_sockets_ := []
      epoll_ := { EPoll.new with epoll_fd_ := 3, epoll_initialized_ := true }
      errno := 0, sent := [] }
    (some ⟨5⟩)

/-- The bytes of every buffer queued for `client_fd`, front of the queue first. -/
def Session.queuedBytes (s : Session) (client_fd : Int) : List (List Nat) :=
  (s.epoll_.buffer_manager_.queue client_fd).map s.epoll_.buffer_manager_.bytesOf

end Epoll

namespace Uring

/-- Address at which the buffer ring of the demo session is mapped. -/
def demoRingAddr : Nat := 0x10000000

/-- Address of receive buffer `idx` of the demo session. -/
def demoBuf (idx : Nat) : Nat :=
  get_buffer_base_addr demoRingAddr + idx * IO_BUFFER_SIZE

/-- The session `Session(0)` after `addClient` of the connection with descriptor 5, when
the buffer ring still holds the buffers `ring`. -/
def demoUringSession (ring : List Nat) : Session :=
  { (Session.new 0 demoRingAddr).addClient (some ⟨5⟩) with
    io_ring_ :=
      { ((Session.new 0 demoRingAddr).addClient (some ⟨5⟩)).io_ring_ with
        buffer_manager_ :=
          { buffer_base_addr_ := get_buffer_base_addr demoRingAddr, buf_ring := ring } } }

/-- A manager with the single session 0, to which the connection with descriptor 5 has
been assigned; the kernel has stored `bytes` in buffer 0 and the buffer ring still holds
the buffers `ring`. -/
def demoWorldWith (ring : List Nat) (bytes : List Nat) : World :=
  { sessions_ := [(0, demoUringSession ring)]
    client_sessions_ := [(5, 0)], available_sessions_ := [0], next_session_id_ := 1
    next_session_index_ := 1
    mem := memWrite (fun _ => 0) (demoBuf 0) bytes
    heap := 0x20000000, freed := [], closed := [] }

/-- The world `demoWorldWith` when buffer 0 is the only buffer the kernel has taken. -/
def demoWorld (bytes : List Nat) : World :=
  demoWorldWith (List.range NUM_IO_BUFFERS).tail bytes

/-- The completion of the receive armed by `prepareRead(5)`: `n` bytes in buffer `bid`. -/
def demoCqe (n : Int) (bid : Nat) : Cqe :=
  { user_data := (setContext Sqe.blank OP_READ 5 0).user_data, res := n
    flags := bid <<< IORING_CQE_BUFFER_SHIFT ||| IORING_CQE_F_BUFFER ||| IORING_CQE_F_MORE }

/-- The bytes each write submitted by session `sid` carries, oldest first. -/
def World.writtenBytes (w : World) (sid : Int) : List (List Nat) :=
  match w.session sid with
  | some s => s.io_ring_.writes.map fun q => memRead w.mem q.addr q.len
  | none => []

/-- The buffer ring of session `sid`. -/
def World.bufRing (w : World) (sid : Int) : List Nat :=
  match w.session sid with
  | some s => s.io_ring_.buffer_manager_.buf_ring
  | none => []

/-- The world after the first message `13 01 00 'A'` of connection 5 has been handled
(it arrived in buffer 0) and the kernel has stored the next bytes it received,
`99 01 00 'A'`, in buffer 1, the next buffer of the ring. -/
def secondReadWorld : World :=
  let w1 := (handleRead (demoWorld [0x13, 1, 0, 0x41]) 0 (demoCqe 4 0) (getContext (demoCqe 4 0))).1
  { w1 with mem := memWrite w1.mem (demoBuf 1) [0x99, 1, 0, 0x41] }

/-- The descriptors in the connection map of session `sid`. -/
def World.clientFds (w : World) (sid : Int) : List Int :=
  match w.session sid with
  | some s => s.getClientFds
  | none => []

/-- The value of `total_messages_` of session `sid`. -/
def World.totalMessages (w : World) (sid : Int) : Nat :=
  match w.session sid with
  | some s => s.total_messages_
  | none => 0

/-- A change of a session that leaves its buffer ring alone. -/
def KeepsRing (f : Session → Session) : Prop :=
  ∀ s, (f s).io_ring_.buffer_manager_ = s.io_ring_.buffer_manager_

end Uring

namespace Epoll

/-! ## SessionManager of the epoll server (SessionManager.h, SessionManager.cpp) -/

/-- The singleton `SessionManager` of the epoll server with the sessions it owns. -/
structure SessionManager where
  sessions_ : List (Int × Session)
  client_sessions_ : List (Int × Int)
  available_sessions_ : List Int
  next_session_id_ : Nat
  next_session_index_ : Nat
  thread_count_ : Nat
deriving DecidableEq, Repr

/-- The manager as its constructor leaves it. -/
def SessionManager.fresh : SessionManager :=
  { sessions_ := [], client_sessions_ := [], available_sessions_ := [], next_session_id_ := 0
    next_session_index_ := 0, thread_count_ := 0 }

/-- Transcription of `SessionManager::setThreadCount`; `thread_count` is an
`unsigned int`, `hw` is the value of `std::thread::hardware_concurrency()`. -/
def SessionManager.setThreadCount (m : SessionManager) (thread_count hw : Nat) : SessionManager :=
  { m with thread_count_ :=
      if thread_count % 2 ^ 32 > 0 then thread_count % 2 ^ 32 else hw % 2 ^ 32 }

/-- The `for` loop of `SessionManager::initialize` with `count` iterations left;
`created i` is the value of `epoll_create1(0)` in the constructor of session `i`, and
`none` is the exception that constructor throws. -/
def SessionManager.createSessions (created : Nat → Int) :
    Nat → SessionManager → Option SessionManager
  | 0, m => some m
  | count + 1, m =>
    let session_id := Uring.toInt32 m.next_session_id_
    match Session.new session_id (created m.next_session_id_) with
    | none => none
    | some session =>
      SessionManager.createSessions created count
        { m with
          next_session_id_ := (m.next_session_id_ + 1) % 2 ^ 64
          sessions_ := mapSet m.sessions_ session_id session
          available_sessions_ := m.available_sessions_ ++ [session_id] }

/-- Transcription of `SessionManager::initialize` of the epoll server. The destructor of
a session dropped by `sessions_.clear()` unregisters and closes the descriptors of its
connections and destroys its reactor; it does not call the manager, and the dropped
session is no part of the state afterwards. -/
def SessionManager.initialize (m : SessionManager) (hw : Nat) (created : Nat → Int) :
    Option SessionManager :=
  let num_sessions :=
    if m.thread_count_ = 0 then (if hw % 2 ^ 32 = 0 then 1 else hw % 2 ^ 32) else m.thread_count_
  SessionManager.createSessions created num_sessions
    { m with sessions_ := [], client_sessions_ := [], available_sessions_ := []
             next_session_id_ := 0 }

/-- The manager after the session stored under `sid` has been changed by `f`. -/
def SessionManager.updSession (m : SessionManager) (sid : Int) (f : Session → Session) :
    SessionManager :=
  match mapFind m.sessions_ sid with
  | some s => { m with sessions_ := m.sessions_.map fun e => if e.1 = sid then (e.1, f s) else e }
  | none => m

/-- Transcription of `SessionManager::assignClientToSession(SocketPtr)` of the epoll
server: the value returned and the manager afterwards. -/
def SessionManager.assignClientToSession (m : SessionManager) (client_socket : Option Socket) :
    Int × SessionManager :=
  match client_socket with
  | none => (-1, m)
  | some sock =>
    if !sock.isValid then (-1, m)
    else
      let client_fd := sock.getSocketFd
      if m.available_sessions_.isEmpty then (-1, m)
      else
        let index := m.next_session_index_ % m.available_sessions_.length
        let m1 := { m with next_session_index_ := (m.next_session_index_ + 1) % 2 ^ 64 }
        let session_id := m.available_sessions_.getD index 0
        match mapFind m1.sessions_ session_id with
        | none => (-1, m1)
        | some _ =>
          let m2 := { m1 with client_sessions_ := mapSet m1.client_sessions_ client_fd session_id }
          (session_id, m2.updSession session_id fun s => s.addClient (some sock))

/-- Transcription of `SessionManager::getSession` of the epoll server: the key of the
session returned, `none` for `nullptr`. -/
def SessionManager.getSession (m : SessionManager) (client_fd : Int) : Option Int :=
  match mapFind m.client_sessions_ client_fd with
  | some session_id => (mapFind m.sessions_ session_id).map fun _ => session_id
  | none => none

/-- The manager after `Session::handleClose(client_socket)` has run on the session stored
under `sid`: the handler has no access path to the manager's maps. -/
def SessionManager.sessionHandleClose (m : SessionManager) (sid : Int)
    (client_socket : Option Socket) : SessionManager :=
  m.updSession sid fun s => s.handleClose client_socket

/-- The descriptors in the connection map of the session stored under `sid`. -/
def SessionManager.clientFds (m : SessionManager) (sid : Int) : List Int :=
  match mapFind m.sessions_ sid with
  | some s => s.getClientFds
  | none => []

/-- Sequential `assignClientToSession` calls, one per socket: the manager afterwards and
the values returned, in call order. -/
def SessionManager.assignAll (m : SessionManager) : List Socket → SessionManager × List Int
  | [] => (m, [])
  | sock :: socks =>
    let r := m.assignClientToSession (some sock)
    let rest := SessionManager.assignAll r.2 socks
    (rest.1, r.1 :: rest.2)

end Epoll

namespace Uring

/-! ## SessionManager of the io_uring server: initialize and assignClientToSession -/

/-- The manager as its constructor leaves it, in a process with memory `mem`. -/
def World.fresh (mem : Mem) (heap : Nat) : World :=
  { sessions_ := [], client_sessions_ := [], available_sessions_ := [], next_session_id_ := 0
    next_session_index_ := 0, mem := mem, heap := heap, freed := [], closed := [] }

/-- The `for` loop of `SessionManager::initialize` with `count` iterations left; the
buffer ring of session `i` is mapped at `ring_addr i`. -/
def World.createSessions (ring_addr : Nat → Nat) : Nat → World → World
  | 0, w => w
  | count + 1, w =>
    let session_id := toInt32 w.next_session_id_
    World.createSessions ring_addr count
      { w with
        next_session_id_ := (w.next_session_id_ + 1) % 2 ^ 64
        sessions_ := mapSet w.sessions_ session_id (Session.new session_id (ring_addr w.next_session_id_))
        available_sessions_ := w.available_sessions_ ++ [session_id] }

/-- Whether `Session::~Session` finds a connection to close: its loop calls `handleClose`
for every socket of the connection map, and `handleClose` returns at once for a socket
that is not valid. -/
def Session.hasValidClient (s : Session) : Bool :=
  s.client_sockets_.any fun c => c.2.isValid

/-- Transcription of `SessionManager::initialize(num_threads)` of the io_uring server,
which holds `mutex_` from its first statement to its last; `hw` is the value of
`std::thread::hardware_concurrency()`. `sessions_.clear()` destroys the sessions: the map
is their only owner here, no worker thread of `start()` holds one. `Session::~Session`
calls `handleClose` for each connection of the session, and `handleClose` of a valid
socket calls `SessionManager::removeSession`, which locks `mutex_`, a `std::mutex` the
thread already owns: the language leaves that undefined, and with the mutex of the
platform the thread waits for itself, so `initialize` does not return (`none`). A session
without a valid connection is destroyed without a change of the state. -/
def World.initialize (w : World) (num_threads hw : Nat) (ring_addr : Nat → Nat) :
    Option World :=
  let n := if num_threads = 0 then (if hw % 2 ^ 32 = 0 then 1 else hw % 2 ^ 32) else num_threads
  if w.sessions_.any (fun e => e.2.hasValidClient) then none
  else
    some (World.createSessions ring_addr n
      { w with sessions_ := [], available_sessions_ := [], next_session_id_ := 0 })

/-- Transcription of `SessionManager::assignClientToSession` of the io_uring server: the
value returned and the world afterwards. -/
def World.assignClientToSession (w : World) (client_socket : Option Socket) : Int × World :=
  match client_socket with
  | none => (-1, w)
  | some sock =>
    if !sock.isValid then (-1, w)
    else
      let client_fd := sock.getSocketFd
      if client_fd < 0 then (-1, w)
      else if w.available_sessions_.isEmpty then (-1, w)
      else
        let session_index := w.next_session_index_ % w.available_sessions_.length
        let w1 := { w with next_session_index_ := (w.next_session_index_ + 1) % 2 ^ 64 }
        let session_id := w.available_sessions_.getD session_index 0
        match mapFind w1.sessions_ session_id with
        | none => (-1, w1)
        | some _ =>
          let w2 := { w1 with client_sessions_ := mapSet w1.client_sessions_ client_fd session_id }
          (session_id, w2.updSession session_id fun s => s.addClient (some sock))

/-- Sequential `assignClientToSession` calls, one per socket: the world afterwards and
the values returned, in call order. -/
def World.assignAll (w : World) : List Socket → World × List Int
  | [] => (w, [])
  | sock :: socks =>
    let r := w.assignClientToSession (some sock)
    let rest := World.assignAll r.2 socks
    (rest.1, r.1 :: rest.2)

end Uring

namespace Uring

/-- A manager initialized with two sessions (ids 0 and 1, buffer rings 16 MiB apart) to
which the connection with descriptor 5 has been assigned; it is on session 0. -/
def twoSessionWorld : World :=
  match Uring.World.initialize (World.fresh (fun _ => 0) 0x20000000) 2 0
    fun i => demoRingAddr + i * 0x1000000 with
  | some w => (w.assignClientToSession (some ⟨5⟩)).2
  | none => World.fresh (fun _ => 0) 0x20000000

/-- The completion of the receive armed by `prepareRead(5)` when the peer has closed the
connection: `res = 0`, no buffer. -/
def eofCqe : Cqe :=
  { user_data := (setContext Sqe.blank OP_READ 5 0).user_data, res := 0, flags := 0 }

/-- The manager `twoSessionWorld` after the peer of connection 5 has closed it and
session 0 has handled the completion: no session has a connection, and one assignment
has been made. -/
def closedClientWorld : World :=
  (handleRead twoSessionWorld 0 eofCqe (getContext eofCqe)).1

/-- The little-endian `int32_t` at address `addr`. -/
def readInt32 (mem : Mem) (addr : Nat) : Int :=
  toInt32 (mem addr % 256 + 256 * (mem (addr + 1) % 256) + 65536 * (mem (addr + 2) % 256)
    + 16777216 * (mem (addr + 3) % 256))

end Uring


namespace Epoll

/-! ## Definitions used to state the ordering of written bytes -/

/-- One step on the write side of a connection: a call `prepareWrite(fd, A, |A|)`, or one
run of `handleWrite` during which the `write` calls have the outcomes `ws`. -/
inductive WriteOp where
  | prepare (A : List Nat)
  | flush (ws : List WriteResult)
deriving DecidableEq, Repr

/-- A `write` that accepts some count of bytes, or would block. -/
def WriteResult.benign : WriteResult → Bool
  | WriteResult.wrote _ => true
  | WriteResult.fail e => e == EAGAIN

/-- The bytes the descriptor `fd` has accepted so far. -/
def Session.sentTo (s : Session) (fd : Int) : List Nat :=
  (mapFind s.sent fd).getD []

/-- The bytes of the write queue of `client_fd` that have not been written: of every
queued buffer, front first, the bytes from `write_offset` to `length`. -/
def EPollBuffer.pendingBytes (p : EPollBuffer) (client_fd : Int) : List Nat :=
  ((p.queue client_fd).map fun b =>
    readBytes (p.slot b.data) b.write_offset (b.length - b.write_offset)).flatten

/-- The session after one step on the connection `sock`. -/
def Session.applyWriteOp (s : Session) (sock : Socket) : WriteOp → Session
  | WriteOp.prepare A =>
    { s with epoll_ := (s.epoll_.prepareWrite sock.getSocketFd (some A) A.length).2 }
  | WriteOp.flush ws => (s.handleWrite (some sock) ws).1

/-- The session after a sequence of steps on the connection `sock`, first step first. -/
def Session.runWriteOps (s : Session) (sock : Socket) : List WriteOp → Session
  | [] => s
  | op :: ops => (s.applyWriteOp sock op).runWriteOps sock ops

/-- Every `prepareWrite` of the sequence returns `true` in the state it is called in, and
every `write` accepts bytes or would block. -/
def Session.writeOpsOk (s : Session) (sock : Socket) : List WriteOp → Bool
  | [] => true
  | WriteOp.prepare A :: ops =>
    (s.epoll_.prepareWrite sock.getSocketFd (some A) A.length).1 &&
      (s.applyWriteOp sock (WriteOp.prepare A)).writeOpsOk sock ops
  | WriteOp.flush ws :: ops =>
    ws.all WriteResult.benign && (s.applyWriteOp sock (WriteOp.flush ws)).writeOpsOk sock ops

/-- The concatenation `A_1 ++ ... ++ A_k` of the buffers prepared by a sequence of steps. -/
def preparedBytes : List WriteOp → List Nat
  | [] => []
  | WriteOp.prepare A :: ops => A ++ preparedBytes ops
  | WriteOp.flush _ :: ops => preparedBytes ops

/-- The session `handleWrite` continues with after one `writeFromBuffer`: the front of
the queue of `client_fd` is the updated handle `buffer1`, and the descriptor has accepted
the bytes `out`. -/
def Session.afterWrite (s : Session) (client_fd : Int) (buffer1 : IOBuffer) (out : List Nat)
    (errno1 : Nat) : Session :=
  let bm := s.epoll_.buffer_manager_
  let queue1 := buffer1 :: (bm.queue client_fd).tail
  let bm1 := { bm with client_buffers_ := mapSet bm.client_buffers_ client_fd queue1 }
  { s with
    epoll_ := { s.epoll_ with buffer_manager_ := bm1 }
    errno := errno1
    sent := mapSet s.sent client_fd ((mapFind s.sent client_fd).getD [] ++ out) }

/-- The write queue of `client_fd` is consistent with the pool: the free list is in order,
the queued ids are distinct, and every queued buffer is lent (not free), points to its own
slot and has bytes left to write. -/
def EPollBuffer.QueueOk (p : EPollBuffer) (client_fd : Int) : Prop :=
  p.FreeOk ∧ ((p.queue client_fd).map IOBuffer.buffer_id).Nodup ∧
  ∀ b ∈ p.queue client_fd,
    b.buffer_id ∉ p.free_buffers_ ∧ 0 ≤ b.buffer_id ∧
    b.buffer_id < (p.buffer_pool_.length : Int) ∧ b.data = some b.buffer_id.toNat ∧
    b.write_offset < b.length

end Epoll


namespace Epoll

/-- Steps on connection 5 of the demo session: `prepareWrite` of `01 02 03`, a run of
`handleWrite` that gets 2 bytes out, `prepareWrite` of `04 05`, a run in which the first
`write` takes the rest of the first buffer and the second would block, and a run that
takes 1 byte. -/
def demoWriteOps : List WriteOp :=
  [WriteOp.prepare [1, 2, 3], WriteOp.flush [WriteResult.wrote 2], WriteOp.prepare [4, 5],
    WriteOp.flush [WriteResult.wrote 100, WriteResult.fail EAGAIN],
    WriteOp.flush [WriteResult.wrote 1]]

end Epoll


/-- The number of sessions asked of `initialize`: the thread count `t`, or with `t = 0`
the hardware concurrency `hw` of the host, or 1 when that is 0 too. -/
def sessionCount (t hw : Nat) : Nat :=
  if t = 0 then (if hw = 0 then 1 else hw) else t


/-- Six connections, accepted in this order. -/
def sixClients : List Socket :=
  [⟨10⟩, ⟨11⟩, ⟨12⟩, ⟨13⟩, ⟨14⟩, ⟨15⟩]

/-- Buffer rings of the sessions of a demo manager, 16 MiB apart. -/
def demoRings (i : Nat) : Nat :=
  Uring.demoRingAddr + i * 0x1000000

namespace Epoll

/-- An epoll manager that has been initialized with two sessions (on a host with 8
hardware threads, every `epoll_create1` returning descriptor 3) and has assigned the
connection with descriptor 5. -/
def usedManager : SessionManager :=
  (( SessionManager.initialize (SessionManager.fresh.setThreadCount 2 8) 8 fun _ => 3).map
    fun m => (m.assignClientToSession (some ⟨5⟩)).2).getD SessionManager.fresh

end Epoll


namespace Epoll

/-! ## Ready events of the reactor (EPoll.h, EPoll.cpp) -/

/-- The struct `epoll_event`: the event mask and `data.fd`. -/
structure EpollEvent where
  events : Nat
  fd : Int
deriving DecidableEq, Repr

/-- Value of `EPoll::MAX_EVENTS`. -/
def MAX_EVENTS : Nat := 512

/-- The members `events_`, `num_events_` and `current_event_` of the class `EPoll`. -/
structure EventList where
  events_ : List EpollEvent
  num_events_ : Int
  current_event_ : Int
deriving DecidableEq, Repr

/-- These members as the constructor `EPoll()` leaves them. -/
def EventList.new : EventList :=
  { events_ := List.replicate MAX_EVENTS ⟨0, 0⟩, num_events_ := 0, current_event_ := 0 }

/-- Outcome of one `epoll_wait`: the ready events, which the call stores from the start
of the array on (at most `maxevents` of them, returning how many), or failure. -/
inductive WaitResult where
  | ready (evs : List EpollEvent)
  | fail
deriving DecidableEq, Repr

/-- Transcription of `EPoll::waitForEvents`: the value returned and the members after. -/
def EPoll.waitForEvents (e : EPoll) (q : EventList) (r : WaitResult) : Int × EventList :=
  if !e.epoll_initialized_ then (-1, q)
  else
    match r with
    | WaitResult.ready evs =>
      let got := evs.take MAX_EVENTS
      ((got.length : Int),
        { events_ := got ++ q.events_.drop got.length, num_events_ := (got.length : Int)
          current_event_ := 0 })
    | WaitResult.fail => (-1, { q with num_events_ := -1, current_event_ := 0 })

/-- The loop `while (current_event_ < num_events_ && count < max_events)` of
`EPoll::getEvents`; `out` holds `events[0 .. count)`. Every iteration increments `count`,
so `fuel = max_events` is never used up. -/
def EventList.getEventsLoop : Nat → EventList → Int → List EpollEvent →
    List EpollEvent × EventList
  | 0, q, _, out => (out, q)
  | fuel + 1, q, max_events, out =>
    if q.current_event_ < q.num_events_ ∧ (out.length : Int) < max_events then
      EventList.getEventsLoop fuel { q with current_event_ := q.current_event_ + 1 } max_events
        (out ++ [q.events_.getD q.current_event_.toNat ⟨0, 0⟩])
    else (out, q)

/-- Transcription of `EPoll::getEvents` (`events = false` is a null array): the value
returned, the events stored in the array, and the members after. -/
def EventList.getEvents (q : EventList) (events : Bool) (max_events : Int) :
    Int × List EpollEvent × EventList :=
  if !events ∨ max_events ≤ 0 then (0, [], q)
  else
    let r := EventList.getEventsLoop max_events.toNat q max_events []
    ((r.1.length : Int), r.1, r.2)

/-- Successive `getEvents` calls with the capacities `caps` (each with a non-null array):
the slices returned, in call order, and the members after the last call. -/
def EventList.drain (q : EventList) : List Int → List (List EpollEvent) × EventList
  | [] => ([], q)
  | c :: caps =>
    let r := q.getEvents true c
    let rest := EventList.drain r.2.2 caps
    (r.2.1 :: rest.1, rest.2)

/-- Transcription of `SessionManager::getSessionClients` of the epoll server; `none` is
the call whose behaviour is undefined (it dereferences `sessions_.end()`). -/
def SessionManager.getSessionClients (m : SessionManager) (session_id : Int) :
    Option (List Int) :=
  match mapFind m.sessions_ session_id with
  | some _ => some []
  | none => none

/-- The demo session when every buffer of its pool is lent. -/
def drainedSession : Session :=
  demoSession.withPool fun p => { p with free_buffers_ := [] }

/-- Three ready events, for the descriptors 5, 6 and 7. -/
def demoEvents : List EpollEvent :=
  [⟨EPOLLIN, 5⟩, ⟨EPOLLOUT, 6⟩, ⟨EPOLLIN, 7⟩]

end Epoll

namespace Uring

/-! ## The client (ChatClient.cpp) -/

/-- The members of `ChatClient` that `sendMessage` reads. -/
structure ChatClient where
  socket_ : Int
  running_ : Bool
deriving DecidableEq, Repr

/-- Transcription of `ChatClient::sendMessage` (`data = none` is a null pointer, otherwise
the bytes at `data`; the bytes of a fresh `new uint8_t[totalSize]` are taken to be 0;
`bytesSent` is the value of `send`): the value returned and the bytes handed to `send`,
`none` when `send` is not called. -/
def ChatClient.sendMessage (c : ChatClient) (type : Nat) (data : Option (List Nat))
    (length : Nat) (bytesSent : Int) : Bool × Option (List Nat) :=
  if c.socket_ < 0 ∨ !c.running_ then (false, none)
  else if length > MAX_MESSAGE_SIZE then (false, none)
  else
    let totalSize := CHAT_MESSAGE_HEADER_SIZE + length
    let buffer0 := writeBytes (List.replicate totalSize 0) 0 (headerBytes type (length % 65536))
    let buffer :=
      match data with
      | some bs =>
        if length > 0 then writeBytes buffer0 CHAT_MESSAGE_HEADER_SIZE (bs.take length) else buffer0
      | none => buffer0
    (decide (bytesSent = (totalSize : Int)), some buffer)

/-- Transcription of `ChatClient::sendChat`; `message` is the bytes of the string. -/
def ChatClient.sendChat (c : ChatClient) (message : List Nat) (bytesSent : Int) :
    Bool × Option (List Nat) :=
  c.sendMessage CLIENT_CHAT (some message) message.length bytesSent

/-- The world after connection 5 of the demo session has sent `first`, which arrived in
buffer 0 and has been handled, and the kernel has stored the next bytes it received,
`second`, in buffer 1, the next buffer of the ring. -/
def secondDelivery (first second : List Nat) : World :=
  let w1 := (handleRead (demoWorld first) 0 (demoCqe first.length 0)
    (getContext (demoCqe first.length 0))).1
  { w1 with mem := memWrite w1.mem (demoBuf 1) second }

end Uring


/-! ## Properties of the buffer pool of the epoll server -/

namespace Epoll

theorem releaseBuffer_free (p : EPollBuffer) (id : Int) :
    (p.releaseBuffer id).free_buffers_ =
      if id < 0 ∨ id ≥ (p.buffer_pool_.length : Int) then p.free_buffers_
      else p.free_buffers_ ++ [id] := by
  unfold EPollBuffer.releaseBuffer
  split <;> rfl

theorem releaseBuffer_pool (p : EPollBuffer) (id : Int) :
    (p.releaseBuffer id).buffer_pool_ = p.buffer_pool_ := by
  unfold EPollBuffer.releaseBuffer
  split <;> rfl

theorem allocateBuffer_pool (p : EPollBuffer) :
    p.allocateBuffer.2.buffer_pool_ = p.buffer_pool_ := by
  unfold EPollBuffer.allocateBuffer
  split <;> rfl

theorem freeOk_new (size count : Nat) : (EPollBuffer.new size count).FreeOk := by
  constructor
  · exact (List.nodup_range count).map (fun a b h => by simpa using h)
  · intro x hx
    simp only [EPollBuffer.new, List.mem_map, List.mem_range] at hx
    obtain ⟨i, hi, rfl⟩ := hx
    simp [EPollBuffer.new, hi]

theorem freeOk_applyOp (p : EPollBuffer) (op : PoolOp) (h : p.FreeOk)
    (hop : ∀ id, op = PoolOp.release id → id ∉ p.free_buffers_) : (p.applyOp op).FreeOk := by
  cases op with
  | allocate =>
    unfold EPollBuffer.applyOp EPollBuffer.allocateBuffer
    cases hf : p.free_buffers_ with
    | nil => exact h
    | cons a rest =>
      obtain ⟨h1, h2⟩ := h
      rw [hf] at h1 h2
      exact ⟨h1.of_cons, fun x hx => h2 x (List.mem_cons_of_mem _ hx)⟩
  | release id =>
    have hid := hop id rfl
    unfold EPollBuffer.applyOp
    refine ⟨?_, ?_⟩
    · rw [releaseBuffer_free]
      split
      · exact h.1
      · exact List.Nodup.append h.1 (List.nodup_singleton id) (by simpa using hid)
    · intro x hx
      rw [releaseBuffer_free] at hx
      rw [releaseBuffer_pool]
      split at hx
      · exact h.2 x hx
      · rename_i hr
        rcases List.mem_append.1 hx with hx | hx
        · exact h.2 x hx
        · simp only [List.mem_singleton] at hx
          subst hx
          omega

theorem freeOk_runOps (ops : List PoolOp) (p : EPollBuffer) (h : p.FreeOk)
    (hops : p.releasesOnlyLent ops) : (p.runOps ops).FreeOk := by
  induction ops generalizing p with
  | nil => exact h
  | cons op ops ih =>
    cases op with
    | allocate =>
      exact ih _ (freeOk_applyOp p _ h (fun id hid => by cases hid)) hops
    | release id =>
      exact ih _ (freeOk_applyOp p _ h (fun id2 hid => by cases hid; exact hops.1)) hops.2

theorem runOps_pool (ops : List PoolOp) (p : EPollBuffer) :
    (p.runOps ops).buffer_pool_ = p.buffer_pool_ := by
  induction ops generalizing p with
  | nil => rfl
  | cons op ops ih =>
    cases op with
    | allocate => exact (ih _).trans (allocateBuffer_pool p)
    | release id => exact (ih _).trans (releaseBuffer_pool p id)

theorem freeOk_length_le (p : EPollBuffer) (h : p.FreeOk) :
    p.free_buffers_.length ≤ p.buffer_pool_.length := by
  have hsub : p.free_buffers_ ⊆ (List.range p.buffer_pool_.length).map Int.ofNat := by
    intro x hx
    obtain ⟨h0, h1⟩ := h.2 x hx
    refine List.mem_map.2 ⟨x.toNat, List.mem_range.2 (by omega), ?_⟩
    simp [Int.toNat_of_nonneg h0]
  have := (List.subperm_of_subset h.1 hsub).length_le
  simpa using this

/-- C7: `allocateBuffer` on a pool with a non-empty free list returns the handle of the
head of the free list (non-null data, `length = 0`, `write_offset = 0`, `buffer_id` the
head) and leaves the tail as the free list; on an empty free list it returns the empty
handle (null data, `buffer_id = -1`) and leaves the pool unchanged. -/
theorem allocateBuffer_pops_head_or_returns_empty (p : EPollBuffer) :
    (∀ id rest, p.free_buffers_ = id :: rest →
      p.allocateBuffer =
        ({ data := some id.toNat, length := 0, write_offset := 0, buffer_id := id },
         { p with free_buffers_ := rest })) ∧
    (p.free_buffers_ = [] →
      p.allocateBuffer = ({ data := none, length := 0, write_offset := 0, buffer_id := -1 }, p)) := by
  constructor
  · intro id rest h
    simp [EPollBuffer.allocateBuffer, h, IOBuffer.ofSlot]
  · intro h
    simp [EPollBuffer.allocateBuffer, h, IOBuffer.empty]

/-- Witness for C7: a pool with free list `[3, 1]` and a pool with an empty free list. -/
theorem allocateBuffer_pops_head_or_returns_empty_witness :
    ({ EPollBuffer.new 8 4 with free_buffers_ := [3, 1] }).allocateBuffer =
        ({ data := some 3, length := 0, write_offset := 0, buffer_id := 3 },
         { EPollBuffer.new 8 4 with free_buffers_ := [1] }) ∧
    ({ EPollBuffer.new 8 4 with free_buffers_ := [] }).allocateBuffer =
        ({ data := none, length := 0, write_offset := 0, buffer_id := -1 },
         { EPollBuffer.new 8 4 with free_buffers_ := [] }) :=
  ⟨(allocateBuffer_pops_head_or_returns_empty
      { EPollBuffer.new 8 4 with free_buffers_ := [3, 1] }).1 3 [1] rfl,
   (allocateBuffer_pops_head_or_returns_empty
      { EPollBuffer.new 8 4 with free_buffers_ := [] }).2 rfl⟩

/-- C8, as the claim states it, fails: on a fresh pool of 2 buffers a release of id 0,
which is free, leaves the free list `[0, 1, 0]`: id 0 twice and 3 entries for 2 buffers. -/
theorem releaseBuffer_records_double_release :
    ((EPollBuffer.new 1024 2).runOps [PoolOp.release 0]).free_buffers_ = [0, 1, 0] ∧
    ¬ ((EPollBuffer.new 1024 2).runOps [PoolOp.release 0]).free_buffers_.Nodup ∧
    ¬ ((EPollBuffer.new 1024 2).runOps [PoolOp.release 0]).free_buffers_.length ≤ 2 := by
  decide

/-- C8 amended: on a fresh pool of `N` buffers, after every sequence of `allocateBuffer`
and `releaseBuffer` calls none of which releases an id that is in the free list at that
moment, the free list holds no id twice and at most `N` ids, and the id a further
`allocateBuffer` hands out is no longer in the free list (it is lent once). -/
theorem free_list_distinct_without_double_release (size N : Nat) (ops : List PoolOp)
    (hops : (EPollBuffer.new size N).releasesOnlyLent ops) :
    ((EPollBuffer.new size N).runOps ops).free_buffers_.Nodup ∧
    ((EPollBuffer.new size N).runOps ops).free_buffers_.length ≤ N ∧
    ∀ id rest, ((EPollBuffer.new size N).runOps ops).free_buffers_ = id :: rest →
      ((EPollBuffer.new size N).runOps ops).allocateBuffer.1.buffer_id = id ∧
      id ∉ ((EPollBuffer.new size N).runOps ops).allocateBuffer.2.free_buffers_ := by
  have h := freeOk_runOps ops _ (freeOk_new size N) hops
  refine ⟨h.1, ?_, ?_⟩
  · have := freeOk_length_le _ h
    rw [runOps_pool] at this
    simpa [EPollBuffer.new] using this
  · intro id rest hf
    have hn := h.1
    rw [hf] at hn
    simp only [EPollBuffer.allocateBuffer, hf, IOBuffer.ofSlot, true_and]
    exact (List.nodup_cons.1 hn).1

/-- Witness for C8 amended: allocate twice, then give both buffers back. -/
theorem free_list_distinct_without_double_release_witness :
    ((EPollBuffer.new 1024 2).runOps
      [PoolOp.allocate, PoolOp.allocate, PoolOp.release 1, PoolOp.release 0]).free_buffers_.Nodup ∧
    ((EPollBuffer.new 1024 2).runOps
      [PoolOp.allocate, PoolOp.allocate, PoolOp.release 1, PoolOp.release 0]).free_buffers_.length
        ≤ 2 :=
  have h := free_list_distinct_without_double_release 1024 2
    [PoolOp.allocate, PoolOp.allocate, PoolOp.release 1, PoolOp.release 0] (by decide)
  ⟨h.1, h.2.1⟩

/-- C6, at the failing input: the buffer holds the 8 bytes `13 05 00 'Hello'`, a whole
frame with header length 5 (at least 3 bytes, length at most 1021, at least 3 + 5 bytes
present), and `getMessageFromBuffer` returns false, leaving the out-parameter untouched. -/
theorem getMessageFromBuffer_rejects_whole_short_frame (message : ChatMessage) :
    helloPool.bytesOf helloBuffer = [0x13, 5, 0, 72, 101, 108, 108, 111] ∧
    (helloPool.copyMessage helloBuffer).length = 5 ∧
    3 ≤ helloBuffer.length ∧ 3 + 5 ≤ helloBuffer.length ∧
    helloPool.getMessageFromBuffer helloBuffer message = (false, message) := by
  refine ⟨by decide, by decide, by decide, by decide, ?_⟩
  simp [EPollBuffer.getMessageFromBuffer, helloBuffer, SIZEOF_CHAT_MESSAGE]

/-! ## The read handler of the epoll server -/

theorem writeBytes_zero (mem bs : List Nat) : writeBytes mem 0 bs = bs ++ mem.drop bs.length := by
  simp [writeBytes]

theorem slot_store (p : EPollBuffer) (i : Nat) (off : Nat) (bs : List Nat)
    (hi : i < p.buffer_pool_.length) :
    (p.store (some i) off bs).slot (some i) = writeBytes (p.slot (some i)) off bs := by
  simp [EPollBuffer.store, EPollBuffer.slot, List.getD_eq_getElem?_getD, hi]

theorem u16of_u16le (v : Nat) (h : v < 65536) :
    u16of (v % 256) (v / 256 % 256) = v := by
  unfold u16of
  omega

theorem readToBuffer_data (p : EPollBuffer) (i : Nat) (id : Int) (bs : List Nat) (errno : Nat)
    (h0 : bs ≠ []) (hsize : bs.length ≤ p.buffer_size_) :
    p.readToBuffer { data := some i, length := 0, write_offset := 0, buffer_id := id }
        (ReadResult.data bs) errno =
      ((bs.length : Int), { data := some i, length := bs.length, write_offset := 0, buffer_id := id },
        p.store (some i) 0 bs, errno, true) := by
  have hpos : 0 < bs.length := List.length_pos.2 h0
  have h1 : ¬ (0 ≥ p.buffer_size_) := by omega
  simp [EPollBuffer.readToBuffer, h1, List.take_of_length_le hsize, hpos]

theorem readToBuffer_fail (p : EPollBuffer) (i : Nat) (id : Int) (e errno : Nat)
    (hsize : 0 < p.buffer_size_) :
    p.readToBuffer { data := some i, length := 0, write_offset := 0, buffer_id := id }
        (ReadResult.fail e) errno =
      (if e = EAGAIN then 0 else -1,
        { data := some i, length := 0, write_offset := 0, buffer_id := id }, p, e, true) := by
  have h1 : ¬ (0 ≥ p.buffer_size_) := by omega
  simp only [EPollBuffer.readToBuffer, h1, Option.isNone_some, Bool.false_eq_true, or_self,
    if_false]
  split <;> rfl

theorem loop_data (sock : Socket) (k : Nat) (s : Session) (reads : List ReadResult)
    (bs : List Nat) (a : Int) (rest : List Int)
    (hfree : s.epoll_.buffer_manager_.free_buffers_ = a :: rest)
    (h0 : bs ≠ []) (hsize : bs.length ≤ s.epoll_.buffer_manager_.buffer_size_) :
    Session.handleReadLoop sock (k + 1) s (ReadResult.data bs :: reads) =
      (if (bs.length : Int) <
          ((Session.withPool (({ s with epoll_ := { s.epoll_ with buffer_manager_ :=
            ({ s.epoll_.buffer_manager_ with free_buffers_ := rest }).store (some a.toNat) 0 bs } }).echoFrame
              sock.getSocketFd { data := some a.toNat, length := bs.length, write_offset := 0, buffer_id := a }
              bs.length) (fun q => q.releaseBuffer a)).epoll_.buffer_manager_.buffer_size_ : Int)
       then
        (Session.withPool (({ s with epoll_ := { s.epoll_ with buffer_manager_ :=
            ({ s.epoll_.buffer_manager_ with free_buffers_ := rest }).store (some a.toNat) 0 bs } }).echoFrame
              sock.getSocketFd { data := some a.toNat, length := bs.length, write_offset := 0, buffer_id := a }
              bs.length) (fun q => q.releaseBuffer a), reads)
       else Session.handleReadLoop sock k
        (Session.withPool (({ s with epoll_ := { s.epoll_ with buffer_manager_ :=
            ({ s.epoll_.buffer_manager_ with free_buffers_ := rest }).store (some a.toNat) 0 bs } }).echoFrame
              sock.getSocketFd { data := some a.toNat, length := bs.length, write_offset := 0, buffer_id := a }
              bs.length) (fun q => q.releaseBuffer a)) reads) := by
  have hpos : 0 < bs.length := List.length_pos.2 h0
  have hz : ¬ ((bs.length : Int) = 0) := by omega
  have hn : ¬ ((bs.length : Int) < 0) := by omega
  have hstore : (({ s.epoll_.buffer_manager_ with free_buffers_ := rest } : EPollBuffer)).buffer_size_ =  s.epoll_.buffer_manager_.buffer_size_ := rfl
  rw [Session.handleReadLoop]
  simp only [EPollBuffer.hasAvailableBuffers, hfree, EPollBuffer.allocateBuffer, IOBuffer.ofSlot,
    List.isEmpty_cons, Bool.not_false, Bool.false_eq_true, if_false, Option.isNone_some,
    List.headD_cons]
  rw [readToBuffer_data _ _ _ _ _ h0 (by rw [hstore]; exact hsize)]
  simp only [hz, hn, if_false, if_true, List.tail_cons, Bool.not_true]
  rfl

theorem mapFind_mapSet_same {β : Type} (m : List (Int × β)) (k : Int) (v : β) :
    mapFind (mapSet m k v) k = some v := by
  simp [mapFind, mapSet]

theorem queue_addToClientQueue (p : EPollBuffer) (fd : Int) (b : IOBuffer) :
    (p.addToClientQueue fd b).queue fd = p.queue fd ++ [b] := by
  simp [EPollBuffer.addToClientQueue, EPollBuffer.queue, mapFind_mapSet_same]

theorem prepareWrite_ok (e : EPoll) (fd : Int) (bytes : List Nat) (len : Nat) (b : Int)
    (rest : List Int) (hinit : e.epoll_initialized_ = true)
    (hreg : (mapFind e.interest fd).isSome = true)
    (hfree : e.buffer_manager_.free_buffers_ = b :: rest)
    (hlen : 0 < len) (hsize : len ≤ e.buffer_manager_.buffer_size_) :
    e.prepareWrite fd (some bytes) len =
      (true, { e with
        buffer_manager_ :=
          (({ e.buffer_manager_ with free_buffers_ := rest }).store (some b.toNat) 0
            (bytes.take len)).addToClientQueue fd
              { data := some b.toNat, length := len, write_offset := 0, buffer_id := b }
        interest := mapSet e.interest fd (BASE_EVENTS ||| EPOLLOUT) }) := by
  have h1 : ¬ (len = 0) := by omega
  have h2 : ¬ (len > e.buffer_manager_.buffer_size_) := by omega
  have h3 : (mapFind e.interest fd).isNone = false := by
    cases h : mapFind e.interest fd <;> simp_all
  simp only [EPoll.prepareWrite, h1, hinit, EPollBuffer.hasAvailableBuffers, hfree,
    EPollBuffer.allocateBuffer, IOBuffer.ofSlot, List.isEmpty_cons, Bool.not_false,
    Bool.not_true, Bool.false_eq_true, if_false, Option.isNone_some, h2, EPoll.modifyEvent, h3]


theorem frame_decode (t : Nat) (P more tail : List Nat) (hP : P.length ≤ 1021) :
    u16of (((headerBytes t P.length ++ P ++ more) ++ tail).getD 1 0)
        (((headerBytes t P.length ++ P ++ more) ++ tail).getD 2 0) = P.length ∧
    readBytes ((headerBytes t P.length ++ P ++ more) ++ tail) 3 P.length = P := by
  constructor
  · simp only [headerBytes, u16le, List.cons_append, List.getD_cons_succ, List.getD_cons_zero]
    unfold u16of
    omega
  · simp [headerBytes, u16le, readBytes]

theorem echoFrame_frame (s : Session) (fd : Int) (buf : IOBuffer) (n : Int) (t : Nat)
    (P more tail : List Nat) (b : Int) (rest : List Int)
    (hmem : s.epoll_.buffer_manager_.slot buf.data = (headerBytes t P.length ++ P ++ more) ++ tail)
    (hP : P.length ≤ 1021) (hn : ((3 + P.length : Nat) : Int) ≤ n)
    (hinit : s.epoll_.epoll_initialized_ = true)
    (hreg : (mapFind s.epoll_.interest fd).isSome = true)
    (hfree : s.epoll_.buffer_manager_.free_buffers_ = b :: rest)
    (hsize : 3 + P.length ≤ s.epoll_.buffer_manager_.buffer_size_) :
    s.echoFrame fd buf n =
      { s with epoll_ := { s.epoll_ with
          buffer_manager_ :=
            (({ s.epoll_.buffer_manager_ with free_buffers_ := rest }).store (some b.toNat) 0
              (headerBytes SERVER_ECHO P.length ++ P)).addToClientQueue fd
                { data := some b.toNat, length := 3 + P.length, write_offset := 0, buffer_id := b }
          interest := mapSet (mapSet s.epoll_.interest fd (BASE_EVENTS ||| EPOLLOUT)) fd
            (BASE_EVENTS ||| EPOLLOUT) } } := by
  obtain ⟨hlen, hpay⟩ := frame_decode t P more tail hP
  have h3 : (3 : Int) ≤ n := by omega
  have htake : List.take (3 + P.length) (headerBytes SERVER_ECHO P.length ++ P) =
      headerBytes SERVER_ECHO P.length ++ P := by
    apply List.take_of_length_le
    simp [headerBytes, u16le]
    omega
  unfold Session.echoFrame
  simp only [hmem, hlen, hpay, CHAT_MESSAGE_HEADER_SIZE, MAX_MESSAGE_SIZE, ge_iff_le, hP, hn,
    Nat.cast_ofNat, h3, and_self, if_true]
  rw [prepareWrite_ok s.epoll_ fd _ _ b rest hinit hreg hfree (by omega) hsize]
  simp only [htake, hpay, Bool.not_true, Bool.false_eq_true, if_false, EPoll.modifyEvent, hinit,
    mapFind_mapSet_same, Option.isNone_some]

theorem echoFrame_oversize (s : Session) (fd : Int) (buf : IOBuffer) (n : Int)
    (h : MAX_MESSAGE_SIZE < u16of ((s.epoll_.buffer_manager_.slot buf.data).getD 1 0)
      ((s.epoll_.buffer_manager_.slot buf.data).getD 2 0)) :
    s.echoFrame fd buf n = s := by
  unfold Session.echoFrame
  have : ¬ (u16of ((s.epoll_.buffer_manager_.slot buf.data).getD 1 0)
      ((s.epoll_.buffer_manager_.slot buf.data).getD 2 0) ≤ MAX_MESSAGE_SIZE) := by omega
  split
  · simp only [this, false_and, if_false]
  · rfl

theorem loop_block (sock : Socket) (k : Nat) (s : Session) (c : Int) (rest : List Int)
    (hfree : s.epoll_.buffer_manager_.free_buffers_ = c :: rest)
    (hsize : 0 < s.epoll_.buffer_manager_.buffer_size_) :
    Session.handleReadLoop sock (k + 1) s [] =
      (({ s with
          epoll_ := { s.epoll_ with
            buffer_manager_ := { s.epoll_.buffer_manager_ with free_buffers_ := rest } }
          errno := EAGAIN }).withPool (fun q => q.releaseBuffer c), []) := by
  rw [Session.handleReadLoop]
  simp only [EPollBuffer.hasAvailableBuffers, hfree, EPollBuffer.allocateBuffer, IOBuffer.ofSlot,
    List.isEmpty_cons, Bool.not_false, Bool.false_eq_true, if_false, Option.isNone_some,
    List.headD_nil]
  rw [readToBuffer_fail { s.epoll_.buffer_manager_ with free_buffers_ := rest } _ _ _ _ hsize]
  simp

@[simp] theorem store_free (p : EPollBuffer) (d : Option Nat) (o : Nat) (l : List Nat) :
    (p.store d o l).free_buffers_ = p.free_buffers_ := by
  cases d <;> rfl

@[simp] theorem store_size (p : EPollBuffer) (d : Option Nat) (o : Nat) (l : List Nat) :
    (p.store d o l).buffer_size_ = p.buffer_size_ := by
  cases d <;> rfl

@[simp] theorem store_clients (p : EPollBuffer) (d : Option Nat) (o : Nat) (l : List Nat) :
    (p.store d o l).client_buffers_ = p.client_buffers_ := by
  cases d <;> rfl

@[simp] theorem store_pool_length (p : EPollBuffer) (d : Option Nat) (o : Nat) (l : List Nat) :
    (p.store d o l).buffer_pool_.length = p.buffer_pool_.length := by
  cases d <;> simp [EPollBuffer.store]

@[simp] theorem store_queue (p : EPollBuffer) (d : Option Nat) (o : Nat) (l : List Nat) (fd : Int) :
    (p.store d o l).queue fd = p.queue fd := by
  simp [EPollBuffer.queue]

@[simp] theorem release_clients (p : EPollBuffer) (id : Int) :
    (p.releaseBuffer id).client_buffers_ = p.client_buffers_ := by
  unfold EPollBuffer.releaseBuffer
  split <;> rfl

@[simp] theorem release_size (p : EPollBuffer) (id : Int) :
    (p.releaseBuffer id).buffer_size_ = p.buffer_size_ := by
  unfold EPollBuffer.releaseBuffer
  split <;> rfl

@[simp] theorem release_queue (p : EPollBuffer) (id : Int) (fd : Int) :
    (p.releaseBuffer id).queue fd = p.queue fd := by
  simp [EPollBuffer.queue]

@[simp] theorem release_slot (p : EPollBuffer) (id : Int) (d : Option Nat) :
    (p.releaseBuffer id).slot d = p.slot d := by
  simp [EPollBuffer.slot, releaseBuffer_pool]

@[simp] theorem release_bytesOf (p : EPollBuffer) (id : Int) (b : IOBuffer) :
    (p.releaseBuffer id).bytesOf b = p.bytesOf b := by
  simp [EPollBuffer.bytesOf]

theorem release_free_valid (p : EPollBuffer) (id : Int)
    (h : 0 ≤ id ∧ id < (p.buffer_pool_.length : Int)) :
    (p.releaseBuffer id).free_buffers_ = p.free_buffers_ ++ [id] := by
  rw [releaseBuffer_free]
  have : ¬ (id < 0 ∨ id ≥ (p.buffer_pool_.length : Int)) := by omega
  simp [this]

theorem mem_release_free (p : EPollBuffer) (id x : Int) (h : x ∈ p.free_buffers_) :
    x ∈ (p.releaseBuffer id).free_buffers_ := by
  rw [releaseBuffer_free]
  split
  · exact h
  · exact List.mem_append_left _ h

theorem bytesOf_store (p : EPollBuffer) (i : Nat) (id : Int) (bs : List Nat)
    (hi : i < p.buffer_pool_.length) :
    (p.store (some i) 0 bs).bytesOf
      { data := some i, length := bs.length, write_offset := 0, buffer_id := id } = bs := by
  simp [EPollBuffer.bytesOf, slot_store p i 0 bs hi, writeBytes_zero, readBytes]

@[simp] theorem addToClientQueue_slot (p : EPollBuffer) (fd : Int) (x : IOBuffer) (d : Option Nat) :
    (p.addToClientQueue fd x).slot d = p.slot d := rfl

@[simp] theorem addToClientQueue_bytesOf (p : EPollBuffer) (fd : Int) (x b : IOBuffer) :
    (p.addToClientQueue fd x).bytesOf b = p.bytesOf b := rfl

@[simp] theorem addToClientQueue_free (p : EPollBuffer) (fd : Int) (x : IOBuffer) :
    (p.addToClientQueue fd x).free_buffers_ = p.free_buffers_ := rfl

@[simp] theorem addToClientQueue_size (p : EPollBuffer) (fd : Int) (x : IOBuffer) :
    (p.addToClientQueue fd x).buffer_size_ = p.buffer_size_ := rfl

@[simp] theorem addToClientQueue_pool (p : EPollBuffer) (fd : Int) (x : IOBuffer) :
    (p.addToClientQueue fd x).buffer_pool_ = p.buffer_pool_ := rfl

/-- The pool after one iteration of the read loop that stored `bs` in slot `a` and queued
the echo `echo` in slot `b`. -/
theorem echo_iteration_pool (bm : EPollBuffer) (fd : Int) (a b : Int) (rest : List Int)
    (bs echo : List Nat)
    (ha : 0 ≤ a ∧ a < (bm.buffer_pool_.length : Int))
    (hb : 0 ≤ b ∧ b < (bm.buffer_pool_.length : Int)) :
    let buf : IOBuffer :=
      { data := some b.toNat, length := echo.length, write_offset := 0, buffer_id := b }
    let q := (((({ (({ bm with free_buffers_ := b :: rest } : EPollBuffer).store (some a.toNat) 0 bs)
        with free_buffers_ := rest } : EPollBuffer).store (some b.toNat) 0 echo).addToClientQueue fd
          buf).releaseBuffer a)
    q.queue fd = bm.queue fd ++ [buf] ∧ q.bytesOf buf = echo ∧
      q.free_buffers_ = rest ++ [a] ∧ q.buffer_size_ = bm.buffer_size_ ∧
      q.buffer_pool_.length = bm.buffer_pool_.length := by
  intro buf q
  have hbn : b.toNat < bm.buffer_pool_.length := by omega
  refine ⟨?_, ?_, ?_, ?_, ?_⟩
  · simp only [q, release_queue, queue_addToClientQueue, store_queue]
    simp [EPollBuffer.queue]
  · simp only [q, release_bytesOf, addToClientQueue_bytesOf]
    exact bytesOf_store _ _ _ _ (by simpa using hbn)
  · simp only [q]
    rw [release_free_valid]
    · simp
    · simpa [releaseBuffer_pool] using ha
  · simp [q]
  · simp [q, releaseBuffer_pool]

theorem echoFrame_sockets (s : Session) (fd : Int) (buf : IOBuffer) (n : Int) :
    (s.echoFrame fd buf n).client_sockets_ = s.client_sockets_ := by
  unfold Session.echoFrame
  split
  · dsimp only
    split
    · split <;> rfl
    · rfl
  · rfl

theorem mem_release_self (p : EPollBuffer) (id : Int)
    (h : 0 ≤ id ∧ id < (p.buffer_pool_.length : Int)) :
    id ∈ (p.releaseBuffer id).free_buffers_ := by
  rw [release_free_valid p id h]
  simp

/-- Core of the echo path: one read delivers a whole frame (type `t`, payload `P`),
possibly followed by further bytes `more`, and the next read would block. -/
theorem handleReadLoop_frame (s : Session) (sock : Socket) (t : Nat) (P more : List Nat)
    (a b : Int) (rest : List Int) (k : Nat)
    (hinit : s.epoll_.epoll_initialized_ = true)
    (hreg : (mapFind s.epoll_.interest sock.getSocketFd).isSome = true)
    (hsize : 3 + P.length + more.length ≤ s.epoll_.buffer_manager_.buffer_size_)
    (hfree : s.epoll_.buffer_manager_.free_buffers_ = a :: b :: rest)
    (ha : 0 ≤ a ∧ a < (s.epoll_.buffer_manager_.buffer_pool_.length : Int))
    (hb : 0 ≤ b ∧ b < (s.epoll_.buffer_manager_.buffer_pool_.length : Int))
    (hP : P.length ≤ 1021) :
    let out := Session.handleReadLoop sock (k + 2) s
      [ReadResult.data (headerBytes t P.length ++ P ++ more)]
    let buf : IOBuffer :=
      { data := some b.toNat, length := 3 + P.length, write_offset := 0, buffer_id := b }
    out.1.epoll_.buffer_manager_.queue sock.getSocketFd =
        s.epoll_.buffer_manager_.queue sock.getSocketFd ++ [buf] ∧
      out.1.epoll_.buffer_manager_.bytesOf buf = headerBytes SERVER_ECHO P.length ++ P ∧
      a ∈ out.1.epoll_.buffer_manager_.free_buffers_ ∧
      out.1.client_sockets_ = s.client_sockets_ ∧
      out.1.epoll_.closed = s.epoll_.closed ∧ out.2 = [] := by
  intro out buf
  have hbs0 : headerBytes t P.length ++ P ++ more ≠ [] := by simp [headerBytes]
  have hbslen : (headerBytes t P.length ++ P ++ more).length = 3 + P.length + more.length := by
    simp [headerBytes, u16le]
    omega
  have hechol : (headerBytes SERVER_ECHO P.length ++ P).length = 3 + P.length := by
    simp [headerBytes, u16le]
    omega
  have han : a.toNat < s.epoll_.buffer_manager_.buffer_pool_.length := by omega
  have hstep := loop_data sock (k + 1) s [] (headerBytes t P.length ++ P ++ more) a (b :: rest)
    hfree hbs0 (by rw [hbslen]; exact hsize)
  have hecho := echoFrame_frame
    ({ s with epoll_ := { s.epoll_ with buffer_manager_ := ({ s.epoll_.buffer_manager_ with free_buffers_ := b :: rest }).store (some a.toNat) 0 (headerBytes t P.length ++ P ++ more) } })
    sock.getSocketFd
    { data := some a.toNat, length := (headerBytes t P.length ++ P ++ more).length,
      write_offset := 0, buffer_id := a }
    ((headerBytes t P.length ++ P ++ more).length : Nat) t P more
    ((s.epoll_.buffer_manager_.slot (some a.toNat)).drop (headerBytes t P.length ++ P ++ more).length)
    b rest
    (by
      show (EPollBuffer.store _ (some a.toNat) 0 _).slot (some a.toNat) = _
      rw [slot_store _ _ _ _ (by simpa using han), writeBytes_zero]
      rfl)
    hP (by rw [hbslen]; push_cast; omega) hinit hreg (by simp) (by simp; omega)
  have hpool := echo_iteration_pool s.epoll_.buffer_manager_ sock.getSocketFd a b rest
    (headerBytes t P.length ++ P ++ more) (headerBytes SERVER_ECHO P.length ++ P) ha hb
  rw [hechol] at hpool
  obtain ⟨hq, hbytes, hfr, hsz, hpl⟩ := hpool
  rw [hecho] at hstep
  simp only [Session.withPool, store_free, store_size, store_clients] at hstep
  obtain ⟨s2, hs2⟩ : ∃ s2 : Session, s2 = ({ s with epoll_ := { s.epoll_ with buffer_manager_ := (((({ (({ s.epoll_.buffer_manager_ with free_buffers_ := b :: rest } : EPollBuffer).store (some a.toNat) 0 (headerBytes t P.length ++ P ++ more)) with free_buffers_ := rest } : EPollBuffer).store (some b.toNat) 0 (headerBytes SERVER_ECHO P.length ++ P)).addToClientQueue sock.getSocketFd buf).releaseBuffer a), interest := mapSet (mapSet s.epoll_.interest sock.getSocketFd (BASE_EVENTS ||| EPOLLOUT)) sock.getSocketFd (BASE_EVENTS ||| EPOLLOUT) } } : Session) := ⟨_, rfl⟩
  have hq2 : s2.epoll_.buffer_manager_.queue sock.getSocketFd =
      s.epoll_.buffer_manager_.queue sock.getSocketFd ++ [buf] := by rw [hs2]; exact hq
  have hbytes2 : s2.epoll_.buffer_manager_.bytesOf buf = headerBytes SERVER_ECHO P.length ++ P := by
    rw [hs2]; exact hbytes
  have hfr2 : s2.epoll_.buffer_manager_.free_buffers_ = rest ++ [a] := by rw [hs2]; exact hfr
  have hsz2 : s2.epoll_.buffer_manager_.buffer_size_ = s.epoll_.buffer_manager_.buffer_size_ := by
    rw [hs2]; exact hsz
  have hpl2 : s2.epoll_.buffer_manager_.buffer_pool_.length =
      s.epoll_.buffer_manager_.buffer_pool_.length := by rw [hs2]; exact hpl
  have hcs2 : s2.client_sockets_ = s.client_sockets_ := by rw [hs2]
  have hcl2 : s2.epoll_.closed = s.epoll_.closed := by rw [hs2]
  have hstep2 : out = if ((headerBytes t P.length ++ P ++ more).length : Int) <
      (s2.epoll_.buffer_manager_.buffer_size_ : Int) then (s2, [])
      else Session.handleReadLoop sock (k + 1) s2 [] := by
    rw [hs2]; exact hstep
  clear hstep hecho hq hbytes hfr hsz hpl hs2
  by_cases hlt : ((headerBytes t P.length ++ P ++ more).length : Int) <
      (s2.epoll_.buffer_manager_.buffer_size_ : Int)
  · rw [if_pos hlt] at hstep2
    rw [hstep2]
    refine ⟨hq2, hbytes2, ?_, hcs2, hcl2, rfl⟩
    rw [hfr2]; simp
  · rw [if_neg hlt] at hstep2
    have hpos : 0 < s2.epoll_.buffer_manager_.buffer_size_ := by omega
    have ha2 : 0 ≤ a ∧ a < (s2.epoll_.buffer_manager_.buffer_pool_.length : Int) := by
      rw [hpl2]; exact ha
    cases hrest : rest with
    | nil =>
      rw [hrest] at hfr2
      rw [loop_block sock k s2 a [] (by simpa using hfr2) hpos] at hstep2
      rw [hstep2]
      simp only [Session.withPool, release_queue, release_bytesOf]
      exact ⟨hq2, hbytes2, mem_release_self _ _ ha2, hcs2, hcl2, trivial⟩
    | cons c rest2 =>
      rw [hrest] at hfr2
      rw [loop_block sock k s2 c (rest2 ++ [a]) hfr2 hpos] at hstep2
      rw [hstep2]
      simp only [Session.withPool, release_queue, release_bytesOf]
      refine ⟨hq2, hbytes2, ?_, hcs2, hcl2, trivial⟩
      apply mem_release_free
      simp

theorem getD_append_left (bs tail : List Nat) (i : Nat) (h : i < bs.length) :
    (bs ++ tail).getD i 0 = bs.getD i 0 := by
  simp [List.getD_eq_getElem?_getD, List.getElem?_append_left h]

/-- A read of at least 3 bytes whose header length exceeds 1021: the loop queues nothing
and closes nothing. -/
theorem handleReadLoop_oversize (s : Session) (sock : Socket) (bs : List Nat) (a : Int)
    (rest : List Int) (k : Nat)
    (hfree : s.epoll_.buffer_manager_.free_buffers_ = a :: rest)
    (ha : 0 ≤ a ∧ a < (s.epoll_.buffer_manager_.buffer_pool_.length : Int))
    (hlen : 3 ≤ bs.length) (hsize : bs.length ≤ s.epoll_.buffer_manager_.buffer_size_)
    (hover : MAX_MESSAGE_SIZE < u16of (bs.getD 1 0) (bs.getD 2 0)) :
    let out := Session.handleReadLoop sock (k + 2) s [ReadResult.data bs]
    out.1.epoll_.buffer_manager_.client_buffers_ = s.epoll_.buffer_manager_.client_buffers_ ∧
      out.1.client_sockets_ = s.client_sockets_ ∧
      out.1.epoll_.closed = s.epoll_.closed ∧
      out.1.epoll_.interest = s.epoll_.interest := by
  intro out
  have hbs0 : bs ≠ [] := by
    intro h
    rw [h] at hlen
    simp at hlen
  have han : a.toNat < s.epoll_.buffer_manager_.buffer_pool_.length := by omega
  have hstep := loop_data sock (k + 1) s [] bs a rest hfree hbs0 hsize
  have hecho := echoFrame_oversize
    ({ s with epoll_ := { s.epoll_ with buffer_manager_ := ({ s.epoll_.buffer_manager_ with free_buffers_ := rest }).store (some a.toNat) 0 bs } })
    sock.getSocketFd
    { data := some a.toNat, length := bs.length, write_offset := 0, buffer_id := a }
    (bs.length : Nat)
    (by
      show MAX_MESSAGE_SIZE < u16of (((EPollBuffer.store _ (some a.toNat) 0 _).slot (some a.toNat)).getD 1 0)
        (((EPollBuffer.store _ (some a.toNat) 0 _).slot (some a.toNat)).getD 2 0)
      rw [slot_store _ _ _ _ (by simpa using han), writeBytes_zero,
        getD_append_left _ _ 1 (by omega), getD_append_left _ _ 2 (by omega)]
      exact hover)
  rw [hecho] at hstep
  simp only [Session.withPool] at hstep
  obtain ⟨s2, hs2⟩ : ∃ s2 : Session, s2 = ({ s with epoll_ := { s.epoll_ with buffer_manager_ := ((({ s.epoll_.buffer_manager_ with free_buffers_ := rest } : EPollBuffer).store (some a.toNat) 0 bs).releaseBuffer a) } } : Session) := ⟨_, rfl⟩
  have hcb2 : s2.epoll_.buffer_manager_.client_buffers_ =
      s.epoll_.buffer_manager_.client_buffers_ := by
    rw [hs2]
    simp
  have hfr2 : s2.epoll_.buffer_manager_.free_buffers_ = rest ++ [a] := by
    rw [hs2]
    show (EPollBuffer.releaseBuffer _ a).free_buffers_ = _
    rw [release_free_valid _ _ (by simpa using ha)]
    simp
  have hsz2 : s2.epoll_.buffer_manager_.buffer_size_ = s.epoll_.buffer_manager_.buffer_size_ := by
    rw [hs2]
    simp
  have hcs2 : s2.client_sockets_ = s.client_sockets_ := by rw [hs2]
  have hcl2 : s2.epoll_.closed = s.epoll_.closed := by rw [hs2]
  have hin2 : s2.epoll_.interest = s.epoll_.interest := by rw [hs2]
  have hstep2 : out = if (bs.length : Int) < (s2.epoll_.buffer_manager_.buffer_size_ : Int)
      then (s2, []) else Session.handleReadLoop sock (k + 1) s2 [] := by
    rw [hs2]
    exact hstep
  clear hstep hecho hs2
  by_cases hlt : (bs.length : Int) < (s2.epoll_.buffer_manager_.buffer_size_ : Int)
  · rw [if_pos hlt] at hstep2
    rw [hstep2]
    exact ⟨hcb2, hcs2, hcl2, hin2⟩
  · rw [if_neg hlt] at hstep2
    have hpos : 0 < s2.epoll_.buffer_manager_.buffer_size_ := by omega
    cases hrest : rest with
    | nil =>
      rw [hrest] at hfr2
      rw [loop_block sock k s2 a [] (by simpa using hfr2) hpos] at hstep2
      rw [hstep2]
      simp only [Session.withPool, release_clients]
      exact ⟨hcb2, hcs2, hcl2, hin2⟩
    | cons c rest2 =>
      rw [hrest] at hfr2
      rw [loop_block sock k s2 c (rest2 ++ [a]) hfr2 hpos] at hstep2
      rw [hstep2]
      simp only [Session.withPool, release_clients]
      exact ⟨hcb2, hcs2, hcl2, hin2⟩

theorem handleRead_valid (s : Session) (sock : Socket) (reads : List ReadResult)
    (h : 0 ≤ sock.mSocketFd) :
    s.handleRead (some sock) reads = Session.handleReadLoop sock (98 + 2) s reads := by
  simp [Session.handleRead, Socket.isValid, h, MAX_READ_ATTEMPTS]

/-- C1: in the epoll server, when a read on a registered connection delivers exactly the
frame `13, |P| as little-endian u16, P` with `|P| ≤ 1021` (so for every `P` with
`1 ≤ |P| ≤ 1021`), the next read would block
and the free list holds at least two (valid) buffers `a`, `b`, then `handleRead` appends
exactly one buffer to the write queue of the connection, its bytes are `05`, `|P|` as
little-endian u16, then `P`, and the read buffer `a` is back in the free list. -/
theorem handleRead_echoes_chat_payload (s : Session) (sock : Socket) (P : List Nat)
    (a b : Int) (rest : List Int)
    (hsock : 0 ≤ sock.mSocketFd)
    (hinit : s.epoll_.epoll_initialized_ = true)
    (hreg : (mapFind s.epoll_.interest sock.mSocketFd).isSome = true)
    (hsize : 3 + P.length ≤ s.epoll_.buffer_manager_.buffer_size_)
    (hfree : s.epoll_.buffer_manager_.free_buffers_ = a :: b :: rest)
    (ha : 0 ≤ a ∧ a < (s.epoll_.buffer_manager_.buffer_pool_.length : Int))
    (hb : 0 ≤ b ∧ b < (s.epoll_.buffer_manager_.buffer_pool_.length : Int))
    (hP2 : P.length ≤ 1021) :
    ∃ buf : IOBuffer,
      (s.handleRead (some sock) [ReadResult.data (chatFrame P)]).1.epoll_.buffer_manager_.queue
          sock.mSocketFd = s.epoll_.buffer_manager_.queue sock.mSocketFd ++ [buf] ∧
      (s.handleRead (some sock) [ReadResult.data (chatFrame P)]).1.epoll_.buffer_manager_.bytesOf
          buf = 0x05 :: u16le P.length ++ P ∧
      a ∈ (s.handleRead (some sock)
        [ReadResult.data (chatFrame P)]).1.epoll_.buffer_manager_.free_buffers_ := by
  have h := handleReadLoop_frame s sock CLIENT_CHAT P [] a b rest 98 hinit hreg
    (by simpa using hsize) hfree ha hb hP2
  rw [handleRead_valid s sock _ hsock]
  have hf : chatFrame P = headerBytes CLIENT_CHAT P.length ++ P ++ [] := by
    simp [chatFrame, headerBytes, CLIENT_CHAT]
  rw [hf]
  exact ⟨_, h.1, h.2.1, h.2.2.1⟩

set_option maxRecDepth 100000 in
/-- Witness for C1: the frame `13 05 00 'Hello'` read on connection 5 of a fresh session. -/
theorem handleRead_echoes_chat_payload_witness :
    ∃ buf : IOBuffer,
      (demoSession.handleRead (some ⟨5⟩)
          [ReadResult.data (chatFrame [72, 101, 108, 108, 111])]).1.epoll_.buffer_manager_.queue 5 =
        demoSession.epoll_.buffer_manager_.queue 5 ++ [buf] ∧
      (demoSession.handleRead (some ⟨5⟩)
          [ReadResult.data (chatFrame [72, 101, 108, 108, 111])]).1.epoll_.buffer_manager_.bytesOf buf =
        0x05 :: u16le 5 ++ [72, 101, 108, 108, 111] ∧
      (0 : Int) ∈ (demoSession.handleRead (some ⟨5⟩)
        [ReadResult.data (chatFrame [72, 101, 108, 108, 111])]).1.epoll_.buffer_manager_.free_buffers_ :=
  handleRead_echoes_chat_payload demoSession ⟨5⟩ [72, 101, 108, 108, 111] 0 1
    (((List.range 256).map Int.ofNat).drop 2) (by decide) (by decide) (by decide) (by decide)
    (by decide) (by decide) (by decide) (by decide)

set_option maxRecDepth 100000 in
/-- C5, as the claim states it, fails: after the read of `13 00 00` connection 5 is still
in the connection map, no descriptor has been closed, and the frame `05 00 00` is queued
for it. -/
theorem handleRead_echoes_empty_frame_and_stays_open :
    (demoSession.handleRead (some ⟨5⟩) [ReadResult.data [0x13, 0, 0]]).1.getClientFds = [5] ∧
    (demoSession.handleRead (some ⟨5⟩) [ReadResult.data [0x13, 0, 0]]).1.epoll_.closed = [] ∧
    (demoSession.handleRead (some ⟨5⟩) [ReadResult.data [0x13, 0, 0]]).1.queuedBytes 5 =
      [[0x05, 0, 0]] := by
  decide

/-- C5 amended: the epoll `handleRead` does not close a connection because of the type or
length of a frame. A read that delivers a whole frame of any type byte `t` with length
`|P| ≤ 1021`, `|P| = 0` included, queues exactly one buffer holding `05`, `|P|`, `P` for
the connection and leaves the connection map and the closed descriptors as they were; a
read of at least 3 bytes whose header length exceeds 1021 queues nothing and leaves the
connection map and the closed descriptors as they were. (The next read would block, the
connection is registered, buffers `a`, `b` are free.) -/
theorem handleRead_never_closes_on_frame_header (s : Session) (sock : Socket) (a b : Int)
    (rest : List Int)
    (hsock : 0 ≤ sock.mSocketFd)
    (hinit : s.epoll_.epoll_initialized_ = true)
    (hreg : (mapFind s.epoll_.interest sock.mSocketFd).isSome = true)
    (hfree : s.epoll_.buffer_manager_.free_buffers_ = a :: b :: rest)
    (ha : 0 ≤ a ∧ a < (s.epoll_.buffer_manager_.buffer_pool_.length : Int))
    (hb : 0 ≤ b ∧ b < (s.epoll_.buffer_manager_.buffer_pool_.length : Int)) :
    (∀ (t : Nat) (P : List Nat), t < 256 → P.length ≤ 1021 →
      3 + P.length ≤ s.epoll_.buffer_manager_.buffer_size_ →
      (∃ buf : IOBuffer,
        (s.handleRead (some sock)
            [ReadResult.data (t :: u16le P.length ++ P)]).1.epoll_.buffer_manager_.queue
              sock.mSocketFd = s.epoll_.buffer_manager_.queue sock.mSocketFd ++ [buf] ∧
        (s.handleRead (some sock)
            [ReadResult.data (t :: u16le P.length ++ P)]).1.epoll_.buffer_manager_.bytesOf buf =
          0x05 :: u16le P.length ++ P) ∧
      (s.handleRead (some sock) [ReadResult.data (t :: u16le P.length ++ P)]).1.client_sockets_ =
        s.client_sockets_ ∧
      (s.handleRead (some sock) [ReadResult.data (t :: u16le P.length ++ P)]).1.epoll_.closed =
        s.epoll_.closed) ∧
    (∀ bs : List Nat, 3 ≤ bs.length → bs.length ≤ s.epoll_.buffer_manager_.buffer_size_ →
      1021 < u16of (bs.getD 1 0) (bs.getD 2 0) →
      (s.handleRead (some sock) [ReadResult.data bs]).1.epoll_.buffer_manager_.client_buffers_ =
        s.epoll_.buffer_manager_.client_buffers_ ∧
      (s.handleRead (some sock) [ReadResult.data bs]).1.client_sockets_ = s.client_sockets_ ∧
      (s.handleRead (some sock) [ReadResult.data bs]).1.epoll_.closed = s.epoll_.closed) := by
  constructor
  · intro t P ht hP hsize
    have h := handleReadLoop_frame s sock t P [] a b rest 98 hinit hreg (by simpa using hsize)
      hfree ha hb hP
    have hf : t :: u16le P.length ++ P = headerBytes t P.length ++ P ++ [] := by
      simp [headerBytes, Nat.mod_eq_of_lt ht]
    rw [handleRead_valid s sock _ hsock, hf]
    exact ⟨⟨_, h.1, h.2.1⟩, h.2.2.2.1, h.2.2.2.2.1⟩
  · intro bs h3 hsize hover
    have h := handleReadLoop_oversize s sock bs a (b :: rest) 98 hfree ha h3 hsize hover
    rw [handleRead_valid s sock _ hsock]
    exact ⟨h.1, h.2.1, h.2.2.1⟩

set_option maxRecDepth 100000 in
/-- Witness for C5 amended: the frames `13 00 00` and `13 FE 03` read on connection 5. -/
theorem handleRead_never_closes_on_frame_header_witness :
    (demoSession.handleRead (some ⟨5⟩)
        [ReadResult.data (0x13 :: u16le 0 ++ [])]).1.client_sockets_ = demoSession.client_sockets_ ∧
    (demoSession.handleRead (some ⟨5⟩)
        [ReadResult.data [0x13, 0xFE, 0x03]]).1.client_sockets_ = demoSession.client_sockets_ :=
  have h := handleRead_never_closes_on_frame_header demoSession ⟨5⟩ 0 1
    (((List.range 256).map Int.ofNat).drop 2) (by decide) (by decide) (by decide) (by decide)
    (by decide) (by decide)
  ⟨(h.1 0x13 [] (by decide) (by decide) (by decide)).2.1,
   (h.2 [0x13, 0xFE, 0x03] (by decide) (by decide) (by decide)).2.1⟩

set_option maxRecDepth 100000 in
/-- C9, at the failing input: on a fresh session (256 free buffers) `addClient(5)`, then a
`handleRead` that reads `13 05 00 'Hello'` and queues the echo, then `removeClient(5)`.
The connection map is empty, 255 buffers are free, and the echo is still queued for
descriptor 5. -/
theorem removeClient_leaves_queued_buffer_allocated :
    demoSession.epoll_.buffer_manager_.free_buffers_.length = 256 ∧
    (((demoSession.handleRead (some ⟨5⟩)
        [ReadResult.data (chatFrame [72, 101, 108, 108, 111])]).1.removeClient
          (some ⟨5⟩)).client_sockets_ = []) ∧
    (((demoSession.handleRead (some ⟨5⟩)
        [ReadResult.data (chatFrame [72, 101, 108, 108, 111])]).1.removeClient
          (some ⟨5⟩)).epoll_.buffer_manager_.free_buffers_.length = 255) ∧
    (((demoSession.handleRead (some ⟨5⟩)
        [ReadResult.data (chatFrame [72, 101, 108, 108, 111])]).1.removeClient
          (some ⟨5⟩)).queuedBytes 5 = [[0x05, 5, 0, 72, 101, 108, 108, 111]]) := by
  decide

end Epoll

namespace Uring

/-! ## The read handler of the io_uring server -/

theorem mapFind_cons {β : Type} (e : Int × β) (l : List (Int × β)) (k : Int) :
    mapFind (e :: l) k = if e.1 = k then some e.2 else mapFind l k := by
  by_cases h : e.1 = k <;> simp [mapFind, List.find?_cons, h]

theorem mapFind_map_upd {β : Type} (l : List (Int × β)) (sid k : Int) (v : β) :
    mapFind (l.map fun e => if e.1 = sid then (e.1, v) else e) k =
      if k = sid then (mapFind l k).map (fun _ => v) else mapFind l k := by
  induction l with
  | nil => simp [mapFind]
  | cons e l ih =>
    rw [List.map_cons, mapFind_cons, mapFind_cons, ih]
    by_cases he : e.1 = sid
    · by_cases hk : k = sid
      · simp [he, hk]
      · have : ¬ (sid = k) := fun h => hk h.symm
        simp [he, hk, this]
    · by_cases hek : e.1 = k
      · have : ¬ (k = sid) := fun h => he (hek.trans h)
        simp [he, hek, this]
      · simp [he, hek]

theorem session_updSession (w : World) (sid k : Int) (f : Session → Session) :
    (w.updSession sid f).session k =
      if k = sid then (w.session k).map f else w.session k := by
  unfold World.updSession World.session
  cases h : mapFind w.sessions_ sid with
  | none =>
    by_cases hk : k = sid
    · simp [hk, h]
    · simp [hk]
  | some s =>
    simp only [mapFind_map_upd]
    by_cases hk : k = sid
    · simp [hk, h]
    · simp [hk]

theorem bufRing_updSession (w : World) (sid k : Int) (f : Session → Session) (hf : KeepsRing f) :
    (w.updSession sid f).bufRing k = w.bufRing k := by
  unfold World.bufRing
  rw [session_updSession]
  by_cases hk : k = sid
  · simp only [hk, if_true]
    cases w.session sid with
    | none => rfl
    | some s => simp [hf s]
  · simp [hk]

theorem keepsRing_removeClient (c : Option Socket) : KeepsRing fun s => s.removeClient c := by
  intro s
  unfold Session.removeClient
  split
  · rfl
  · split
    · rfl
    · dsimp only
      split <;> rfl

theorem keepsRing_addClient (c : Option Socket) : KeepsRing fun s => s.addClient c := by
  intro s
  unfold Session.addClient
  split
  · rfl
  · split
    · rfl
    · dsimp only
      split
      · rfl
      · simp only [IOUring.prepareRead]
        split <;> rfl

theorem keepsRing_prepareClose (fd : Int) :
    KeepsRing fun s => { s with io_ring_ := s.io_ring_.prepareClose fd } := by
  intro s
  rfl

theorem keepsRing_prepareRead (fd : Int) :
    KeepsRing fun s => { s with io_ring_ := s.io_ring_.prepareRead fd } := by
  intro s
  simp only [IOUring.prepareRead]
  split <;> rfl

theorem keepsRing_prepareWrite (fd : Int) (buf len bid : Nat) :
    KeepsRing fun s => { s with io_ring_ := s.io_ring_.prepareWrite fd buf len bid } := by
  intro s
  simp only [IOUring.prepareWrite]
  split <;> rfl

theorem keepsRing_count : KeepsRing fun s => { s with total_messages_ := s.total_messages_ + 1 } := by
  intro s
  rfl

theorem bufRing_removeSession (w : World) (fd k : Int) :
    (w.removeSession fd).bufRing k = w.bufRing k := by
  unfold World.removeSession
  split
  · rfl
  · split
    · split
      · exact bufRing_updSession _ _ _ _ (keepsRing_removeClient _)
      · rfl
    · rfl

theorem bufRing_handleClose (w : World) (self : Int) (c : Option Socket) (k : Int) :
    (handleClose w self c).bufRing k = w.bufRing k := by
  unfold handleClose
  split
  · rfl
  · split
    · rfl
    · dsimp only
      rw [bufRing_updSession _ _ _ _ (keepsRing_prepareClose _), bufRing_removeSession,
        bufRing_updSession _ _ _ _ (keepsRing_removeClient _)]

theorem bufRing_mem (w : World) (m : Mem) (k : Int) :
    ({ w with mem := m }).bufRing k = w.bufRing k := rfl

theorem bufRing_sendMessage (w : World) (self : Int) (c : Option Socket) (t data len idx : Nat)
    (k : Int) : (sendMessage w self c t data len idx).1.bufRing k = w.bufRing k := by
  unfold sendMessage
  split
  · rfl
  · split
    · rfl
    · dsimp only
      split
      · rfl
      · exact (bufRing_updSession _ _ _ _ (keepsRing_prepareWrite _ _ _ _)).trans (bufRing_mem _ _ _)

theorem bufRing_putString (w : World) (text : String) (k : Int) :
    (w.putString text).bufRing k = w.bufRing k := rfl

theorem bufRing_freeString (w : World) (addr : Nat) (k : Int) :
    (w.freeString addr).bufRing k = w.bufRing k := rfl

theorem bufRing_releaseSocket (w : World) (sock : Socket) (k : Int) :
    (w.releaseSocket sock).bufRing k = w.bufRing k := by
  unfold World.releaseSocket
  split
  · rfl
  · split <;> rfl

theorem bufRing_onClientJoinSession (w : World) (self : Int) (c : Option Socket) (target k : Int) :
    (onClientJoinSession w self c target).1.bufRing k = w.bufRing k := by
  unfold onClientJoinSession
  split
  · rfl
  · split
    · rfl
    · dsimp only
      split
      · exact bufRing_updSession _ _ _ _ (keepsRing_removeClient _)
      · rw [bufRing_updSession _ _ _ _ (keepsRing_addClient _), bufRing_removeSession,
          bufRing_updSession _ _ _ _ (keepsRing_removeClient _)]

theorem bufRing_handleJoinSession (w : World) (self : Int) (c : Option Socket) (message idx : Nat)
    (k : Int) : (handleJoinSession w self c message idx).1.bufRing k = w.bufRing k := by
  unfold handleJoinSession
  split
  · split
    · rfl
    · split
      · rfl
      · dsimp only
        split
        · split
          · rw [bufRing_freeString, bufRing_sendMessage, bufRing_putString]
          · rw [bufRing_freeString, bufRing_sendMessage, bufRing_putString, bufRing_freeString,
              bufRing_sendMessage, bufRing_putString]
        · split
          · rw [bufRing_onClientJoinSession]
          · rw [bufRing_freeString, bufRing_sendMessage, bufRing_putString,
              bufRing_onClientJoinSession]
  · rfl

theorem bufRing_handleChatMessage (w : World) (self : Int) (c : Option Socket) (message idx : Nat)
    (k : Int) : (handleChatMessage w self c message idx).1.bufRing k = w.bufRing k := by
  unfold handleChatMessage
  split
  · rfl
  · split
    · rfl
    · dsimp only
      split
      · rfl
      · rw [bufRing_sendMessage]

theorem bufRing_handleLeaveSession (w : World) (self : Int) (c : Option Socket) (message idx : Nat)
    (k : Int) : (handleLeaveSession w self c message idx).bufRing k = w.bufRing k := by
  unfold handleLeaveSession
  split
  · rfl
  · split
    · rfl
    · rw [bufRing_handleClose]

theorem bufRing_processMessage (w : World) (self : Int) (c : Option Socket) (message idx : Nat)
    (k : Int) : (processMessage w self c message idx).1.bufRing k = w.bufRing k := by
  unfold processMessage
  split
  · rfl
  · split
    · rfl
    · dsimp only
      have hr : ∀ r : Outcome, r.1.bufRing k = w.bufRing k →
          (match r.2 with
            | some what => (r.1, some what)
            | none => (r.1.updSession self fun s =>
                { s with total_messages_ := s.total_messages_ + 1 }, none) : Outcome).1.bufRing k
            = w.bufRing k := by
        intro r h
        split
        · exact h
        · exact (bufRing_updSession _ _ _ _ keepsRing_count).trans h
      apply hr
      split
      · rw [bufRing_handleJoinSession]
      · split
        · exact bufRing_handleLeaveSession _ _ _ _ _ _
        · split
          · rw [bufRing_handleChatMessage]
          · rfl

theorem bufRing_handleReadBody (w : World) (self : Int) (s : Session) (sock : Socket)
    (cqe : Cqe) (ctx : Operation) (k : Int) :
    (handleReadBody w self s sock cqe ctx).1.bufRing k = w.bufRing k := by
  unfold handleReadBody
  dsimp only
  by_cases h1 : cqe.res = 0 ∨ cqe.res = -EBADF ∨ cqe.res = -ECONNRESET
  · rw [if_pos h1]
    exact bufRing_handleClose _ _ _ _
  rw [if_neg h1]
  by_cases h2 : cqe.res < 0
  · rw [if_pos h2]
    by_cases h3 : cqe.res = -ENOBUFS
    · rw [if_pos h3]
    · rw [if_neg h3]
      exact bufRing_handleClose _ _ _ _
  rw [if_neg h2]
  by_cases h4 : cqe.flags &&& IORING_CQE_F_BUFFER = 0
  · rw [if_pos h4]
    exact bufRing_handleClose _ _ _ _
  rw [if_neg h4]
  cases ha : UringBuffer.getBufferAddr ctx.buffer_idx s.io_ring_.buffer_manager_.buffer_base_addr_ with
  | none => exact bufRing_handleClose _ _ _ _
  | some addr =>
    dsimp only
    by_cases h5 : cqe.res < (CHAT_MESSAGE_HEADER_SIZE : Int)
    · rw [if_pos h5]
      exact bufRing_handleClose _ _ _ _
    rw [if_neg h5]
    have hr : ∀ r : Outcome × Bool, r.1.1.bufRing k = w.bufRing k →
        (match r.1.2 with
          | some what => (r.1.1, some what)
          | none =>
            if !r.2 ∧ cqe.flags &&& IORING_CQE_F_MORE = 0 then
              (r.1.1.updSession self fun t =>
                { t with io_ring_ := t.io_ring_.prepareRead ctx.client_fd }, none)
            else r.1 : Outcome).1.bufRing k = w.bufRing k := by
      intro r h
      cases h6 : r.1.2 with
      | some what => exact h
      | none =>
        dsimp only
        by_cases h7 : (!r.2) = true ∧ cqe.flags &&& IORING_CQE_F_MORE = 0
        · rw [if_pos h7]
          exact (bufRing_updSession _ _ _ _ (keepsRing_prepareRead _)).trans h
        · rw [if_neg h7]
          exact h
    apply hr
    by_cases h8 : w.mem addr % 256 < CLIENT_JOIN ∨ w.mem addr % 256 > CLIENT_COMMAND
    · rw [if_pos h8]
      exact bufRing_handleClose _ _ _ _
    rw [if_neg h8]
    by_cases h9 : u16of (w.mem (addr + 1)) (w.mem (addr + 2)) > MAX_MESSAGE_SIZE
    · rw [if_pos h9]
      exact bufRing_handleClose _ _ _ _
    rw [if_neg h9]
    by_cases h10 : u16of (w.mem (addr + 1)) (w.mem (addr + 2)) = 0
    · rw [if_pos h10]
      exact bufRing_handleClose _ _ _ _
    rw [if_neg h10]
    by_cases h11 : cqe.res <
        ((CHAT_MESSAGE_HEADER_SIZE + u16of (w.mem (addr + 1)) (w.mem (addr + 2)) : Nat) : Int)
    · rw [if_pos h11]
      exact bufRing_handleClose _ _ _ _
    rw [if_neg h11]
    exact bufRing_processMessage _ _ _ _ _ _

/-- `Session::handleRead` gives no buffer back to the buffer ring of any session,
whatever the completion and the message. -/
theorem bufRing_handleRead (w : World) (self : Int) (cqe : Cqe) (ctx : Operation) (k : Int) :
    (handleRead w self cqe ctx).1.bufRing k = w.bufRing k := by
  unfold handleRead
  cases hs : w.session self with
  | none => rfl
  | some s =>
    dsimp only
    cases hc : mapFind s.client_sockets_ ctx.client_fd with
    | none => rfl
    | some sock =>
      dsimp only
      rw [bufRing_releaseSocket]
      exact bufRing_handleReadBody _ _ _ _ _ _ _

theorem memWrite_at (mem : Mem) (addr : Nat) (bs : List Nat) (i : Nat) (h : i < bs.length) :
    memWrite mem addr bs (addr + i) = bs.getD i 0 := by
  unfold memWrite
  have : addr ≤ addr + i ∧ addr + i < addr + bs.length := by omega
  simp [this]

theorem memRead_get (mem : Mem) (addr len : Nat) (l : List Nat) (h : memRead mem addr len = l)
    (i : Nat) (hi : i < len) : mem (addr + i) = l.getD i 0 := by
  subst h
  simp [memRead, List.getD_eq_getElem?_getD, hi]

theorem sendMessage_ok (w : World) (self : Int) (sock : Socket) (t data len idx : Nat)
    (hv : 0 ≤ sock.mSocketFd) (hlen : len ≤ MAX_MESSAGE_SIZE) :
    sendMessage w self (some sock) t data len idx =
      (({ w with mem := memWrite w.mem data (headerBytes t len) }).updSession self fun s =>
          { s with io_ring_ := s.io_ring_.prepareWrite sock.mSocketFd data (3 + len) idx },
        none) := by
  have hl : len % 65536 = len := by
    unfold MAX_MESSAGE_SIZE at hlen
    omega
  have hn : ¬ (len > MAX_MESSAGE_SIZE) := by omega
  have h1 := memWrite_at w.mem data (headerBytes t len) 1 (by simp [headerBytes, u16le])
  have h2 := memWrite_at w.mem data (headerBytes t len) 2 (by simp [headerBytes, u16le])
  have hu : u16of (len % 256) (len / 256 % 256) = len := by
    unfold u16of
    unfold MAX_MESSAGE_SIZE at hlen
    omega
  have hm : (3 + len) % 2 ^ 32 = 3 + len := by
    unfold MAX_MESSAGE_SIZE at hlen
    omega
  simp only [sendMessage, Socket.isValid, hv, decide_True, Bool.not_true, Bool.false_eq_true,
    if_false, hl, hn, h1, h2, Socket.getSocketFd, CHAT_MESSAGE_HEADER_SIZE]
  simp only [headerBytes, u16le, List.getD_cons_succ, List.getD_cons_zero, hu, hm]

theorem getBufferAddr_ne_zero (idx base addr : Nat)
    (h : UringBuffer.getBufferAddr idx base = some addr) : addr ≠ 0 := by
  unfold UringBuffer.getBufferAddr at h
  split at h
  · cases h
  · split at h
    · cases h
    · simp only [Option.some.injEq] at h
      omega

theorem handleChatMessage_ok (w : World) (self : Int) (sock : Socket) (message idx L : Nat)
    (hv : 0 ≤ sock.mSocketFd) (hm : message ≠ 0)
    (hL : u16of (w.mem (message + 1)) (w.mem (message + 2)) = L)
    (hL1 : 1 ≤ L) (hL2 : L ≤ MAX_MESSAGE_SIZE) :
    handleChatMessage w self (some sock) message idx =
      (({ w with mem := memWrite w.mem (message + 3) (headerBytes SERVER_ECHO L) }).updSession self
          fun s => { s with io_ring_ := s.io_ring_.prepareWrite sock.mSocketFd (message + 3) (3 + L) idx },
        none) := by
  have hc : ¬ (message = 0 ∨ L = 0 ∨ L > MAX_MESSAGE_SIZE) := by omega
  simp only [handleChatMessage, Socket.isValid, hv, decide_True, Bool.not_true, Bool.false_eq_true,
    if_false, hL, hc, CHAT_MESSAGE_HEADER_SIZE]
  exact sendMessage_ok w self sock SERVER_ECHO (message + 3) L idx hv hL2

theorem processMessage_chat (w : World) (self : Int) (sock : Socket) (message idx L : Nat)
    (hv : 0 ≤ sock.mSocketFd) (hm : message ≠ 0)
    (ht : w.mem message % 256 = CLIENT_CHAT)
    (hL : u16of (w.mem (message + 1)) (w.mem (message + 2)) = L)
    (hL1 : 1 ≤ L) (hL2 : L ≤ MAX_MESSAGE_SIZE) :
    processMessage w self (some sock) message idx =
      ((({ w with mem := memWrite w.mem (message + 3) (headerBytes SERVER_ECHO L) }).updSession self
          fun s => { s with io_ring_ := s.io_ring_.prepareWrite sock.mSocketFd (message + 3) (3 + L) idx }).updSession
            self fun s => { s with total_messages_ := s.total_messages_ + 1 },
        none) := by
  have hj : ¬ (CLIENT_CHAT = CLIENT_JOIN) := by decide
  have hl : ¬ (CLIENT_CHAT = CLIENT_LEAVE) := by decide
  simp only [processMessage, Socket.isValid, hv, decide_True, Bool.not_true, Bool.false_eq_true,
    if_false, ht, hj, hl, if_true, handleChatMessage_ok w self sock message idx L hv hm hL hL1 hL2]

theorem handleReadBody_chat (w : World) (self : Int) (s : Session) (sock : Socket) (cqe : Cqe)
    (ctx : Operation) (addr L : Nat)
    (hv : 0 ≤ sock.mSocketFd)
    (hflag : cqe.flags &&& IORING_CQE_F_BUFFER ≠ 0)
    (haddr : UringBuffer.getBufferAddr ctx.buffer_idx s.io_ring_.buffer_manager_.buffer_base_addr_
      = some addr)
    (ht : w.mem addr % 256 = CLIENT_CHAT)
    (hL : u16of (w.mem (addr + 1)) (w.mem (addr + 2)) = L)
    (hL1 : 1 ≤ L) (hL2 : L ≤ MAX_MESSAGE_SIZE)
    (hres : ((3 + L : Nat) : Int) ≤ cqe.res) :
    handleReadBody w self s sock cqe ctx =
      if cqe.flags &&& IORING_CQE_F_MORE = 0 then
        ((processMessage w self (some sock) addr ctx.buffer_idx).1.updSession self fun t =>
          { t with io_ring_ := t.io_ring_.prepareRead ctx.client_fd }, none)
      else ((processMessage w self (some sock) addr ctx.buffer_idx).1, none) := by
  have hm := getBufferAddr_ne_zero _ _ _ haddr
  have hpm := processMessage_chat w self sock addr ctx.buffer_idx L hv hm ht hL hL1 hL2
  unfold handleReadBody
  dsimp only
  have h1 : ¬ (cqe.res = 0 ∨ cqe.res = -EBADF ∨ cqe.res = -ECONNRESET) := by
    unfold EBADF ECONNRESET
    omega
  have h2 : ¬ (cqe.res < 0) := by omega
  rw [if_neg h1, if_neg h2, if_neg hflag, haddr]
  dsimp only
  have h5 : ¬ (cqe.res < (CHAT_MESSAGE_HEADER_SIZE : Int)) := by
    unfold CHAT_MESSAGE_HEADER_SIZE
    omega
  have h8 : ¬ (w.mem addr % 256 < CLIENT_JOIN ∨ w.mem addr % 256 > CLIENT_COMMAND) := by
    rw [ht]
    decide
  have h9 : ¬ (L > MAX_MESSAGE_SIZE) := by omega
  have h10 : ¬ (L = 0) := by omega
  have h11 : ¬ (cqe.res < ((CHAT_MESSAGE_HEADER_SIZE + L : Nat) : Int)) := by
    unfold CHAT_MESSAGE_HEADER_SIZE
    omega
  rw [if_neg h5, hL, if_neg h8, if_neg h9, if_neg h10, if_neg h11]
  rw [hpm]
  dsimp only
  by_cases h7 : cqe.flags &&& IORING_CQE_F_MORE = 0
  · simp [h7]
  · simp [h7]

theorem mapFind_mem {β : Type} (m : List (Int × β)) (k : Int) (v : β)
    (h : mapFind m k = some v) : ∃ e ∈ m, e.2 = v := by
  unfold mapFind at h
  cases hf : m.find? (fun e => e.1 == k) with
  | none =>
    rw [hf] at h
    cases h
  | some e =>
    rw [hf] at h
    exact ⟨e, List.mem_of_find?_eq_some hf, Option.some.inj h⟩

/-- A socket found in the connection map of a session is held by that map. -/
theorem holdsSocket_of_session (w : World) (sid : Int) (s : Session) (fd : Int) (sock : Socket)
    (hs : w.session sid = some s) (hc : mapFind s.client_sockets_ fd = some sock) :
    w.holdsSocket sock = true := by
  obtain ⟨e, he, hes⟩ := mapFind_mem _ _ _ hs
  obtain ⟨c, hcm, hcs⟩ := mapFind_mem _ _ _ hc
  unfold World.holdsSocket
  rw [List.any_eq_true]
  refine ⟨e, he, ?_⟩
  rw [List.any_eq_true]
  refine ⟨c, hes ▸ hcm, ?_⟩
  rw [hcs]
  exact beq_self_eq_true sock

theorem releaseSocket_held (w : World) (sock : Socket) (h : w.holdsSocket sock = true) :
    w.releaseSocket sock = w := by
  unfold World.releaseSocket
  rw [if_pos h]

/-- The validation of `Session::handleRead` accepts a completion whose buffer starts with
a whole frame of type `CLIENT_CHAT` and hands that one frame to `processMessage`; the
connection map keeps the socket, so none is destroyed. -/
theorem handleRead_chat (w : World) (self : Int) (s : Session) (sock : Socket) (cqe : Cqe)
    (ctx : Operation) (addr L : Nat)
    (hs : w.session self = some s)
    (hc : mapFind s.client_sockets_ ctx.client_fd = some sock)
    (hv : 0 ≤ sock.mSocketFd)
    (hflag : cqe.flags &&& IORING_CQE_F_BUFFER ≠ 0)
    (haddr : UringBuffer.getBufferAddr ctx.buffer_idx s.io_ring_.buffer_manager_.buffer_base_addr_
      = some addr)
    (ht : w.mem addr % 256 = CLIENT_CHAT)
    (hL : u16of (w.mem (addr + 1)) (w.mem (addr + 2)) = L)
    (hL1 : 1 ≤ L) (hL2 : L ≤ MAX_MESSAGE_SIZE)
    (hres : ((3 + L : Nat) : Int) ≤ cqe.res) :
    handleRead w self cqe ctx =
      if cqe.flags &&& IORING_CQE_F_MORE = 0 then
        ((processMessage w self (some sock) addr ctx.buffer_idx).1.updSession self fun t =>
          { t with io_ring_ := t.io_ring_.prepareRead ctx.client_fd }, none)
      else ((processMessage w self (some sock) addr ctx.buffer_idx).1, none) := by
  have hm := getBufferAddr_ne_zero _ _ _ haddr
  have hpm := processMessage_chat w self sock addr ctx.buffer_idx L hv hm ht hL hL1 hL2
  have hb := handleReadBody_chat w self s sock cqe ctx addr L hv hflag haddr ht hL hL1 hL2 hres
  have hs1 : World.session { w with mem := memWrite w.mem (addr + 3) (headerBytes SERVER_ECHO L) }
      self = some s := hs
  unfold handleRead
  rw [hs]
  dsimp only
  rw [hc]
  dsimp only
  rw [hb]
  by_cases h7 : cqe.flags &&& IORING_CQE_F_MORE = 0
  · rw [if_pos h7]
    dsimp only
    rw [releaseSocket_held]
    rw [hpm]
    refine holdsSocket_of_session _ self
      { s with
        io_ring_ := (s.io_ring_.prepareWrite sock.mSocketFd (addr + 3) (3 + L)
          ctx.buffer_idx).prepareRead ctx.client_fd
        total_messages_ := s.total_messages_ + 1 } ctx.client_fd sock ?_ hc
    simp only [session_updSession, if_true, hs1, Option.map_some']
  · rw [if_neg h7]
    dsimp only
    rw [releaseSocket_held]
    rw [hpm]
    refine holdsSocket_of_session _ self
      { s with
        io_ring_ := s.io_ring_.prepareWrite sock.mSocketFd (addr + 3) (3 + L) ctx.buffer_idx
        total_messages_ := s.total_messages_ + 1 } ctx.client_fd sock ?_ hc
    simp only [session_updSession, if_true, hs1, Option.map_some']

theorem handleReadBody_invalid_header_closes (w : World) (self : Int) (s : Session)
    (sock : Socket) (cqe : Cqe) (ctx : Operation) (addr : Nat)
    (hres : 3 ≤ cqe.res)
    (haddr : UringBuffer.getBufferAddr ctx.buffer_idx s.io_ring_.buffer_manager_.buffer_base_addr_
      = some addr)
    (hbad : w.mem addr % 256 < CLIENT_JOIN ∨ w.mem addr % 256 > CLIENT_COMMAND ∨
      u16of (w.mem (addr + 1)) (w.mem (addr + 2)) = 0 ∨
      u16of (w.mem (addr + 1)) (w.mem (addr + 2)) > MAX_MESSAGE_SIZE) :
    handleReadBody w self s sock cqe ctx = (handleClose w self (some sock), none) := by
  unfold handleReadBody
  dsimp only
  have h1 : ¬ (cqe.res = 0 ∨ cqe.res = -EBADF ∨ cqe.res = -ECONNRESET) := by
    unfold EBADF ECONNRESET
    omega
  have h2 : ¬ (cqe.res < 0) := by omega
  rw [if_neg h1, if_neg h2]
  by_cases h4 : cqe.flags &&& IORING_CQE_F_BUFFER = 0
  · rw [if_pos h4]
  rw [if_neg h4, haddr]
  dsimp only
  have h5 : ¬ (cqe.res < (CHAT_MESSAGE_HEADER_SIZE : Int)) := by
    unfold CHAT_MESSAGE_HEADER_SIZE
    omega
  rw [if_neg h5]
  by_cases h8 : w.mem addr % 256 < CLIENT_JOIN ∨ w.mem addr % 256 > CLIENT_COMMAND
  · rw [if_pos h8]
    simp
  rw [if_neg h8]
  by_cases h9 : u16of (w.mem (addr + 1)) (w.mem (addr + 2)) > MAX_MESSAGE_SIZE
  · rw [if_pos h9]
    simp
  rw [if_neg h9]
  have h10 : u16of (w.mem (addr + 1)) (w.mem (addr + 2)) = 0 := by
    rcases hbad with h | h | h | h
    · exact absurd (Or.inl h) h8
    · exact absurd (Or.inr h) h8
    · exact h
    · exact absurd h h9
  rw [if_pos h10]
  simp

/-- The validation chain of `Session::handleRead`: when the header of the buffer the
handler parses (index `ctx.buffer_idx`) has a type outside 0x11..0x14, or length 0, or a
length above 1021, the handler does nothing but `handleClose` before its own `SocketPtr`
is released: `processMessage` is not run and no read is armed. -/
theorem handleRead_invalid_header_closes (w : World) (self : Int) (s : Session) (sock : Socket)
    (cqe : Cqe) (ctx : Operation) (addr : Nat)
    (hs : w.session self = some s)
    (hc : mapFind s.client_sockets_ ctx.client_fd = some sock)
    (hres : 3 ≤ cqe.res)
    (haddr : UringBuffer.getBufferAddr ctx.buffer_idx s.io_ring_.buffer_manager_.buffer_base_addr_
      = some addr)
    (hbad : w.mem addr % 256 < CLIENT_JOIN ∨ w.mem addr % 256 > CLIENT_COMMAND ∨
      u16of (w.mem (addr + 1)) (w.mem (addr + 2)) = 0 ∨
      u16of (w.mem (addr + 1)) (w.mem (addr + 2)) > MAX_MESSAGE_SIZE) :
    handleRead w self cqe ctx =
      ((handleClose w self (some sock)).releaseSocket sock, none) := by
  unfold handleRead
  rw [hs]
  dsimp only
  rw [hc]
  dsimp only
  rw [handleReadBody_invalid_header_closes w self s sock cqe ctx addr hres haddr hbad]

theorem mem_updSession (w : World) (sid : Int) (f : Session → Session) :
    (w.updSession sid f).mem = w.mem := by
  unfold World.updSession
  split <;> rfl

theorem setContext_fields (q : Sqe) (t : Nat) (fd : Int) (idx : Nat) :
    (setContext q t fd idx).op = q.op ∧ (setContext q t fd idx).fd = q.fd ∧
      (setContext q t fd idx).addr = q.addr ∧ (setContext q t fd idx).len = q.len := by
  unfold setContext
  split <;> simp

theorem writes_prepareRead (r : IOUring) (fd : Int) : (r.prepareRead fd).writes = r.writes := by
  unfold IOUring.prepareRead IOUring.writes
  split
  · rfl
  · simp

theorem writes_prepareWrite (r : IOUring) (fd : Int) (buf len bid : Nat) (h : buf ≠ 0) :
    (r.prepareWrite fd buf len bid).writes =
      r.writes ++ [setContext { Sqe.blank with op := SqeOp.write, fd := fd, addr := buf, len := len }
        OP_WRITE fd bid] := by
  unfold IOUring.prepareWrite IOUring.writes
  rw [if_neg h]
  simp [(setContext_fields _ _ _ _).1]

set_option maxRecDepth 100000 in
/-- C2, at the failing input: for the frame `13 05 00 'Hello'` in receive buffer 0,
`handleChatMessage` submits one write and the bytes it carries are `05 05 00 'l' 'o'`
followed by the three bytes behind the frame, not `05 05 00 'Hello'`. -/
theorem handleChatMessage_echo_drops_payload_head :
    (handleChatMessage (demoWorld [0x13, 5, 0, 72, 101, 108, 108, 111]) 0 (some ⟨5⟩)
        (demoBuf 0) 0).1.writtenBytes 0 = [[0x05, 5, 0, 108, 111, 0, 0, 0]] ∧
    (handleChatMessage (demoWorld [0x13, 5, 0, 72, 101, 108, 108, 111]) 0 (some ⟨5⟩)
        (demoBuf 0) 0).1.writtenBytes 0 ≠ [[0x05, 5, 0, 72, 101, 108, 108, 111]] := by
  decide

set_option maxRecDepth 100000 in
/-- C4, at the failing input: the completion delivers the 4 bytes `99 01 00 'A'` (type
0x99, outside 0x11..0x14) in the selected buffer 1 (`flags >> 16 = 1`), its context
carries buffer index 0, and `handleRead` validates buffer 0: the connection stays in the
connection map, no close is submitted, and `processMessage` runs (a second message is
counted and a second write is submitted). -/
theorem handleRead_validates_context_buffer_not_selected_buffer :
    (demoCqe 4 1).flags >>> IORING_CQE_BUFFER_SHIFT = 1 ∧
    (getContext (demoCqe 4 1)).buffer_idx = 0 ∧
    memRead secondReadWorld.mem (demoBuf 1) 4 = [0x99, 1, 0, 0x41] ∧
    secondReadWorld.totalMessages 0 = 1 ∧
    (handleRead secondReadWorld 0 (demoCqe 4 1) (getContext (demoCqe 4 1))).1.clientFds 0 = [5] ∧
    (handleRead secondReadWorld 0 (demoCqe 4 1) (getContext (demoCqe 4 1))).1.totalMessages 0 = 2 ∧
    ((handleRead secondReadWorld 0 (demoCqe 4 1) (getContext (demoCqe 4 1))).1.session 0).map
      (fun s => (s.io_ring_.closes.length, s.io_ring_.writes.length)) = some (0, 2) := by
  decide

/-- The session under `self` after `handleRead` has accepted a completion whose buffer
starts with a whole `CLIENT_CHAT` frame with payload length `L`. -/
theorem handleRead_chat_session (w : World) (self : Int) (s : Session) (sock : Socket)
    (cqe : Cqe) (ctx : Operation) (addr L : Nat)
    (hs : w.session self = some s)
    (hc : mapFind s.client_sockets_ ctx.client_fd = some sock)
    (hv : 0 ≤ sock.mSocketFd)
    (hflag : cqe.flags &&& IORING_CQE_F_BUFFER ≠ 0)
    (haddr : UringBuffer.getBufferAddr ctx.buffer_idx s.io_ring_.buffer_manager_.buffer_base_addr_
      = some addr)
    (ht : w.mem addr % 256 = CLIENT_CHAT)
    (hL : u16of (w.mem (addr + 1)) (w.mem (addr + 2)) = L)
    (hL1 : 1 ≤ L) (hL2 : L ≤ MAX_MESSAGE_SIZE)
    (hres : ((3 + L : Nat) : Int) ≤ cqe.res) :
    (handleRead w self cqe ctx).2 = none ∧
    (handleRead w self cqe ctx).1.mem = memWrite w.mem (addr + 3) (headerBytes SERVER_ECHO L) ∧
    ∃ s2 : Session, (handleRead w self cqe ctx).1.session self = some s2 ∧
      s2.total_messages_ = s.total_messages_ + 1 ∧
      s2.client_sockets_ = s.client_sockets_ ∧
      s2.io_ring_.closes = s.io_ring_.closes ∧
      ∃ q : Sqe, s2.io_ring_.writes = s.io_ring_.writes ++ [q] ∧
        q.fd = sock.mSocketFd ∧ q.addr = addr + 3 ∧ q.len = 3 + L := by
  have hm := getBufferAddr_ne_zero _ _ _ haddr
  have hm3 : addr + 3 ≠ 0 := by omega
  have h := handleRead_chat w self s sock cqe ctx addr L hs hc hv hflag haddr ht hL hL1 hL2 hres
  have hpm := processMessage_chat w self sock addr ctx.buffer_idx L hv hm ht hL hL1 hL2
  rw [hpm] at h
  have hcl : ∀ (r : IOUring) (fd : Int), (r.prepareRead fd).closes = r.closes := by
    intro r fd
    unfold IOUring.prepareRead IOUring.closes
    split
    · rfl
    · simp
  have hcw : ∀ (r : IOUring) (fd : Int) (buf len bid : Nat),
      (r.prepareWrite fd buf len bid).closes = r.closes := by
    intro r fd buf len bid
    unfold IOUring.prepareWrite IOUring.closes
    split
    · simp [Sqe.blank]
    · simp [(setContext_fields _ _ _ _).1]
  by_cases h7 : cqe.flags &&& IORING_CQE_F_MORE = 0
  · rw [if_pos h7] at h
    rw [h]
    refine ⟨rfl, ?_, ?_⟩
    · simp only [mem_updSession]
    · simp only [session_updSession, if_true]
      have hs1 : World.session { w with mem := memWrite w.mem (addr + 3) (headerBytes SERVER_ECHO L) } self = some s := hs
      rw [hs1]
      refine ⟨_, rfl, rfl, rfl, ?_, ?_⟩
      · simp only [hcl, hcw]
      · refine ⟨setContext { Sqe.blank with op := SqeOp.write, fd := sock.mSocketFd, addr := addr + 3, len := 3 + L } OP_WRITE sock.mSocketFd ctx.buffer_idx, ?_, (setContext_fields _ _ _ _).2.1, (setContext_fields _ _ _ _).2.2.1, (setContext_fields _ _ _ _).2.2.2⟩
        simp only [writes_prepareRead]
        exact writes_prepareWrite _ _ _ _ _ hm3
  · rw [if_neg h7] at h
    rw [h]
    refine ⟨rfl, ?_, ?_⟩
    · simp only [mem_updSession]
    · simp only [session_updSession, if_true]
      have hs1 : World.session { w with mem := memWrite w.mem (addr + 3) (headerBytes SERVER_ECHO L) } self = some s := hs
      rw [hs1]
      refine ⟨_, rfl, rfl, rfl, ?_, ?_⟩
      · simp only [hcw]
      · exact ⟨setContext { Sqe.blank with op := SqeOp.write, fd := sock.mSocketFd, addr := addr + 3, len := 3 + L } OP_WRITE sock.mSocketFd ctx.buffer_idx, writes_prepareWrite _ _ _ _ _ hm3, (setContext_fields _ _ _ _).2.1, (setContext_fields _ _ _ _).2.2.1, (setContext_fields _ _ _ _).2.2.2⟩

theorem chatFrames_cons_length (P : List Nat) (Ps : List (List Nat)) :
    3 + P.length ≤ (chatFrames (P :: Ps)).length := by
  simp [chatFrames, chatFrame, u16le]
  omega

theorem chatFrames_head (P : List Nat) (Ps : List (List Nat)) (hP : P.length ≤ 1021) :
    (chatFrames (P :: Ps)).getD 0 0 = 0x13 ∧
      u16of ((chatFrames (P :: Ps)).getD 1 0) ((chatFrames (P :: Ps)).getD 2 0) = P.length := by
  constructor
  · simp [chatFrames, chatFrame]
  · simp only [chatFrames, chatFrame, u16le, List.cons_append, List.getD_cons_succ,
      List.getD_cons_zero]
    unfold u16of
    omega

set_option maxRecDepth 100000 in
/-- C3, as the claim states it, fails: when one read delivers the two frames
`13 02 00 'A' 'B' 13 02 00 'C' 'D'`, the epoll `handleRead` queues the single frame
`05 02 00 'A' 'B'` and the io_uring `handleRead` counts one message and submits one
write. -/
theorem handleRead_drops_second_frame :
    (Epoll.demoSession.handleRead (some ⟨5⟩)
        [Epoll.ReadResult.data (chatFrames [[65, 66], [67, 68]])]).1.queuedBytes 5 =
      [[0x05, 2, 0, 65, 66]] ∧
    (Epoll.demoSession.handleRead (some ⟨5⟩)
        [Epoll.ReadResult.data (chatFrames [[65, 66], [67, 68]])]).1.queuedBytes 5 ≠
      [[0x05, 2, 0, 65, 66], [0x05, 2, 0, 67, 68]] ∧
    (handleRead (demoWorld (chatFrames [[65, 66], [67, 68]])) 0 (demoCqe 10 0)
        (getContext (demoCqe 10 0))).1.totalMessages 0 = 1 ∧
    ((handleRead (demoWorld (chatFrames [[65, 66], [67, 68]])) 0 (demoCqe 10 0)
        (getContext (demoCqe 10 0))).1.writtenBytes 0).length = 1 := by
  decide

/-- C3 amended: when a single read delivers the concatenation of `k ≥ 1` valid
`CLIENT_CHAT` frames with payloads `P :: Ps`, the read handler dispatches exactly one
message, the first frame. The epoll `handleRead` appends exactly one buffer to the write
queue of the connection, holding `05`, `|P|`, `P`. The io_uring `handleRead`, for a
completion whose context buffer holds the frames, runs `processMessage` once
(`total_messages_` grows by one), submits exactly one write, of `3 + |P|` bytes from
offset 3 of the buffer, where it has stored the header `05`, `|P|`, and keeps the
connection. -/
theorem handleRead_dispatches_first_frame_only (P : List Nat) (Ps : List (List Nat))
    (hP1 : 1 ≤ P.length) (hP2 : P.length ≤ 1021)
    (s : Epoll.Session) (sock : Socket) (a b : Int) (rest : List Int)
    (hsock : 0 ≤ sock.mSocketFd)
    (hinit : s.epoll_.epoll_initialized_ = true)
    (hreg : (mapFind s.epoll_.interest sock.mSocketFd).isSome = true)
    (hsize : (chatFrames (P :: Ps)).length ≤ s.epoll_.buffer_manager_.buffer_size_)
    (hfree : s.epoll_.buffer_manager_.free_buffers_ = a :: b :: rest)
    (ha : 0 ≤ a ∧ a < (s.epoll_.buffer_manager_.buffer_pool_.length : Int))
    (hb : 0 ≤ b ∧ b < (s.epoll_.buffer_manager_.buffer_pool_.length : Int))
    (w : World) (self : Int) (us : Session) (usock : Socket) (cqe : Cqe) (ctx : Operation)
    (addr : Nat)
    (hs : w.session self = some us)
    (hc : mapFind us.client_sockets_ ctx.client_fd = some usock)
    (hv : 0 ≤ usock.mSocketFd)
    (hflag : cqe.flags &&& IORING_CQE_F_BUFFER ≠ 0)
    (haddr : UringBuffer.getBufferAddr ctx.buffer_idx
      us.io_ring_.buffer_manager_.buffer_base_addr_ = some addr)
    (hres : cqe.res = ((chatFrames (P :: Ps)).length : Int))
    (hmem : memRead w.mem addr (chatFrames (P :: Ps)).length = chatFrames (P :: Ps)) :
    (∃ buf : Epoll.IOBuffer,
      (s.handleRead (some sock)
          [Epoll.ReadResult.data (chatFrames (P :: Ps))]).1.epoll_.buffer_manager_.queue
            sock.mSocketFd = s.epoll_.buffer_manager_.queue sock.mSocketFd ++ [buf] ∧
      (s.handleRead (some sock)
          [Epoll.ReadResult.data (chatFrames (P :: Ps))]).1.epoll_.buffer_manager_.bytesOf buf =
        echoFrameBytes P) ∧
    ((handleRead w self cqe ctx).2 = none ∧
      memRead (handleRead w self cqe ctx).1.mem (addr + 3) 3 = 0x05 :: u16le P.length ∧
      ∃ us2 : Session, (handleRead w self cqe ctx).1.session self = some us2 ∧
        us2.total_messages_ = us.total_messages_ + 1 ∧
        us2.client_sockets_ = us.client_sockets_ ∧
        us2.io_ring_.closes = us.io_ring_.closes ∧
        ∃ q : Sqe, us2.io_ring_.writes = us.io_ring_.writes ++ [q] ∧
          q.fd = usock.mSocketFd ∧ q.addr = addr + 3 ∧ q.len = 3 + P.length) := by
  constructor
  · have hlen : (chatFrames (P :: Ps)).length = 3 + P.length + (chatFrames Ps).length := by
      simp [chatFrames, chatFrame, u16le]
      omega
    have h := Epoll.handleReadLoop_frame s sock CLIENT_CHAT P (chatFrames Ps) a b rest 98 hinit
      hreg (by rw [← hlen]; exact hsize) hfree ha hb hP2
    have hf : chatFrames (P :: Ps) = headerBytes CLIENT_CHAT P.length ++ P ++ chatFrames Ps := by
      simp [chatFrames, chatFrame, headerBytes, CLIENT_CHAT]
    rw [Epoll.handleRead_valid s sock _ hsock, hf]
    exact ⟨_, h.1, h.2.1⟩
  · have hlen := chatFrames_cons_length P Ps
    obtain ⟨h0, hL⟩ := chatFrames_head P Ps hP2
    have hm0 := memRead_get w.mem addr _ _ hmem 0 (by omega)
    have hm1 := memRead_get w.mem addr _ _ hmem 1 (by omega)
    have hm2 := memRead_get w.mem addr _ _ hmem 2 (by omega)
    rw [Nat.add_zero, h0] at hm0
    rw [← hm1, ← hm2] at hL
    have h := handleRead_chat_session w self us usock cqe ctx addr P.length hs hc hv hflag haddr
      (by rw [hm0]; decide) hL hP1 hP2 (by rw [hres]; exact_mod_cast hlen)
    refine ⟨h.1, ?_, h.2.2⟩
    rw [h.2.1]
    simp [memRead, memWrite, headerBytes, u16le, List.range_succ, SERVER_ECHO]

theorem demoWorld_session (bytes : List Nat) :
    (demoWorld bytes).session 0 = some (demoUringSession (List.range NUM_IO_BUFFERS).tail) := by
  simp [demoWorld, demoWorldWith, World.session, mapFind]

theorem demoWorld_bufRing (bytes : List Nat) :
    (demoWorld bytes).bufRing 0 = (List.range NUM_IO_BUFFERS).tail := by
  simp [World.bufRing, demoWorld_session, demoUringSession]

theorem zero_not_mem_range_tail (n : Nat) : 0 ∉ (List.range n).tail := by
  cases n with
  | zero => simp
  | succ n => simp [List.range_succ_eq_map]

set_option maxRecDepth 100000 in
/-- Witness for C3 amended: the two frames `13 02 00 'A' 'B' 13 02 00 'C' 'D'` delivered
by one read, to connection 5 of a fresh epoll session and in receive buffer 0 of an
io_uring session. -/
theorem handleRead_dispatches_first_frame_only_witness :
    (∃ buf : Epoll.IOBuffer,
      (Epoll.demoSession.handleRead (some ⟨5⟩)
          [Epoll.ReadResult.data (chatFrames [[65, 66], [67, 68]])]).1.epoll_.buffer_manager_.queue
            5 = Epoll.demoSession.epoll_.buffer_manager_.queue 5 ++ [buf] ∧
      (Epoll.demoSession.handleRead (some ⟨5⟩)
          [Epoll.ReadResult.data (chatFrames [[65, 66], [67, 68]])]).1.epoll_.buffer_manager_.bytesOf
            buf = echoFrameBytes [65, 66]) ∧
    (handleRead (demoWorld (chatFrames [[65, 66], [67, 68]])) 0 (demoCqe 10 0)
      (getContext (demoCqe 10 0))).2 = none :=
  have h := handleRead_dispatches_first_frame_only [65, 66] [[67, 68]] (by decide) (by decide)
    Epoll.demoSession ⟨5⟩ 0 1 (((List.range 256).map Int.ofNat).drop 2) (by decide) (by decide)
    (by decide) (by decide) (by decide) (by decide) (by decide)
    (demoWorld (chatFrames [[65, 66], [67, 68]])) 0
    (demoUringSession (List.range NUM_IO_BUFFERS).tail) ⟨5⟩ (demoCqe 10 0)
    (getContext (demoCqe 10 0)) (demoBuf 0) (demoWorld_session _) (by decide) (by decide)
    (by decide) (by decide) (by decide) (by decide)
  ⟨h.1, h.2.1⟩

set_option maxRecDepth 100000 in
/-- C10, at the failing inputs: buffer 0 has been taken from the ring and holds a message
that leads to no write (`13 00 00` with length 0, the incomplete `13 05 00 'H'`,
`CLIENT_LEAVE`, `CLIENT_COMMAND`, or a `CLIENT_JOIN` with one payload byte). After `handleRead` no write has been submitted and
the ring is as before: buffer 0 has not been given back. -/
theorem handleRead_keeps_buffer_of_unanswered_message :
    0 ∉ (List.range NUM_IO_BUFFERS).tail ∧
    (∀ bytes ∈ [[0x13, 0, 0], [0x13, 5, 0, 72], [0x12, 1, 0, 0], [0x14, 1, 0, 0], [0x11, 1, 0, 0]],
      (demoWorld bytes).bufRing 0 = (List.range NUM_IO_BUFFERS).tail ∧
      (handleRead (demoWorld bytes) 0 (demoCqe bytes.length 0)
        (getContext (demoCqe bytes.length 0))).1.bufRing 0 = (List.range NUM_IO_BUFFERS).tail) ∧
    (∀ bytes ∈ [[0x13, 0, 0], [0x13, 5, 0, 72], [0x12, 1, 0, 0], [0x14, 1, 0, 0], [0x11, 1, 0, 0]],
      (handleRead (demoWorld bytes) 0 (demoCqe bytes.length 0)
        (getContext (demoCqe bytes.length 0))).1.writtenBytes 0 = []) := by
  refine ⟨zero_not_mem_range_tail _, ?_, by decide⟩
  intro bytes _
  exact ⟨demoWorld_bufRing bytes, (bufRing_handleRead _ _ _ _ _).trans (demoWorld_bufRing bytes)⟩

end Uring

namespace Epoll

/-! ## Closing a connection in the epoll server -/

theorem mapFind_mapErase_self {β : Type} (m : List (Int × β)) (k : Int) :
    mapFind (mapErase m k) k = none := by
  induction m with
  | nil => rfl
  | cons e l ih =>
    unfold mapFind mapErase at *
    by_cases h : e.1 = k
    · simp [List.filter_cons, h] at ih ⊢
    · simp [List.filter_cons, List.find?_cons, h] at ih ⊢

theorem mapErase_idem {β : Type} (m : List (Int × β)) (k : Int) :
    mapErase (mapErase m k) k = mapErase m k := by
  simp [mapErase, List.filter_filter]

theorem clearClientBuffers_absent (p : EPollBuffer) (fd : Int)
    (h : mapFind p.client_buffers_ fd = none) : p.clearClientBuffers fd = p := by
  simp [EPollBuffer.clearClientBuffers, h]

theorem releaseAll_clients (q : List IOBuffer) (p : EPollBuffer) :
    (p.releaseAll q).client_buffers_ = p.client_buffers_ := by
  induction q generalizing p with
  | nil => rfl
  | cons b rest ih => simp [EPollBuffer.releaseAll, ih]

theorem clearClientBuffers_find (p : EPollBuffer) (fd : Int) :
    mapFind (p.clearClientBuffers fd).client_buffers_ fd = none := by
  unfold EPollBuffer.clearClientBuffers
  cases h : mapFind p.client_buffers_ fd with
  | none => simpa using h
  | some q => simp [mapFind_mapErase_self]

theorem handleClose_valid (s : Session) (sock : Socket) (h : 0 ≤ sock.mSocketFd) :
    s.handleClose (some sock) =
      { s with
        client_sockets_ := mapErase s.client_sockets_ sock.mSocketFd
        epoll_ := ((s.epoll_.removeEvent sock.mSocketFd).2).prepareClose sock.mSocketFd } := by
  simp [Session.handleClose, Socket.isValid, Socket.getSocketFd, h]

theorem prepareClose_fields (e : EPoll) (fd : Int) :
    (e.prepareClose fd).buffer_manager_ = e.buffer_manager_.clearClientBuffers fd ∧
    (e.prepareClose fd).interest = mapErase e.interest fd ∧
    (e.prepareClose fd).closed = fd :: e.closed ∧
    (e.prepareClose fd).fd_contexts_ = mapErase e.fd_contexts_ fd ∧
    (e.prepareClose fd).epoll_initialized_ = e.epoll_initialized_ ∧
    (e.prepareClose fd).epoll_fd_ = e.epoll_fd_ := by
  unfold EPoll.prepareClose EPoll.removeEvent
  dsimp only
  by_cases h1 : e.epoll_initialized_ = true ∧ e.epoll_fd_ ≠ -1
  · rw [if_pos h1]
    by_cases h2 : (!e.epoll_initialized_) = true
    · simp [h2]
    · rw [if_neg h2]
      by_cases h3 : (mapFind e.interest fd).isNone = true
      · simp [h3]
      · simp [h3, mapErase_idem]
  · rw [if_neg h1]
    simp

theorem removeEvent_fields (e : EPoll) (fd : Int) :
    (e.removeEvent fd).2.buffer_manager_ = e.buffer_manager_ ∧
    mapErase (e.removeEvent fd).2.interest fd = mapErase e.interest fd ∧
    (e.removeEvent fd).2.closed = e.closed ∧
    (e.removeEvent fd).2.fd_contexts_ = e.fd_contexts_ ∧
    (e.removeEvent fd).2.epoll_initialized_ = e.epoll_initialized_ ∧
    (e.removeEvent fd).2.epoll_fd_ = e.epoll_fd_ := by
  unfold EPoll.removeEvent
  by_cases h2 : (!e.epoll_initialized_) = true
  · simp [h2]
  · rw [if_neg h2]
    by_cases h3 : (mapFind e.interest fd).isNone = true
    · simp [h3]
    · simp [h3, mapErase_idem]

/-- C16: in the epoll server, a second `handleClose(c)` directly after a first one changes
nothing: the connection map, the interest list of the reactor, the buffer pool with every
write queue and the context table are the same, and the set of descriptors that have been
closed is the same (the second `close` of the descriptor is logged again and closes
nothing). -/
theorem handleClose_twice_changes_nothing (s : Session) (c : Option Socket) :
    ((s.handleClose c).handleClose c).client_sockets_ = (s.handleClose c).client_sockets_ ∧
    ((s.handleClose c).handleClose c).epoll_.interest = (s.handleClose c).epoll_.interest ∧
    ((s.handleClose c).handleClose c).epoll_.buffer_manager_ =
      (s.handleClose c).epoll_.buffer_manager_ ∧
    ((s.handleClose c).handleClose c).epoll_.fd_contexts_ =
      (s.handleClose c).epoll_.fd_contexts_ ∧
    (∀ fd, fd ∈ ((s.handleClose c).handleClose c).epoll_.closed ↔
      fd ∈ (s.handleClose c).epoll_.closed) ∧
    ((s.handleClose c).handleClose c).sent = (s.handleClose c).sent ∧
    ((s.handleClose c).handleClose c).session_id_ = (s.handleClose c).session_id_ := by
  cases c with
  | none => simp [Session.handleClose]
  | some sock =>
    by_cases hv : 0 ≤ sock.mSocketFd
    · rw [handleClose_valid _ sock hv, handleClose_valid s sock hv]
      dsimp only
      obtain ⟨e1, he1⟩ : ∃ e1, e1 = ((s.epoll_.removeEvent sock.mSocketFd).2).prepareClose
        sock.mSocketFd := ⟨_, rfl⟩
      rw [← he1]
      have hp := prepareClose_fields (s.epoll_.removeEvent sock.mSocketFd).2 sock.mSocketFd
      rw [← he1] at hp
      have hp2 := prepareClose_fields (e1.removeEvent sock.mSocketFd).2 sock.mSocketFd
      have hr2 := removeEvent_fields e1 sock.mSocketFd
      refine ⟨mapErase_idem _ _, ?_, ?_, ?_, ?_, rfl, rfl⟩
      · rw [hp2.2.1, hr2.2.1, hp.2.1, mapErase_idem]
      · rw [hp2.1, hr2.1, hp.1]
        exact clearClientBuffers_absent _ _ (clearClientBuffers_find _ _)
      · rw [hp2.2.2.2.1, hr2.2.2.2.1, hp.2.2.2.1, mapErase_idem]
      · intro fd
        rw [hp2.2.2.1, hr2.2.2.1, hp.2.2.1]
        simp
    · simp [Session.handleClose, Socket.isValid, hv]

set_option maxRecDepth 100000 in
/-- C18, at the failing input: on a manager initialized with one session, connection 5 is
assigned (to session 0) and `Session::handleClose` then runs for it. The connection has
left the connection map of session 0 and its descriptor is closed, and the manager still
maps descriptor 5 to session 0: `getSession(5)` returns session 0. -/
theorem handleClose_leaves_client_session_entry :
    (( SessionManager.initialize (SessionManager.fresh.setThreadCount 1 8) 8 fun _ => 3).map
      fun m =>
        let m1 := ((m.assignClientToSession (some ⟨5⟩)).2).sessionHandleClose 0 (some ⟨5⟩)
        ((m.assignClientToSession (some ⟨5⟩)).1, m1.clientFds 0,
          (mapFind m1.sessions_ 0).map (fun s => s.epoll_.closed),
          mapFind m1.client_sessions_ 5, m1.getSession 5)) =
      some (0, [], some [5], some 0, some 0) := by
  decide

set_option maxRecDepth 100000 in
/-- C19, as the claim states it, fails: the read on connection 5 returns 0 bytes at end of
file, and after `handleRead` connection 5 is still in the connection map, is still
registered with the reactor, and no descriptor has been closed. -/
theorem handleRead_at_eof_keeps_connection :
    (demoSession.handleRead (some ⟨5⟩) [ReadResult.data []]).1.getClientFds = [5] ∧
    (demoSession.handleRead (some ⟨5⟩) [ReadResult.data []]).1.epoll_.closed = [] ∧
    mapFind (demoSession.handleRead (some ⟨5⟩) [ReadResult.data []]).1.epoll_.interest 5 =
      some BASE_EVENTS := by
  decide

theorem store_nil (p : EPollBuffer) (d : Option Nat) (off : Nat) : p.store d off [] = p := by
  cases d with
  | none => rfl
  | some i =>
    unfold EPollBuffer.store EPollBuffer.slot writeBytes
    simp only [List.append_nil, List.length_nil, Nat.add_zero, List.take_append_drop]
    by_cases hi : i < p.buffer_pool_.length
    · have : p.buffer_pool_.set i (p.buffer_pool_.getD i []) = p.buffer_pool_ := by
        rw [List.getD_eq_getElem?_getD, List.getElem?_eq_getElem hi]
        apply List.ext_getElem (by simp)
        intro n h1 h2
        rw [List.getElem_set]
        split
        · subst n
          simp
        · rfl
      rw [this]
    · have : p.buffer_pool_.set i (p.buffer_pool_.getD i []) = p.buffer_pool_ :=
        List.set_eq_of_length_le (by omega)
      rw [this]

/-- C19 amended: when the read returns 0 bytes at end of file, `handleRead` gives the read
buffer `a` back to the free list and returns; the session is otherwise as before: the
connection stays in the connection map and registered, nothing is closed, nothing is
queued (the close is left to the hang-up event of the reactor). -/
theorem handleRead_at_eof_releases_buffer_only (s : Session) (sock : Socket) (a : Int)
    (rest : List Int) (more : List ReadResult)
    (hsock : 0 ≤ sock.mSocketFd)
    (hfree : s.epoll_.buffer_manager_.free_buffers_ = a :: rest)
    (ha : 0 ≤ a ∧ a < (s.epoll_.buffer_manager_.buffer_pool_.length : Int))
    (hsize : 0 < s.epoll_.buffer_manager_.buffer_size_) :
    s.handleRead (some sock) (ReadResult.data [] :: more) =
      ({ s with epoll_ := { s.epoll_ with buffer_manager_ :=
          { s.epoll_.buffer_manager_ with free_buffers_ := rest ++ [a] } } }, more) := by
  rw [handleRead_valid s sock _ hsock, Session.handleReadLoop]
  have h1 : ¬ (0 ≥ s.epoll_.buffer_manager_.buffer_size_) := by omega
  have h2 : ¬ (a < 0 ∨ a ≥ (s.epoll_.buffer_manager_.buffer_pool_.length : Int)) := by omega
  simp only [EPollBuffer.hasAvailableBuffers, hfree, EPollBuffer.allocateBuffer, IOBuffer.ofSlot,
    List.isEmpty_cons, Bool.not_false, Bool.false_eq_true, if_false, Option.isNone_some,
    List.headD_cons, EPollBuffer.readToBuffer, h1, or_self, List.take_nil, List.length_nil,
    Nat.lt_irrefl, store_nil, if_true, List.tail_cons, Session.withPool,
    EPollBuffer.releaseBuffer, h2, Bool.not_true]

set_option maxRecDepth 100000 in
/-- Witness for C19 amended: end of file on connection 5 of the demo session. -/
theorem handleRead_at_eof_releases_buffer_only_witness :
    (demoSession.handleRead (some ⟨5⟩) [ReadResult.data []]).1.client_sockets_ =
      demoSession.client_sockets_ :=
  congrArg (fun r => r.1.client_sockets_)
    (handleRead_at_eof_releases_buffer_only demoSession ⟨5⟩ 0
      (((List.range 256).map Int.ofNat).drop 1) [] (by decide) (by decide) (by decide)
      (by decide))

end Epoll

namespace Uring

/-! ## Session moves and the client map of the io_uring server -/

set_option maxRecDepth 100000 in
/-- C13, at the failing inputs: connection 5 is assigned on a fresh manager with two
sessions (it is on session 0 and mapped to 0). After `onClientJoinSession(5, 1)` session 1
has descriptor 5 in its connection map and the manager maps 5 to no session; after
`onClientJoinSession(5, 7)`, whose target does not exist, an exception leaves the handler,
no session has descriptor 5 and the manager still maps 5 to session 0. -/
theorem onClientJoinSession_breaks_client_session_relation :
    (mapFind twoSessionWorld.client_sessions_ 5 = some 0 ∧
      twoSessionWorld.clientFds 0 = [5] ∧ twoSessionWorld.clientFds 1 = []) ∧
    ((onClientJoinSession twoSessionWorld 0 (some ⟨5⟩) 1).2 = none ∧
      (onClientJoinSession twoSessionWorld 0 (some ⟨5⟩) 1).1.clientFds 0 = [] ∧
      (onClientJoinSession twoSessionWorld 0 (some ⟨5⟩) 1).1.clientFds 1 = [5] ∧
      mapFind (onClientJoinSession twoSessionWorld 0 (some ⟨5⟩) 1).1.client_sessions_ 5 = none) ∧
    ((onClientJoinSession twoSessionWorld 0 (some ⟨5⟩) 7).2.isSome = true ∧
      (onClientJoinSession twoSessionWorld 0 (some ⟨5⟩) 7).1.clientFds 0 = [] ∧
      (onClientJoinSession twoSessionWorld 0 (some ⟨5⟩) 7).1.clientFds 1 = [] ∧
      mapFind (onClientJoinSession twoSessionWorld 0 (some ⟨5⟩) 7).1.client_sessions_ 5 =
        some 0) := by
  decide

theorem byteArray_toList_loop (bs : ByteArray) (n : Nat) :
    ∀ (i : Nat) (r : List UInt8), bs.size - i = n →
      ByteArray.toList.loop bs i r = r.reverse ++ bs.data.toList.drop i := by
  induction n with
  | zero =>
    intro i r h
    rw [ByteArray.toList.loop]
    have h1 : ¬ i < bs.size := by omega
    have h2 : bs.data.toList.length ≤ i := by
      have : bs.size = bs.data.toList.length := by simp [ByteArray.size]
      omega
    simp [h1, List.drop_eq_nil_of_le h2]
  | succ n ih =>
    intro i r h
    rw [ByteArray.toList.loop]
    have h1 : i < bs.size := by omega
    have h2 : i < bs.data.toList.length := by
      have : bs.size = bs.data.toList.length := by simp [ByteArray.size]
      omega
    rw [if_pos h1, ih (i + 1) _ (by omega), List.drop_eq_getElem_cons h2]
    have h3 : bs.get! i = bs.data.toList[i] := by
      simp [ByteArray.get!, Array.get!_eq_getD, Array.getD, h2]
      have h4 : i < bs.data.size := by simpa using h2
      simp [getElem!_pos, h4]
    simp [h3]

theorem byteArray_toList (bs : ByteArray) : bs.toList = bs.data.toList := by
  simp [ByteArray.toList, byteArray_toList_loop bs _ 0 [] rfl]

theorem toUTF8_toList (s : String) :
    s.toUTF8.toList = s.data.flatMap String.utf8EncodeChar := by
  rw [byteArray_toList]
  rfl

theorem putString_eq (w : World) (text : String) :
    w.putString text =
      { w with
        mem := memWrite w.mem w.heap (
                ((text.data.flatMap String.utf8EncodeChar).map fun b => b.toNat) ++ [0])
        freed := w.freed.filter fun a => a != w.heap } := by
  rw [World.putString, toUTF8_toList]

set_option maxRecDepth 100000 in
/-- C14, at the failing input: connection 5 of session 0 sends `11 04 00 00 00 00 00`.
`handleJoinSession` submits one write of 23 bytes; its first 21 bytes are `01 14 00`,
the 17 characters `eady in session 0` and the terminating 0 of the string, not `01 14 00`
followed by `Already in session 0`. The connection stays in session 0. -/
theorem handleJoinSession_same_session_ack_drops_text_head :
    ((handleJoinSession (demoWorld [0x11, 4, 0, 0, 0, 0, 0]) 0 (some ⟨5⟩)
        (demoBuf 0) 0).1.writtenBytes 0).map List.length = [23] ∧
    ((handleJoinSession (demoWorld [0x11, 4, 0, 0, 0, 0, 0]) 0 (some ⟨5⟩)
        (demoBuf 0) 0).1.writtenBytes 0).map (List.take 21) =
      [[0x01, 0x14, 0, 101, 97, 100, 121, 32, 105, 110, 32, 115, 101, 115, 115, 105, 111, 110,
        32, 48, 0]] ∧
    ((handleJoinSession (demoWorld [0x11, 4, 0, 0, 0, 0, 0]) 0 (some ⟨5⟩)
        (demoBuf 0) 0).1.writtenBytes 0).map (List.take 23) ≠
      [[0x01, 0x14, 0, 65, 108, 114, 101, 97, 100, 121, 32, 105, 110, 32, 115, 101, 115, 115,
        105, 111, 110, 32, 48]] ∧
    (handleJoinSession (demoWorld [0x11, 4, 0, 0, 0, 0, 0]) 0 (some ⟨5⟩)
        (demoBuf 0) 0).1.clientFds 0 = [5] := by
  unfold handleJoinSession
  simp only [putString_eq]
  decide

end Uring

namespace Uring

theorem toInt32_bounds (n : Nat) : -2 ^ 31 ≤ toInt32 n ∧ toInt32 n < 2 ^ 31 := by
  unfold toInt32
  split <;> omega

theorem getSessionByIndex_missing (w : World) (t : Int)
    (hn : w.available_sessions_.length < 2 ^ 31) (ht : -2 ^ 31 ≤ t ∧ t < 2 ^ 31)
    (hmiss : t < 0 ∨ (w.available_sessions_.length : Int) ≤ t) :
    w.getSessionByIndex t = none := by
  unfold World.getSessionByIndex
  have h : ¬ ((t % 2 ^ 64).toNat < w.available_sessions_.length) := by omega
  simp only [h, if_false]

theorem available_updSession (w : World) (sid : Int) (f : Session → Session) :
    (w.updSession sid f).available_sessions_ = w.available_sessions_ := by
  unfold World.updSession
  split <;> rfl

theorem heap_updSession (w : World) (sid : Int) (f : Session → Session) :
    (w.updSession sid f).heap = w.heap := by
  unfold World.updSession
  split <;> rfl

theorem clientFds_updSession (w : World) (sid k : Int) (f : Session → Session) :
    (w.updSession sid f).clientFds k =
      if k = sid then ((w.session k).map fun s => (f s).getClientFds).getD [] else w.clientFds k := by
  unfold World.clientFds
  rw [session_updSession]
  by_cases hk : k = sid
  · simp only [hk, if_true]
    cases w.session sid <;> rfl
  · simp only [hk, if_false]

theorem not_mem_removeClient (s : Session) (sock : Socket) (h : 0 ≤ sock.mSocketFd) :
    sock.mSocketFd ∉ (s.removeClient (some sock)).getClientFds := by
  have h1 : ¬ sock.mSocketFd < 0 := by omega
  simp [Session.removeClient, Session.getClientFds, Socket.isValid, Socket.getSocketFd, h, h1,
    mapErase]

theorem onClientJoinSession_missing (w : World) (self : Int) (sock : Socket) (t : Int)
    (hsock : 0 ≤ sock.mSocketFd)
    (hn : w.available_sessions_.length < 2 ^ 31) (ht : -2 ^ 31 ≤ t ∧ t < 2 ^ 31)
    (hmiss : t < 0 ∨ (w.available_sessions_.length : Int) ≤ t) :
    onClientJoinSession w self (some sock) t =
      (w.updSession self fun s => s.removeClient (some sock), some "요청한 세션을 찾을 수 없음") := by
  have h := getSessionByIndex_missing (w.updSession self fun s => s.removeClient (some sock)) t
    (by rw [available_updSession]; exact hn) ht (by rw [available_updSession]; exact hmiss)
  simp only [onClientJoinSession, Socket.isValid, hsock, decide_True, Bool.not_true,
    Bool.false_eq_true, if_false, h]

/-- For every world, when a client of a session sends a `CLIENT_JOIN` whose 4-byte target
differs from the id of its session and is no index of the session list (negative, or at
least the number of sessions), no exception leaves `handleJoinSession`, the handler
prepares exactly one further write, for the descriptor of that client, 64 bytes at the
address of the storage of `error_message`, that storage has been released when the handler
returns, and no session gains the client: it has left its own session and every session
that has it afterwards had it before. -/
theorem handleJoinSession_missing_target (w : World) (self : Int) (s : Session)
    (sock : Socket) (message idx : Nat)
    (hs : w.session self = some s)
    (hsock : 0 ≤ sock.mSocketFd)
    (hmsg : message ≠ 0)
    (hlen : 4 ≤ u16of (w.mem (message + 1)) (w.mem (message + 2)))
    (hheap : w.heap ≠ 0)
    (hn : w.available_sessions_.length < 2 ^ 31)
    (hne : readInt32 w.mem (message + 3) ≠ s.session_id_)
    (hmiss : readInt32 w.mem (message + 3) < 0 ∨
      (w.available_sessions_.length : Int) ≤ readInt32 w.mem (message + 3)) :
    (handleJoinSession w self (some sock) message idx).2 = none ∧
    (∃ q : Sqe,
      ((handleJoinSession w self (some sock) message idx).1.session self).map
          (fun t => t.io_ring_.writes) = some (s.io_ring_.writes ++ [q]) ∧
      q.fd = sock.mSocketFd ∧ q.addr = w.heap ∧ q.len = 3 + 61) ∧
    w.heap ∈ (handleJoinSession w self (some sock) message idx).1.freed ∧
    (∀ sid, sock.mSocketFd ∈ (handleJoinSession w self (some sock) message idx).1.clientFds sid →
      sid ≠ self ∧ sock.mSocketFd ∈ w.clientFds sid) := by
  have hb := toInt32_bounds (w.mem (message + 3) % 256 + 256 * (w.mem (message + 3 + 1) % 256)
    + 65536 * (w.mem (message + 3 + 2) % 256) + 16777216 * (w.mem (message + 3 + 3) % 256))
  have hj := onClientJoinSession_missing w self sock (readInt32 w.mem (message + 3)) hsock hn hb
    hmiss
  have hsz : ("Failed to join session: " ++ "요청한 세션을 찾을 수 없음").utf8ByteSize = 61 := by
    decide
  have hg : ¬ (message = 0 ∨ u16of (w.mem (message + 1)) (w.mem (message + 2)) < 4) := by omega
  obtain ⟨w1, hw1⟩ : ∃ w1 : World, w1 = (w.updSession self fun s => s.removeClient (some sock)).putString
      ("Failed to join session: " ++ "요청한 세션을 찾을 수 없음") := ⟨_, rfl⟩
  have hr : handleJoinSession w self (some sock) message idx =
      ((sendMessage w1 self (some sock) SERVER_ERROR w.heap 61 idx).1.freeString w.heap,
       (sendMessage w1 self (some sock) SERVER_ERROR w.heap 61 idx).2) := by
    unfold handleJoinSession
    rw [hs]
    simp only [Socket.isValid, hsock, decide_True, Bool.not_true, Bool.false_eq_true, if_false, hg]
    unfold readInt32 at hne hj
    simp only [CHAT_MESSAGE_HEADER_SIZE]
    rw [if_neg hne, hj]
    simp only [hsz, heap_updSession]
    rw [hw1]
  have hses : ∀ k, w1.session k = (w.updSession self fun s => s.removeClient (some sock)).session k := by
    intro k
    rw [hw1]
    rfl
  have hcf : ∀ k, w1.clientFds k = (w.updSession self fun s => s.removeClient (some sock)).clientFds k := by
    intro k
    rw [hw1]
    rfl
  rw [hr, sendMessage_ok _ _ _ _ _ _ _ hsock (by decide)]
  dsimp only
  obtain ⟨w2, hw2⟩ : ∃ w2 : World, w2 = { w1 with mem := memWrite w1.mem w.heap (headerBytes SERVER_ERROR 61) } :=
    ⟨_, rfl⟩
  rw [← hw2]
  have hses2 : ∀ k, w2.session k = w1.session k := by
    intro k
    rw [hw2]
    rfl
  have hcf2 : ∀ k, w2.clientFds k = w1.clientFds k := by
    intro k
    rw [hw2]
    rfl
  have hfs : ∀ (v : World) (k : Int), (v.freeString w.heap).session k = v.session k := fun _ _ => rfl
  have hfc : ∀ (v : World) (k : Int), (v.freeString w.heap).clientFds k = v.clientFds k :=
    fun _ _ => rfl
  refine ⟨rfl, ?_, ?_, ?_⟩
  · refine ⟨setContext { Sqe.blank with op := SqeOp.write, fd := sock.mSocketFd, addr := w.heap, len := 3 + 61 } OP_WRITE sock.mSocketFd idx, ?_, ?_, ?_, ?_⟩
    · rw [hfs, session_updSession]
      simp only [if_true]
      rw [hses2, hses, session_updSession, hs]
      simp only [if_true, Option.map_some']
      rw [writes_prepareWrite _ _ _ _ _ hheap]
      have h2 : (s.removeClient (some sock)).io_ring_ = s.io_ring_ := by
        unfold Session.removeClient
        dsimp only
        split
        · rfl
        · split <;> rfl
      rw [h2]
    · exact (setContext_fields _ _ _ _).2.1
    · exact (setContext_fields _ _ _ _).2.2.1
    · exact (setContext_fields _ _ _ _).2.2.2
  · exact List.mem_cons_self _ _
  · intro sid hmem
    rw [hfc, clientFds_updSession] at hmem
    by_cases hk : sid = self
    · exfalso
      rw [if_pos hk, hses2, hses, session_updSession, if_pos hk, hk, hs] at hmem
      simp only [Option.map_some', Option.getD_some] at hmem
      exact not_mem_removeClient s sock hsock hmem
    · rw [if_neg hk, hcf2, hcf, clientFds_updSession, if_neg hk] at hmem
      exact ⟨hk, hmem⟩


set_option maxRecDepth 100000 in
/-- C15, at the failing input: connection 5 of session 0, the only session, sends
`11 04 00 07 00 00 00`, a `CLIENT_JOIN` with target 7. `onClientJoinSession` raises its
error, `handleJoinSession` catches it, its `sendMessage` stores the type byte 0x02 at the
head of `error_message`, and `handleRead` returns normally with one write prepared: 64
bytes for descriptor 5 at the address of the storage of `error_message`. When `handleRead`
has returned, which is before `processEvents` submits that write, the storage has been
released (the string was a local of the `catch` block) and descriptor 5 has been closed by
`Socket::~Socket` (the connection left the connection map before the lookup, so the
handler held the last `SocketPtr`). No session has the connection and the manager still
maps descriptor 5 to session 0. -/
theorem handleRead_join_missing_target_releases_error_frame :
    ((demoWorld [0x11, 4, 0, 7, 0, 0, 0]).freed = [] ∧
      (demoWorld [0x11, 4, 0, 7, 0, 0, 0]).closed = [] ∧
      (demoWorld [0x11, 4, 0, 7, 0, 0, 0]).heap = 0x20000000 ∧
      (demoWorld [0x11, 4, 0, 7, 0, 0, 0]).clientFds 0 = [5]) ∧
    (onClientJoinSession (demoWorld [0x11, 4, 0, 7, 0, 0, 0]) 0 (some ⟨5⟩) 7).2.isSome = true ∧
    (sendMessage ((onClientJoinSession (demoWorld [0x11, 4, 0, 7, 0, 0, 0]) 0 (some ⟨5⟩) 7).1.putString
        ("Failed to join session: " ++ "요청한 세션을 찾을 수 없음")) 0 (some ⟨5⟩) SERVER_ERROR
        0x20000000 61 0).1.mem 0x20000000 = SERVER_ERROR ∧
    (handleJoinSession (demoWorld [0x11, 4, 0, 7, 0, 0, 0]) 0 (some ⟨5⟩) (demoBuf 0) 0).2 = none ∧
    (handleRead (demoWorld [0x11, 4, 0, 7, 0, 0, 0]) 0 (demoCqe 7 0)
        (getContext (demoCqe 7 0))).2 = none ∧
    ((handleRead (demoWorld [0x11, 4, 0, 7, 0, 0, 0]) 0 (demoCqe 7 0)
        (getContext (demoCqe 7 0))).1.session 0).map
      (fun s => s.io_ring_.writes.map fun q => (q.fd, q.addr, q.len)) =
        some [(5, 0x20000000, 64)] ∧
    (handleRead (demoWorld [0x11, 4, 0, 7, 0, 0, 0]) 0 (demoCqe 7 0)
        (getContext (demoCqe 7 0))).1.freed = [0x20000000] ∧
    (handleRead (demoWorld [0x11, 4, 0, 7, 0, 0, 0]) 0 (demoCqe 7 0)
        (getContext (demoCqe 7 0))).1.closed = [5] ∧
    (handleRead (demoWorld [0x11, 4, 0, 7, 0, 0, 0]) 0 (demoCqe 7 0)
        (getContext (demoCqe 7 0))).1.clientFds 0 = [] ∧
    mapFind (handleRead (demoWorld [0x11, 4, 0, 7, 0, 0, 0]) 0 (demoCqe 7 0)
        (getContext (demoCqe 7 0))).1.client_sessions_ 5 = some 0 := by
  unfold handleRead handleReadBody processMessage handleJoinSession
  simp only [putString_eq]
  decide

end Uring

namespace Epoll

/-! ## The write path of the epoll server -/

theorem hasDataToWrite_iff (p : EPollBuffer) (fd : Int) :
    p.hasDataToWrite fd = true ↔ p.queue fd ≠ [] := by
  unfold EPollBuffer.hasDataToWrite EPollBuffer.queue
  cases h : mapFind p.client_buffers_ fd with
  | none => simp
  | some q => cases q <;> simp

theorem handleClose_closed (s : Session) (sock : Socket) (h : 0 ≤ sock.mSocketFd) :
    (s.handleClose (some sock)).epoll_.closed = sock.mSocketFd :: s.epoll_.closed := by
  rw [handleClose_valid s sock h]
  dsimp only
  rw [(prepareClose_fields _ _).2.2.1, (removeEvent_fields _ _).2.2.1]

/-- What one run of the loop of `handleWrite` leaves alone: when the handler returned from
inside the loop it has closed the descriptor; otherwise nothing was closed, the
registrations are as before, and `need_more_write` is set only with a non-empty queue. -/
theorem handleWriteLoop_frame (sock : Socket) (hsock : 0 ≤ sock.mSocketFd) (fuel : Nat) :
    ∀ (s : Session) (ws : List WriteResult),
      ((Session.handleWriteLoop sock fuel s ws).2.2.2 = true →
        (Session.handleWriteLoop sock fuel s ws).1.epoll_.closed =
          sock.mSocketFd :: s.epoll_.closed) ∧
      ((Session.handleWriteLoop sock fuel s ws).2.2.2 = false →
        (Session.handleWriteLoop sock fuel s ws).1.epoll_.closed = s.epoll_.closed ∧
        (Session.handleWriteLoop sock fuel s ws).1.epoll_.interest = s.epoll_.interest ∧
        (Session.handleWriteLoop sock fuel s ws).1.epoll_.epoll_initialized_ =
          s.epoll_.epoll_initialized_ ∧
        ((Session.handleWriteLoop sock fuel s ws).2.2.1 = true →
          (Session.handleWriteLoop sock fuel s ws).1.epoll_.buffer_manager_.queue
            sock.mSocketFd ≠ [])) := by
  induction fuel with
  | zero =>
    intro s ws
    simp [Session.handleWriteLoop]
  | succ fuel ih =>
    intro s ws
    rw [Session.handleWriteLoop]
    dsimp only
    by_cases h1 : (!s.epoll_.buffer_manager_.hasDataToWrite sock.getSocketFd) = true
    · rw [if_pos h1]
      simp
    rw [if_neg h1]
    by_cases h2 : (s.epoll_.buffer_manager_.getNextBufferToWrite sock.getSocketFd).data.isNone = true
    · rw [if_pos h2]
      simp
    rw [if_neg h2]
    generalize EPollBuffer.writeFromBuffer _ _ _ _ = r
    obtain ⟨written, buffer1, out, errno1, called⟩ := r
    dsimp only
    by_cases h3 : written < 0
    · rw [if_pos h3]
      dsimp only
      refine ⟨fun _ => ?_, fun h => absurd h (by simp)⟩
      rw [handleClose_closed _ sock hsock]
    rw [if_neg h3]
    by_cases h4 : written = 0
    · rw [if_pos h4]
      dsimp only
      refine ⟨fun h => absurd h (by simp), fun _ => ⟨rfl, rfl, rfl, fun _ => ?_⟩⟩
      simp [EPollBuffer.queue, mapFind_mapSet_same, Socket.getSocketFd]
    rw [if_neg h4]
    by_cases h5 : buffer1.write_offset ≥ buffer1.length
    · rw [if_pos h5]
      exact ih _ _
    · rw [if_neg h5]
      dsimp only
      refine ⟨fun h => absurd h (by simp), fun _ => ⟨rfl, rfl, rfl, fun _ => ?_⟩⟩
      simp [EPollBuffer.queue, mapFind_mapSet_same, Socket.getSocketFd]

theorem modifyEvent_registered (e : EPoll) (fd : Int) (events : Nat)
    (hinit : e.epoll_initialized_ = true) (hreg : (mapFind e.interest fd).isSome = true) :
    mapFind (e.modifyEvent fd events).2.interest fd = some events ∧
    (e.modifyEvent fd events).2.buffer_manager_ = e.buffer_manager_ ∧
    (e.modifyEvent fd events).2.closed = e.closed := by
  have h : ¬ ((mapFind e.interest fd).isNone = true) := by
    cases hm : mapFind e.interest fd <;> simp [hm] at hreg ⊢
  simp [EPoll.modifyEvent, hinit, h, mapFind_mapSet_same]

/-- C20: in the epoll server, when `handleWrite` on a registered connection returns
without having closed it (no descriptor was closed during the call), the event mask
registered for the connection contains `EPOLLOUT` if and only if its write queue is not
empty, and with an empty queue the mask is exactly `BASE_EVENTS`
(`EPOLLIN | EPOLLET | EPOLLRDHUP`). -/
theorem handleWrite_writable_interest_iff_queue_nonempty (s : Session) (sock : Socket)
    (ws : List WriteResult)
    (hsock : 0 ≤ sock.mSocketFd)
    (hinit : s.epoll_.epoll_initialized_ = true)
    (hreg : (mapFind s.epoll_.interest sock.mSocketFd).isSome = true)
    (hopen : (s.handleWrite (some sock) ws).1.epoll_.closed = s.epoll_.closed) :
    ∃ mask : Nat,
      mapFind (s.handleWrite (some sock) ws).1.epoll_.interest sock.mSocketFd = some mask ∧
      (mask &&& EPOLLOUT ≠ 0 ↔
        (s.handleWrite (some sock) ws).1.epoll_.buffer_manager_.queue sock.mSocketFd ≠ []) ∧
      ((s.handleWrite (some sock) ws).1.epoll_.buffer_manager_.queue sock.mSocketFd = [] →
        mask = BASE_EVENTS) := by
  have hf := handleWriteLoop_frame sock hsock
    (s.epoll_.buffer_manager_.queue sock.mSocketFd).length s ws
  have hv : (!sock.isValid) = false := by simp [Socket.isValid, hsock]
  unfold Session.handleWrite at hopen ⊢
  simp only [hv, Bool.false_eq_true, if_false, Socket.getSocketFd] at hopen ⊢
  generalize Session.handleWriteLoop sock (s.epoll_.buffer_manager_.queue sock.mSocketFd).length
    s ws = r at hf hopen ⊢
  obtain ⟨s1, ws1, need, returned⟩ := r
  dsimp only at hf hopen ⊢
  cases returned with
  | true =>
    exfalso
    simp only [if_true] at hopen
    have := hf.1 rfl
    rw [this] at hopen
    exact absurd (congrArg List.length hopen) (by simp)
  | false =>
    obtain ⟨hc, hi, hin, hq⟩ := hf.2 rfl
    simp only [Bool.false_eq_true, if_false]
    have hreg1 : (mapFind s1.epoll_.interest sock.mSocketFd).isSome = true := by rw [hi]; exact hreg
    have hinit1 : s1.epoll_.epoll_initialized_ = true := by rw [hin]; exact hinit
    by_cases hw : need = true ∨ s1.epoll_.buffer_manager_.hasDataToWrite sock.mSocketFd = true
    · rw [if_pos hw]
      dsimp only
      have hm := modifyEvent_registered s1.epoll_ sock.mSocketFd (BASE_EVENTS ||| EPOLLOUT) hinit1 hreg1
      have hne : s1.epoll_.buffer_manager_.queue sock.mSocketFd ≠ [] := by
        rcases hw with hw | hw
        · exact hq hw
        · exact (hasDataToWrite_iff _ _).1 hw
      refine ⟨_, hm.1, ?_, ?_⟩
      · rw [hm.2.1]
        exact ⟨fun _ => hne, fun _ => by decide⟩
      · rw [hm.2.1]
        intro h
        exact absurd h hne
    · rw [if_neg hw]
      dsimp only
      have hm := modifyEvent_registered s1.epoll_ sock.mSocketFd BASE_EVENTS hinit1 hreg1
      have he : s1.epoll_.buffer_manager_.queue sock.mSocketFd = [] := by
        by_contra hne
        exact hw (Or.inr ((hasDataToWrite_iff _ _).2 hne))
      refine ⟨_, hm.1, ?_, fun _ => rfl⟩
      rw [hm.2.1]
      exact ⟨fun h => absurd (by decide) h, fun h => absurd he h⟩

set_option maxRecDepth 100000 in
/-- Witness for C20: on connection 5 the echo of `13 05 00 'Hello'` is queued; a write
that takes 3 of its 8 bytes leaves the queue non-empty. -/
theorem handleWrite_writable_interest_iff_queue_nonempty_witness :
    ∃ mask : Nat,
      mapFind (((demoSession.handleRead (some ⟨5⟩)
          [ReadResult.data (chatFrame [72, 101, 108, 108, 111])]).1.handleWrite (some ⟨5⟩)
            [WriteResult.wrote 3]).1.epoll_.interest) 5 = some mask ∧
      (mask &&& EPOLLOUT ≠ 0 ↔
        ((demoSession.handleRead (some ⟨5⟩)
          [ReadResult.data (chatFrame [72, 101, 108, 108, 111])]).1.handleWrite (some ⟨5⟩)
            [WriteResult.wrote 3]).1.epoll_.buffer_manager_.queue 5 ≠ []) ∧
      (((demoSession.handleRead (some ⟨5⟩)
          [ReadResult.data (chatFrame [72, 101, 108, 108, 111])]).1.handleWrite (some ⟨5⟩)
            [WriteResult.wrote 3]).1.epoll_.buffer_manager_.queue 5 = [] →
        mask = BASE_EVENTS) :=
  handleWrite_writable_interest_iff_queue_nonempty
    (demoSession.handleRead (some ⟨5⟩) [ReadResult.data (chatFrame [72, 101, 108, 108, 111])]).1
    ⟨5⟩ [WriteResult.wrote 3] (by decide) (by decide) (by decide) (by decide)

end Epoll

namespace Epoll

/-! ## Order of the bytes written to a connection -/

theorem handleWriteLoop_succ (sock : Socket) (fuel : Nat) (s : Session) (ws : List WriteResult) :
    Session.handleWriteLoop sock (fuel + 1) s ws =
      if !s.epoll_.buffer_manager_.hasDataToWrite sock.mSocketFd then (s, ws, false, false)
      else if (s.epoll_.buffer_manager_.getNextBufferToWrite sock.mSocketFd).data.isNone then
        (s, ws, false, false)
      else
        let r := s.epoll_.buffer_manager_.writeFromBuffer
          (s.epoll_.buffer_manager_.getNextBufferToWrite sock.mSocketFd)
          (ws.headD (WriteResult.fail EAGAIN)) s.errno
        let ws1 := if r.2.2.2.2 then ws.tail else ws
        let s1 := s.afterWrite sock.mSocketFd r.2.1 r.2.2.1 r.2.2.2.1
        if r.1 < 0 then (s1.handleClose (some sock), ws1, false, true)
        else if r.1 = 0 then (s1, ws1, true, false)
        else if r.2.1.write_offset ≥ r.2.1.length then
          Session.handleWriteLoop sock fuel
            (s1.withPool fun q => q.removeProcessedBuffer sock.mSocketFd) ws1
        else (s1, ws1, true, false) := by
  rw [Session.handleWriteLoop]
  rfl

theorem queue_cons_find (p : EPollBuffer) (fd : Int) (b : IOBuffer) (rest : List IOBuffer)
    (h : p.queue fd = b :: rest) : mapFind p.client_buffers_ fd = some (b :: rest) := by
  unfold EPollBuffer.queue at h
  cases hm : mapFind p.client_buffers_ fd with
  | none => simp [hm] at h
  | some q =>
    simp [hm] at h
    rw [h]

theorem readBytes_split (mem : List Nat) (off k n : Nat) (h : k ≤ n) :
    readBytes mem off k ++ readBytes mem (off + k) (n - k) = readBytes mem off n := by
  unfold readBytes
  have h1 : mem.drop (off + k) = (mem.drop off).drop k := by rw [List.drop_drop]
  rw [h1]
  obtain ⟨d, rfl⟩ : ∃ d, n = k + d := ⟨n - k, by omega⟩
  rw [Nat.add_sub_cancel_left, List.take_add]

theorem afterWrite_fields (s : Session) (fd : Int) (b1 : IOBuffer) (out : List Nat) (e : Nat) :
    (s.afterWrite fd b1 out e).epoll_.buffer_manager_.queue fd =
      b1 :: (s.epoll_.buffer_manager_.queue fd).tail ∧
    (s.afterWrite fd b1 out e).epoll_.buffer_manager_.free_buffers_ =
      s.epoll_.buffer_manager_.free_buffers_ ∧
    (s.afterWrite fd b1 out e).epoll_.buffer_manager_.buffer_pool_ =
      s.epoll_.buffer_manager_.buffer_pool_ ∧
    (s.afterWrite fd b1 out e).sentTo fd = s.sentTo fd ++ out := by
  simp [Session.afterWrite, EPollBuffer.queue, Session.sentTo, mapFind_mapSet_same]

theorem removeProcessedBuffer_fields (p : EPollBuffer) (fd : Int) (b : IOBuffer)
    (rest : List IOBuffer) (h : p.queue fd = b :: rest)
    (hb : 0 ≤ b.buffer_id ∧ b.buffer_id < (p.buffer_pool_.length : Int)) :
    (p.removeProcessedBuffer fd).queue fd = rest ∧
    (p.removeProcessedBuffer fd).free_buffers_ = p.free_buffers_ ++ [b.buffer_id] ∧
    (p.removeProcessedBuffer fd).buffer_pool_ = p.buffer_pool_ := by
  have hm := queue_cons_find p fd b rest h
  unfold EPollBuffer.removeProcessedBuffer
  rw [hm]
  dsimp only
  refine ⟨?_, ?_, ?_⟩
  · rw [release_queue]
    simp [EPollBuffer.queue, mapFind_mapSet_same]
  · exact release_free_valid
      { p with client_buffers_ := mapSet p.client_buffers_ fd rest } b.buffer_id hb
  · rw [releaseBuffer_pool]

theorem pendingBytes_eq (p : EPollBuffer) (fd : Int) (q : List IOBuffer) (h : p.queue fd = q) :
    p.pendingBytes fd =
      (q.map fun b => readBytes (p.slot b.data) b.write_offset (b.length - b.write_offset)).flatten := by
  rw [EPollBuffer.pendingBytes, h]

theorem slot_eq_of_pool (p p1 : EPollBuffer) (h : p1.buffer_pool_ = p.buffer_pool_)
    (d : Option Nat) : p1.slot d = p.slot d := by
  cases d <;> simp [EPollBuffer.slot, h]

end Epoll

namespace Epoll

theorem queueOk_of_fields (p p1 : EPollBuffer) (fd : Int)
    (hpool : p1.buffer_pool_.length = p.buffer_pool_.length)
    (hfree : p1.free_buffers_ = p.free_buffers_) (hq : p1.queue fd = p.queue fd)
    (h : p.QueueOk fd) : p1.QueueOk fd := by
  unfold EPollBuffer.QueueOk EPollBuffer.FreeOk at *
  rw [hpool, hfree, hq]
  exact h

theorem queueOk_advance (p p1 : EPollBuffer) (fd : Int) (b : IOBuffer) (rest : List IOBuffer)
    (k : Nat) (hq : p.queue fd = b :: rest)
    (hpool : p1.buffer_pool_ = p.buffer_pool_) (hfree : p1.free_buffers_ = p.free_buffers_)
    (hq1 : p1.queue fd = { b with write_offset := b.write_offset + k } :: rest)
    (hk : b.write_offset + k < b.length) (h : p.QueueOk fd) : p1.QueueOk fd := by
  unfold EPollBuffer.QueueOk EPollBuffer.FreeOk at *
  rw [hpool, hfree, hq1]
  rw [hq] at h
  obtain ⟨hf, hn, hb⟩ := h
  refine ⟨hf, by simpa using hn, ?_⟩
  intro x hx
  rcases List.mem_cons.1 hx with hx | hx
  · subst hx
    have := hb b (List.mem_cons_self _ _)
    exact ⟨this.1, this.2.1, this.2.2.1, this.2.2.2.1, hk⟩
  · exact hb x (List.mem_cons_of_mem _ hx)

theorem queueOk_pop (p p1 : EPollBuffer) (fd : Int) (b : IOBuffer) (rest : List IOBuffer)
    (id : Int) (hid : id = b.buffer_id) (hq : p.queue fd = b :: rest)
    (hpool : p1.buffer_pool_ = p.buffer_pool_)
    (hfree : p1.free_buffers_ = p.free_buffers_ ++ [id])
    (hq1 : p1.queue fd = rest) (h : p.QueueOk fd) : p1.QueueOk fd := by
  unfold EPollBuffer.QueueOk EPollBuffer.FreeOk at *
  rw [hpool, hfree, hq1]
  rw [hq] at h
  subst hid
  obtain ⟨hf, hn, hb⟩ := h
  have hb0 := hb b (List.mem_cons_self _ _)
  rw [List.map_cons, List.nodup_cons] at hn
  refine ⟨⟨?_, ?_⟩, hn.2, ?_⟩
  · rw [List.nodup_append]
    refine ⟨hf.1, List.nodup_singleton _, ?_⟩
    intro x hx hx1
    rw [List.mem_singleton] at hx1
    subst hx1
    exact hb0.1 hx
  · intro x hx
    rcases List.mem_append.1 hx with hx | hx
    · exact hf.2 x hx
    · rw [List.mem_singleton] at hx
      subst hx
      exact ⟨hb0.2.1, hb0.2.2.1⟩
  · intro x hx
    have hx0 := hb x (List.mem_cons_of_mem _ hx)
    refine ⟨?_, hx0.2.1, hx0.2.2.1, hx0.2.2.2.1, hx0.2.2.2.2⟩
    intro hmem
    rcases List.mem_append.1 hmem with hm | hm
    · exact hx0.1 hm
    · rw [List.mem_singleton] at hm
      exact hn.1 (hm ▸ List.mem_map_of_mem _ hx)

/-- The loop of `handleWrite` on a consistent queue, with writes that accept bytes or would
block: the queue stays consistent, the descriptor has accepted further bytes `x`, these
followed by what is still pending are what was pending before, and the handler does not
return from inside the loop. -/
theorem handleWriteLoop_order (sock : Socket) (fuel : Nat) :
    ∀ (s : Session) (ws : List WriteResult),
      s.epoll_.buffer_manager_.QueueOk sock.mSocketFd → ws.all WriteResult.benign = true →
      (Session.handleWriteLoop sock fuel s ws).1.epoll_.buffer_manager_.QueueOk sock.mSocketFd ∧
      (∃ x, (Session.handleWriteLoop sock fuel s ws).1.sentTo sock.mSocketFd =
          s.sentTo sock.mSocketFd ++ x ∧
        x ++ (Session.handleWriteLoop sock fuel s ws).1.epoll_.buffer_manager_.pendingBytes
            sock.mSocketFd = s.epoll_.buffer_manager_.pendingBytes sock.mSocketFd) ∧
      (Session.handleWriteLoop sock fuel s ws).2.2.2 = false := by
  induction fuel with
  | zero =>
    intro s ws hok _
    exact ⟨hok, ⟨[], by simp [Session.handleWriteLoop], by simp [Session.handleWriteLoop]⟩, rfl⟩
  | succ fuel ih =>
    intro s ws hok hws
    rw [handleWriteLoop_succ]
    cases hq : s.epoll_.buffer_manager_.queue sock.mSocketFd with
    | nil =>
      have h1 : s.epoll_.buffer_manager_.hasDataToWrite sock.mSocketFd = false := by
        cases hd : s.epoll_.buffer_manager_.hasDataToWrite sock.mSocketFd with
        | false => rfl
        | true => exact absurd hq ((hasDataToWrite_iff _ _).1 hd)
      simp only [h1, Bool.not_false, if_true]
      exact ⟨hok, ⟨[], by simp, by simp⟩, trivial⟩
    | cons b rest =>
      have hm := queue_cons_find _ _ _ _ hq
      have hb := hok.2.2 b (by rw [hq]; exact List.mem_cons_self _ _)
      have h1 : s.epoll_.buffer_manager_.hasDataToWrite sock.mSocketFd = true := by
        simp [EPollBuffer.hasDataToWrite, hm]
      have h2 : s.epoll_.buffer_manager_.getNextBufferToWrite sock.mSocketFd = b := by
        simp [EPollBuffer.getNextBufferToWrite, hm]
      have h3 : b.data.isNone = false := by rw [hb.2.2.2.1]; rfl
      simp only [h1, h2, h3, Bool.not_true, Bool.false_eq_true, if_false]
      have hpend : s.epoll_.buffer_manager_.pendingBytes sock.mSocketFd =
          readBytes (s.epoll_.buffer_manager_.slot b.data) b.write_offset
            (b.length - b.write_offset) ++
          (rest.map fun c => readBytes (s.epoll_.buffer_manager_.slot c.data) c.write_offset
            (c.length - c.write_offset)).flatten := by
        rw [pendingBytes_eq _ _ _ hq]
        simp
      -- the three outcomes of `writeFromBuffer`
      have hguard : ¬ (b.data.isNone = true ∨ b.write_offset ≥ b.length) := by
        rw [h3]
        have := hb.2.2.2.2
        simp only [Bool.false_eq_true, false_or]
        omega
      have hstay : ∀ (e : Nat) (ws1 : List WriteResult),
          ((s.afterWrite sock.mSocketFd b [] e).epoll_.buffer_manager_.QueueOk sock.mSocketFd ∧
          (∃ x, (s.afterWrite sock.mSocketFd b [] e).sentTo sock.mSocketFd =
              s.sentTo sock.mSocketFd ++ x ∧
            x ++ (s.afterWrite sock.mSocketFd b [] e).epoll_.buffer_manager_.pendingBytes
              sock.mSocketFd = s.epoll_.buffer_manager_.pendingBytes sock.mSocketFd) ∧
          ((s.afterWrite sock.mSocketFd b [] e, ws1, true, false) :
            Session × List WriteResult × Bool × Bool).2.2.2 = false) := by
        intro e ws1
        have hf := afterWrite_fields s sock.mSocketFd b [] e
        rw [hq, List.tail_cons] at hf
        refine ⟨queueOk_of_fields _ _ _ (by rw [hf.2.2.1]) hf.2.1 (by rw [hf.1, hq]) hok,
          ⟨[], hf.2.2.2, ?_⟩, rfl⟩
        rw [List.nil_append, pendingBytes_eq _ _ _ hf.1, pendingBytes_eq _ _ _ hq]
        simp only [slot_eq_of_pool _ _ hf.2.2.1]
      cases hw : ws.headD (WriteResult.fail EAGAIN) with
      | fail e =>
        have he : e = EAGAIN := by
          cases ws with
          | nil =>
            simp only [List.headD_nil, WriteResult.fail.injEq] at hw
            exact hw.symm
          | cons w ws2 =>
            simp only [List.headD_cons] at hw
            subst hw
            simp only [List.all_cons, Bool.and_eq_true, WriteResult.benign, beq_iff_eq] at hws
            exact hws.1
        subst he
        simp only [EPollBuffer.writeFromBuffer, hguard, if_false, if_true]
        exact hstay _ _
      | wrote n =>
        by_cases hk : min n (b.length - b.write_offset) > 0
        · simp only [EPollBuffer.writeFromBuffer, hguard, if_false, hk, if_true]
          have htail : ws.tail.all WriteResult.benign = true := by
            cases ws with
            | nil => rfl
            | cons w ws2 =>
              simp only [List.all_cons, Bool.and_eq_true] at hws
              exact hws.2
          obtain ⟨k, hkdef⟩ : ∃ k, k = min n (b.length - b.write_offset) := ⟨_, rfl⟩
          rw [← hkdef] at hk ⊢
          have hkle : k ≤ b.length - b.write_offset := by rw [hkdef]; exact Nat.min_le_right _ _
          have hn1 : ¬ ((k : Int) < 0) := by omega
          have hn2 : ¬ ((k : Int) = 0) := by omega
          rw [if_neg hn1, if_neg hn2]
          have hf := afterWrite_fields s sock.mSocketFd
            { b with write_offset := b.write_offset + k }
            (readBytes (s.epoll_.buffer_manager_.slot b.data) b.write_offset k) s.errno
          rw [hq, List.tail_cons] at hf
          by_cases hfull : b.write_offset + k ≥ b.length
          · rw [if_pos hfull]
            have hkeq : k = b.length - b.write_offset := by omega
            have hr := removeProcessedBuffer_fields _ sock.mSocketFd _ _ hf.1
              (by rw [hf.2.2.1]; exact ⟨hb.2.1, hb.2.2.1⟩)
            rw [hf.2.1, hf.2.2.1] at hr
            have hok2 : ((s.afterWrite sock.mSocketFd
                { b with write_offset := b.write_offset + k }
                (readBytes (s.epoll_.buffer_manager_.slot b.data) b.write_offset k)
                s.errno).withPool
                  fun q => q.removeProcessedBuffer sock.mSocketFd).epoll_.buffer_manager_.QueueOk
                sock.mSocketFd :=
              queueOk_pop s.epoll_.buffer_manager_ _ sock.mSocketFd b rest b.buffer_id rfl hq
                hr.2.2 hr.2.1 hr.1 hok
            obtain ⟨hA, ⟨x2, hx2, hp2⟩, hC⟩ := ih _ ws.tail hok2 htail
            refine ⟨hA, ⟨readBytes (s.epoll_.buffer_manager_.slot b.data) b.write_offset k ++ x2,
              ?_, ?_⟩, hC⟩
            · rw [hx2, ← List.append_assoc]
              congr 1
              exact hf.2.2.2
            · rw [List.append_assoc, hp2, hpend]
              have hs2 : ((s.afterWrite sock.mSocketFd
                  { b with write_offset := b.write_offset + k }
                  (readBytes (s.epoll_.buffer_manager_.slot b.data) b.write_offset k)
                  s.errno).withPool
                    fun q => q.removeProcessedBuffer sock.mSocketFd).epoll_.buffer_manager_.pendingBytes
                  sock.mSocketFd =
                  (rest.map fun c => readBytes (s.epoll_.buffer_manager_.slot c.data) c.write_offset
                    (c.length - c.write_offset)).flatten := by
                have hpe := pendingBytes_eq _ sock.mSocketFd rest hr.1
                refine Eq.trans hpe ?_
                simp only [slot_eq_of_pool _ _ hr.2.2]
              rw [hs2, hkeq]
          · rw [if_neg hfull]
            refine ⟨queueOk_advance _ _ _ b rest k hq hf.2.2.1 hf.2.1 hf.1 (by omega) hok,
              ⟨readBytes (s.epoll_.buffer_manager_.slot b.data) b.write_offset k, hf.2.2.2, ?_⟩,
              rfl⟩
            rw [pendingBytes_eq _ _ _ hf.1, hpend]
            simp only [slot_eq_of_pool _ _ hf.2.2.1, List.map_cons, List.flatten_cons]
            rw [← List.append_assoc]
            congr 1
            have := readBytes_split (s.epoll_.buffer_manager_.slot b.data) b.write_offset k
              (b.length - b.write_offset) hkle
            rw [← this]
            congr 2
            omega
        · simp only [EPollBuffer.writeFromBuffer, hguard, if_false, hk]
          exact hstay _ _

end Epoll

namespace Epoll

theorem modifyEvent_pool (e : EPoll) (fd : Int) (events : Nat) :
    (e.modifyEvent fd events).2.buffer_manager_ = e.buffer_manager_ := by
  unfold EPoll.modifyEvent
  split
  · rfl
  · split <;> rfl

theorem handleWrite_order (s : Session) (sock : Socket) (ws : List WriteResult)
    (hsock : 0 ≤ sock.mSocketFd)
    (hok : s.epoll_.buffer_manager_.QueueOk sock.mSocketFd)
    (hws : ws.all WriteResult.benign = true) :
    (s.handleWrite (some sock) ws).1.epoll_.buffer_manager_.QueueOk sock.mSocketFd ∧
    ∃ x, (s.handleWrite (some sock) ws).1.sentTo sock.mSocketFd = s.sentTo sock.mSocketFd ++ x ∧
      x ++ (s.handleWrite (some sock) ws).1.epoll_.buffer_manager_.pendingBytes sock.mSocketFd =
        s.epoll_.buffer_manager_.pendingBytes sock.mSocketFd := by
  have hl := handleWriteLoop_order sock (s.epoll_.buffer_manager_.queue sock.mSocketFd).length
    s ws hok hws
  have hv : (!sock.isValid) = false := by simp [Socket.isValid, hsock]
  unfold Session.handleWrite
  simp only [hv, Bool.false_eq_true, if_false, Socket.getSocketFd]
  generalize Session.handleWriteLoop sock (s.epoll_.buffer_manager_.queue sock.mSocketFd).length
    s ws = r at hl ⊢
  obtain ⟨s1, ws1, need, returned⟩ := r
  dsimp only at hl ⊢
  obtain ⟨hA, hB, hC⟩ := hl
  subst hC
  simp only [Bool.false_eq_true, if_false]
  split
  · dsimp only
    rw [modifyEvent_pool]
    exact ⟨hA, hB⟩
  · dsimp only
    rw [modifyEvent_pool]
    exact ⟨hA, hB⟩

theorem prepareWrite_success (e : EPoll) (fd : Int) (bytes : List Nat) (len : Nat)
    (h : (e.prepareWrite fd (some bytes) len).1 = true) :
    ∃ a rest, e.buffer_manager_.free_buffers_ = a :: rest ∧ 0 < len ∧
      len ≤ e.buffer_manager_.buffer_size_ ∧ e.epoll_initialized_ = true ∧
      (mapFind e.interest fd).isSome = true := by
  unfold EPoll.prepareWrite at h
  dsimp only at h
  by_cases h1 : len = 0
  · rw [if_pos h1] at h
    exact absurd h (by simp)
  rw [if_neg h1] at h
  by_cases h2 : (!e.epoll_initialized_) = true
  · rw [if_pos h2] at h
    exact absurd h (by simp)
  rw [if_neg h2] at h
  by_cases h3 : (!e.buffer_manager_.hasAvailableBuffers) = true
  · rw [if_pos h3] at h
    exact absurd h (by simp)
  rw [if_neg h3] at h
  cases hfree : e.buffer_manager_.free_buffers_ with
  | nil => simp [EPollBuffer.hasAvailableBuffers, hfree] at h3
  | cons a rest =>
    simp only [EPollBuffer.allocateBuffer, hfree, IOBuffer.ofSlot, Option.isNone_some,
      Bool.false_eq_true, if_false] at h
    by_cases h4 : len > e.buffer_manager_.buffer_size_
    · rw [if_pos h4] at h
      exact absurd h (by simp)
    rw [if_neg h4] at h
    have h5 : (mapFind e.interest fd).isSome = true := by
      by_contra hc
      have hn : (mapFind e.interest fd).isNone = true := by
        cases hm : mapFind e.interest fd <;> simp [hm] at hc ⊢
      simp [EPoll.modifyEvent, hn] at h
    refine ⟨a, rest, rfl, by omega, by omega, by simpa using h2, h5⟩

theorem slot_store_ne (p : EPollBuffer) (i j : Nat) (off : Nat) (bs : List Nat) (h : i ≠ j) :
    (p.store (some i) off bs).slot (some j) = p.slot (some j) := by
  simp [EPollBuffer.store, EPollBuffer.slot, List.getD_eq_getElem?_getD, List.getElem?_set_ne h]

theorem prepareWrite_order (e : EPoll) (fd : Int) (A : List Nat)
    (hok : e.buffer_manager_.QueueOk fd)
    (h : (e.prepareWrite fd (some A) A.length).1 = true) :
    (e.prepareWrite fd (some A) A.length).2.buffer_manager_.QueueOk fd ∧
    (e.prepareWrite fd (some A) A.length).2.buffer_manager_.pendingBytes fd =
      e.buffer_manager_.pendingBytes fd ++ A := by
  obtain ⟨a, rest, hfree, hlen, hsize, hinit, hreg⟩ := prepareWrite_success e fd A A.length h
  rw [prepareWrite_ok e fd A A.length a rest hinit hreg hfree hlen hsize]
  dsimp only
  obtain ⟨⟨hnd, hval⟩, hids, hb⟩ := hok
  rw [hfree] at hnd hval
  have ha := hval a (List.mem_cons_self _ _)
  have hat : a.toNat < e.buffer_manager_.buffer_pool_.length := by omega
  rw [List.nodup_cons] at hnd
  have hq : (((({ e.buffer_manager_ with free_buffers_ := rest } : EPollBuffer).store
      (some a.toNat) 0 (A.take A.length)).addToClientQueue fd
        { data := some a.toNat, length := A.length, write_offset := 0, buffer_id := a }).queue fd) =
      e.buffer_manager_.queue fd ++
        [{ data := some a.toNat, length := A.length, write_offset := 0, buffer_id := a }] := by
    rw [queue_addToClientQueue, store_queue]
    rfl
  have hne : ∀ b ∈ e.buffer_manager_.queue fd, b.buffer_id ≠ a := by
    intro b hbm hba
    have := (hb b hbm).1
    rw [hfree, hba] at this
    exact this (List.mem_cons_self _ _)
  constructor
  · unfold EPollBuffer.QueueOk EPollBuffer.FreeOk
    rw [hq]
    simp only [addToClientQueue_free, store_free, addToClientQueue_pool, store_pool_length]
    refine ⟨⟨hnd.2, fun x hx => hval x (List.mem_cons_of_mem _ hx)⟩, ?_, ?_⟩
    · rw [List.map_append, List.nodup_append]
      refine ⟨hids, List.nodup_singleton _, ?_⟩
      intro x hx hx1
      simp only [List.map_cons, List.map_nil, List.mem_singleton] at hx1
      obtain ⟨b, hbm, hbx⟩ := List.mem_map.1 hx
      exact hne b hbm (hbx.trans hx1)
    · intro b hbm
      rcases List.mem_append.1 hbm with hbm | hbm
      · have hb0 := hb b hbm
        refine ⟨fun hmem => hb0.1 ?_, hb0.2.1, hb0.2.2.1, hb0.2.2.2.1, hb0.2.2.2.2⟩
        rw [hfree]
        exact List.mem_cons_of_mem _ hmem
      · rw [List.mem_singleton] at hbm
        subst hbm
        exact ⟨hnd.1, ha.1, ha.2, rfl, hlen⟩
  · rw [pendingBytes_eq _ _ _ hq, EPollBuffer.pendingBytes, List.map_append, List.flatten_append]
    congr 1
    · congr 1
      apply List.map_congr_left
      intro b hbm
      have hb0 := hb b hbm
      have hd : a.toNat ≠ b.buffer_id.toNat := by
        have := hne b hbm
        omega
      rw [hb0.2.2.2.1, addToClientQueue_slot, slot_store_ne _ _ _ _ _ hd]
      rfl
    · simp only [List.map_cons, List.map_nil, List.flatten_cons, List.flatten_nil,
        List.append_nil, addToClientQueue_slot, Nat.sub_zero, List.take_length]
      have hs := slot_store ({ e.buffer_manager_ with free_buffers_ := rest } : EPollBuffer)
        a.toNat 0 A hat
      refine Eq.trans (congrArg (fun m => readBytes m 0 A.length) hs) ?_
      rw [writeBytes_zero]
      simp [readBytes]

theorem prepareWrite_sent (s : Session) (fd : Int) (A : List Nat) (k : Int) :
    ({ s with epoll_ := (s.epoll_.prepareWrite fd (some A) A.length).2 } : Session).sentTo k =
      s.sentTo k := rfl

/-- The write side of a connection over a sequence of steps: the queue stays consistent,
and the bytes the descriptor accepted during the steps, followed by the bytes still
pending, are the bytes that were pending followed by the prepared buffers in order. -/
theorem runWriteOps_order (sock : Socket) (hsock : 0 ≤ sock.mSocketFd) (ops : List WriteOp) :
    ∀ s : Session, s.epoll_.buffer_manager_.QueueOk sock.mSocketFd →
      s.writeOpsOk sock ops = true →
      (s.runWriteOps sock ops).epoll_.buffer_manager_.QueueOk sock.mSocketFd ∧
      ∃ x, (s.runWriteOps sock ops).sentTo sock.mSocketFd = s.sentTo sock.mSocketFd ++ x ∧
        x ++ (s.runWriteOps sock ops).epoll_.buffer_manager_.pendingBytes sock.mSocketFd =
          s.epoll_.buffer_manager_.pendingBytes sock.mSocketFd ++ preparedBytes ops := by
  induction ops with
  | nil =>
    intro s hok _
    exact ⟨hok, [], by simp [Session.runWriteOps], by simp [Session.runWriteOps, preparedBytes]⟩
  | cons op ops ih =>
    intro s hok hops
    cases op with
    | prepare A =>
      simp only [Session.writeOpsOk, Bool.and_eq_true] at hops
      have hp := prepareWrite_order s.epoll_ sock.mSocketFd A hok hops.1
      obtain ⟨hA, x, hx, hpx⟩ := ih (s.applyWriteOp sock (WriteOp.prepare A)) hp.1 hops.2
      refine ⟨hA, x, hx, ?_⟩
      rw [Session.runWriteOps, hpx]
      have : (s.applyWriteOp sock (WriteOp.prepare A)).epoll_.buffer_manager_.pendingBytes
          sock.mSocketFd = s.epoll_.buffer_manager_.pendingBytes sock.mSocketFd ++ A := hp.2
      rw [this, preparedBytes, List.append_assoc]
    | flush ws =>
      simp only [Session.writeOpsOk, Bool.and_eq_true] at hops
      obtain ⟨hw1, x1, hx1, hp1⟩ := handleWrite_order s sock ws hsock hok hops.1
      obtain ⟨hA, x2, hx2, hp2⟩ := ih (s.applyWriteOp sock (WriteOp.flush ws)) hw1 hops.2
      refine ⟨hA, x1 ++ x2, ?_, ?_⟩
      · rw [Session.runWriteOps, hx2]
        have : (s.applyWriteOp sock (WriteOp.flush ws)).sentTo sock.mSocketFd =
            s.sentTo sock.mSocketFd ++ x1 := hx1
        rw [this, List.append_assoc]
      · rw [Session.runWriteOps, List.append_assoc, hp2, preparedBytes, ← hp1, List.append_assoc]
        rfl

/-- C11: in the epoll server, on a connection whose write queue is empty (pool free list in
order), after every sequence of successful calls `prepareWrite(fd, A_1)`, ...,
`prepareWrite(fd, A_k)` interleaved in any way with runs of `handleWrite` whose `write`
calls accept any byte counts or would block, the bytes the descriptor has accepted since
the start are a prefix of `A_1 ++ ... ++ A_k`, and what is missing from that prefix is
exactly what is still pending in the write queue, in queue order. -/
theorem written_bytes_are_prefix_of_prepared_buffers (s : Session) (sock : Socket)
    (ops : List WriteOp)
    (hsock : 0 ≤ sock.mSocketFd)
    (hfree : s.epoll_.buffer_manager_.FreeOk)
    (hq : s.epoll_.buffer_manager_.queue sock.mSocketFd = [])
    (hops : s.writeOpsOk sock ops = true) :
    ∃ x, (s.runWriteOps sock ops).sentTo sock.mSocketFd = s.sentTo sock.mSocketFd ++ x ∧
      x <+: preparedBytes ops ∧
      x ++ (s.runWriteOps sock ops).epoll_.buffer_manager_.pendingBytes sock.mSocketFd =
        preparedBytes ops := by
  have hok : s.epoll_.buffer_manager_.QueueOk sock.mSocketFd := by
    refine ⟨hfree, by rw [hq]; exact List.nodup_nil, ?_⟩
    intro b hb
    rw [hq] at hb
    exact absurd hb (List.not_mem_nil _)
  obtain ⟨_, x, hx, hp⟩ := runWriteOps_order sock hsock ops s hok hops
  have h0 : s.epoll_.buffer_manager_.pendingBytes sock.mSocketFd = [] := by
    rw [pendingBytes_eq _ _ _ hq]
    rfl
  rw [h0, List.nil_append] at hp
  exact ⟨x, hx, ⟨_, hp⟩, hp⟩

end Epoll

namespace Epoll

set_option maxRecDepth 100000 in
/-- Witness for C11: the steps `demoWriteOps` on connection 5 of the demo session. -/
theorem written_bytes_are_prefix_of_prepared_buffers_witness :
    ∃ x, (demoSession.runWriteOps ⟨5⟩ demoWriteOps).sentTo 5 = demoSession.sentTo 5 ++ x ∧
      x <+: preparedBytes demoWriteOps ∧
      x ++ (demoSession.runWriteOps ⟨5⟩ demoWriteOps).epoll_.buffer_manager_.pendingBytes 5 =
        preparedBytes demoWriteOps :=
  written_bytes_are_prefix_of_prepared_buffers demoSession ⟨5⟩ demoWriteOps (by decide)
    (freeOk_new 1024 256) (by decide) (by decide)

end Epoll

/-! ## Initialization of the session managers -/

theorem mapErase_absent {β : Type} (m : List (Int × β)) (k : Int) (h : ∀ e ∈ m, e.1 ≠ k) :
    mapErase m k = m := by
  unfold mapErase
  rw [List.filter_eq_self]
  intro e he
  simpa using h e he

theorem find_filter_ne {β : Type} (m : List (Int × β)) (k j : Int) (h : j ≠ k) :
    List.find? (fun e => e.1 == j) (List.filter (fun e => e.1 != k) m) =
      List.find? (fun e => e.1 == j) m := by
  induction m with
  | nil => rfl
  | cons e l ih =>
    by_cases he : e.1 = k
    · have h2 : (e.1 == j) = false := by
        rw [he]
        simpa using fun hk => h hk.symm
      have h3 : (e.1 != k) = false := by simp [he]
      simp only [List.filter_cons, h3, Bool.false_eq_true, if_false, List.find?_cons, h2, ih]
    · have h3 : (e.1 != k) = true := by simpa using he
      simp only [List.filter_cons, h3, if_true, List.find?_cons, ih]

theorem mapFind_mapSet {β : Type} (m : List (Int × β)) (k j : Int) (v : β) :
    mapFind (mapSet m k v) j = if j = k then some v else mapFind m j := by
  by_cases h : j = k
  · subst h
    simp [mapFind, mapSet]
  · have h1 : (k == j) = false := by simpa using fun hk => h hk.symm
    simp only [mapFind, mapSet, mapErase, List.find?_cons, h1, if_neg h, find_filter_ne m k j h]

theorem toInt32_small (i : Nat) (h : i < 2 ^ 31) : Uring.toInt32 i = (i : Int) := by
  unfold Uring.toInt32
  have h1 : i % 2 ^ 32 = i := Nat.mod_eq_of_lt (by omega)
  rw [h1, if_pos h]

namespace Epoll

theorem session_new_ok (id created : Int) (h : created ≠ -1) :
    ∃ s, Session.new id created = some s ∧ s.session_id_ = id ∧ s.client_sockets_ = [] := by
  simp [Session.new, EPoll.initEPoll, EPoll.new, h]

theorem manager_createSessions_spec (created : Nat → Int) (hc : ∀ j, created j ≠ -1) (count : Nat) :
    ∀ m : SessionManager, m.next_session_id_ + count ≤ 2 ^ 31 →
      ∃ f, SessionManager.createSessions created count m = some f ∧
        f.available_sessions_ = m.available_sessions_ ++
          (List.range' m.next_session_id_ count).map Int.ofNat ∧
        f.next_session_id_ = m.next_session_id_ + count ∧
        f.client_sessions_ = m.client_sessions_ ∧
        f.next_session_index_ = m.next_session_index_ ∧
        f.thread_count_ = m.thread_count_ ∧
        (∀ k : Int, mapFind f.sessions_ k =
          if (m.next_session_id_ : Int) ≤ k ∧ k < (m.next_session_id_ : Int) + count then
            Session.new k (created k.toNat)
          else mapFind m.sessions_ k) ∧
        ((∀ e ∈ m.sessions_, e.1 < (m.next_session_id_ : Int)) →
          f.sessions_.length = m.sessions_.length + count ∧
          ∀ e ∈ f.sessions_, e.1 < (m.next_session_id_ : Int) + count) := by
  induction count with
  | zero =>
    intro m _
    refine ⟨m, rfl, by simp, rfl, rfl, rfl, rfl, ?_, ?_⟩
    · intro k
      have : ¬ ((m.next_session_id_ : Int) ≤ k ∧ k < (m.next_session_id_ : Int) + (0 : Nat)) := by
        omega
      rw [if_neg this]
    · intro h
      exact ⟨rfl, by simpa using h⟩
  | succ count ih =>
    intro m hm
    have hi : m.next_session_id_ < 2 ^ 31 := by omega
    obtain ⟨s, hs, _, _⟩ := session_new_ok (m.next_session_id_ : Int) (created m.next_session_id_)
      (hc _)
    have hmod : (m.next_session_id_ + 1) % 2 ^ 64 = m.next_session_id_ + 1 :=
      Nat.mod_eq_of_lt (by omega)
    unfold SessionManager.createSessions
    simp only [toInt32_small _ hi, hs, hmod]
    obtain ⟨f, hf, hav, hid, hcs, hidx, htc, hfind, hlen⟩ := ih
      { m with
        next_session_id_ := m.next_session_id_ + 1
        sessions_ := mapSet m.sessions_ (m.next_session_id_ : Int) s
        available_sessions_ := m.available_sessions_ ++ [(m.next_session_id_ : Int)] }
      (by dsimp only; omega)
    dsimp only at hf hav hid hcs hidx htc hfind hlen
    refine ⟨f, hf, ?_, by rw [hid]; omega, hcs, hidx, htc, ?_, ?_⟩
    · rw [hav, List.range'_succ, List.map_cons, List.append_assoc]
      rfl
    · intro k
      rw [hfind k, mapFind_mapSet]
      by_cases hk : k = (m.next_session_id_ : Int)
      · have h1 : ¬ (((m.next_session_id_ + 1 : Nat) : Int) ≤ k ∧
            k < ((m.next_session_id_ + 1 : Nat) : Int) + count) := by omega
        have h2 : (m.next_session_id_ : Int) ≤ k ∧
            k < (m.next_session_id_ : Int) + ((count + 1 : Nat) : Int) := by omega
        rw [if_neg h1, if_pos hk, if_pos h2, hk, Int.toNat_ofNat, hs]
      · by_cases h1 : ((m.next_session_id_ + 1 : Nat) : Int) ≤ k ∧
            k < ((m.next_session_id_ + 1 : Nat) : Int) + count
        · have h2 : (m.next_session_id_ : Int) ≤ k ∧
              k < (m.next_session_id_ : Int) + ((count + 1 : Nat) : Int) := by omega
          rw [if_pos h1, if_pos h2]
        · have h2 : ¬ ((m.next_session_id_ : Int) ≤ k ∧
              k < (m.next_session_id_ : Int) + ((count + 1 : Nat) : Int)) := by omega
          rw [if_neg h1, if_neg hk, if_neg h2]
    · intro hkeys
      have he : mapErase m.sessions_ (m.next_session_id_ : Int) = m.sessions_ :=
        mapErase_absent _ _ fun e he => by
          have := hkeys e he
          omega
      have h1 := hlen (by
        intro e he1
        rw [mapSet, he] at he1
        rcases List.mem_cons.1 he1 with h | h
        · rw [h]
          dsimp only
          omega
        · have := hkeys e h
          omega)
      rw [mapSet, he, List.length_cons] at h1
      refine ⟨by omega, fun e he1 => ?_⟩
      have := h1.2 e he1
      omega

end Epoll

namespace Uring

theorem world_createSessions_spec (ring_addr : Nat → Nat) (count : Nat) :
    ∀ w : World, w.next_session_id_ + count ≤ 2 ^ 31 →
      (World.createSessions ring_addr count w).available_sessions_ =
        w.available_sessions_ ++ (List.range' w.next_session_id_ count).map Int.ofNat ∧
      (World.createSessions ring_addr count w).next_session_id_ = w.next_session_id_ + count ∧
      (World.createSessions ring_addr count w).next_session_index_ = w.next_session_index_ ∧
      (∀ k : Int, mapFind (World.createSessions ring_addr count w).sessions_ k =
        if (w.next_session_id_ : Int) ≤ k ∧ k < (w.next_session_id_ : Int) + count then
          some (Session.new k (ring_addr k.toNat))
        else mapFind w.sessions_ k) ∧
      ((∀ e ∈ w.sessions_, e.1 < (w.next_session_id_ : Int)) →
        (World.createSessions ring_addr count w).sessions_.length = w.sessions_.length + count ∧
        ∀ e ∈ (World.createSessions ring_addr count w).sessions_,
          e.1 < (w.next_session_id_ : Int) + count) := by
  induction count with
  | zero =>
    intro w _
    refine ⟨by simp [World.createSessions], rfl, rfl, ?_, ?_⟩
    · intro k
      have : ¬ ((w.next_session_id_ : Int) ≤ k ∧ k < (w.next_session_id_ : Int) + (0 : Nat)) := by
        omega
      rw [if_neg this]
      rfl
    · intro h
      exact ⟨rfl, by simpa [World.createSessions] using h⟩
  | succ count ih =>
    intro w hw
    have hi : w.next_session_id_ < 2 ^ 31 := by omega
    have hmod : (w.next_session_id_ + 1) % 2 ^ 64 = w.next_session_id_ + 1 :=
      Nat.mod_eq_of_lt (by omega)
    obtain ⟨w1, hw1⟩ : ∃ w1 : World, w1 =
        { w with
          next_session_id_ := w.next_session_id_ + 1
          sessions_ := mapSet w.sessions_ (w.next_session_id_ : Int)
            (Session.new (w.next_session_id_ : Int) (ring_addr w.next_session_id_))
          available_sessions_ := w.available_sessions_ ++ [(w.next_session_id_ : Int)] } :=
      ⟨_, rfl⟩
    have hstep : World.createSessions ring_addr (count + 1) w =
        World.createSessions ring_addr count w1 := by
      rw [hw1, World.createSessions]
      simp only [toInt32_small _ hi, hmod]
    have e1 : w1.next_session_id_ = w.next_session_id_ + 1 := by rw [hw1]
    have e2 : w1.sessions_ = mapSet w.sessions_ (w.next_session_id_ : Int)
        (Session.new (w.next_session_id_ : Int) (ring_addr w.next_session_id_)) := by rw [hw1]
    have e3 : w1.available_sessions_ = w.available_sessions_ ++ [(w.next_session_id_ : Int)] := by
      rw [hw1]
    have e4 : w1.next_session_index_ = w.next_session_index_ := by rw [hw1]
    rw [hstep]
    obtain ⟨hav, hid, hidx, hfind, hlen⟩ := ih w1 (by rw [e1]; omega)
    rw [e1] at hid hfind hlen
    rw [e1, e3] at hav
    rw [e4] at hidx
    rw [e2] at hfind hlen
    refine ⟨?_, by rw [hid]; omega, hidx, ?_, ?_⟩
    · rw [hav, List.range'_succ, List.map_cons, List.append_assoc]
      rfl
    · intro k
      rw [hfind k, mapFind_mapSet]
      by_cases hk : k = (w.next_session_id_ : Int)
      · have h1 : ¬ (((w.next_session_id_ + 1 : Nat) : Int) ≤ k ∧
            k < ((w.next_session_id_ + 1 : Nat) : Int) + count) := by omega
        have h2 : (w.next_session_id_ : Int) ≤ k ∧
            k < (w.next_session_id_ : Int) + ((count + 1 : Nat) : Int) := by omega
        rw [if_neg h1, if_pos hk, if_pos h2, hk, Int.toNat_ofNat]
      · by_cases h1 : ((w.next_session_id_ + 1 : Nat) : Int) ≤ k ∧
            k < ((w.next_session_id_ + 1 : Nat) : Int) + count
        · have h2 : (w.next_session_id_ : Int) ≤ k ∧
              k < (w.next_session_id_ : Int) + ((count + 1 : Nat) : Int) := by omega
          rw [if_pos h1, if_pos h2]
        · have h2 : ¬ ((w.next_session_id_ : Int) ≤ k ∧
              k < (w.next_session_id_ : Int) + ((count + 1 : Nat) : Int)) := by omega
          rw [if_neg h1, if_neg hk, if_neg h2]
    · intro hkeys
      have he : mapErase w.sessions_ (w.next_session_id_ : Int) = w.sessions_ :=
        mapErase_absent _ _ fun e he => by
          have := hkeys e he
          omega
      have h1 := hlen (by
        intro e he1
        rw [mapSet, he] at he1
        rcases List.mem_cons.1 he1 with h | h
        · rw [h]
          dsimp only
          omega
        · have := hkeys e h
          omega)
      rw [mapSet, he, List.length_cons] at h1
      refine ⟨by omega, fun e he1 => ?_⟩
      have := h1.2 e he1
      omega

/-- With a valid connection in some session of the prior state, `initialize` of the
io_uring server does not return. -/
theorem world_initialize_blocks (w : World) (t hw : Nat) (ring_addr : Nat → Nat)
    (e : Int × Session) (he : e ∈ w.sessions_) (hv : e.2.hasValidClient = true) :
    Uring.World.initialize w t hw ring_addr = none := by
  have h : (w.sessions_.any fun e => e.2.hasValidClient) = true :=
    List.any_eq_true.2 ⟨e, he, hv⟩
  unfold World.initialize
  simp only [h, if_true]

theorem world_initialize_spec (w : World) (t hw : Nat) (ring_addr : Nat → Nat)
    (hhw : hw < 2 ^ 32) (hn : sessionCount t hw ≤ 2 ^ 31)
    (hidle : ∀ e ∈ w.sessions_, e.2.hasValidClient = false) :
    ∃ g, Uring.World.initialize w t hw ring_addr = some g ∧
      g.available_sessions_ = (List.range (sessionCount t hw)).map Int.ofNat ∧
      g.sessions_.length = sessionCount t hw ∧
      (∀ j : Nat, j < sessionCount t hw →
        mapFind g.sessions_ (j : Int) = some (Session.new (j : Int) (ring_addr j))) ∧
      g.next_session_index_ = w.next_session_index_ := by
  have hmod : hw % 2 ^ 32 = hw := Nat.mod_eq_of_lt hhw
  have hcount : (if t = 0 then (if hw % 2 ^ 32 = 0 then 1 else hw % 2 ^ 32) else t) =
      sessionCount t hw := by rw [hmod]; rfl
  have hany : (w.sessions_.any fun e => e.2.hasValidClient) = false := by
    rw [List.any_eq_false]
    intro e he
    rw [hidle e he]
    exact Bool.false_ne_true
  unfold World.initialize
  simp only [hcount, hany, Bool.false_eq_true, if_false]
  obtain ⟨hav, _, hidx, hfind, hlen⟩ := world_createSessions_spec ring_addr (sessionCount t hw)
    { w with sessions_ := [], available_sessions_ := [], next_session_id_ := 0 }
    (by dsimp only; omega)
  dsimp only at hav hidx hfind hlen
  refine ⟨_, rfl, ?_, ?_, ?_, hidx⟩
  · rw [hav, List.nil_append, List.range_eq_range']
  · have := (hlen (by intro e he; exact absurd he (List.not_mem_nil _))).1
    simpa using this
  · intro j hj
    rw [hfind]
    have : ((0 : Nat) : Int) ≤ (j : Int) ∧ (j : Int) < ((0 : Nat) : Int) + (sessionCount t hw : Int) := by
      omega
    rw [if_pos this, Int.toNat_ofNat]

end Uring

namespace Epoll

theorem manager_initialize_spec (m : SessionManager) (t hw : Nat) (created : Nat → Int)
    (ht : t < 2 ^ 32) (hhw : hw < 2 ^ 32) (hn : sessionCount t hw ≤ 2 ^ 31)
    (hc : ∀ j, created j ≠ -1) :
    ∃ f, SessionManager.initialize (m.setThreadCount t hw) hw created = some f ∧
      f.available_sessions_ = (List.range (sessionCount t hw)).map Int.ofNat ∧
      f.sessions_.length = sessionCount t hw ∧
      (∀ j : Nat, j < sessionCount t hw →
        mapFind f.sessions_ (j : Int) = Session.new (j : Int) (created j)) ∧
      f.client_sessions_ = [] ∧
      f.next_session_index_ = m.next_session_index_ := by
  have hmod : hw % 2 ^ 32 = hw := Nat.mod_eq_of_lt hhw
  have hmt : t % 2 ^ 32 = t := Nat.mod_eq_of_lt ht
  have hcount : (if (m.setThreadCount t hw).thread_count_ = 0 then
      (if hw % 2 ^ 32 = 0 then 1 else hw % 2 ^ 32) else (m.setThreadCount t hw).thread_count_) =
      sessionCount t hw := by
    unfold SessionManager.setThreadCount sessionCount
    dsimp only
    rw [hmod, hmt]
    by_cases h0 : t = 0
    · subst h0
      by_cases h1 : hw = 0
      · simp [h1]
      · simp [h1]
    · have : t > 0 := by omega
      simp [h0, this]
  unfold SessionManager.initialize
  simp only [hcount]
  obtain ⟨f, hf, hav, _, hcs, hidx, _, hfind, hlen⟩ := manager_createSessions_spec created hc
    (sessionCount t hw)
    { m.setThreadCount t hw with sessions_ := [], client_sessions_ := []
                                 available_sessions_ := [], next_session_id_ := 0 }
    (by dsimp only; omega)
  dsimp only at hav hcs hidx hfind hlen
  refine ⟨f, hf, ?_, ?_, ?_, hcs, hidx⟩
  · rw [hav, List.nil_append, List.range_eq_range']
  · have := (hlen (by intro e he; exact absurd he (List.not_mem_nil _))).1
    simpa using this
  · intro j hj
    rw [hfind]
    have : ((0 : Nat) : Int) ≤ (j : Int) ∧ (j : Int) < ((0 : Nat) : Int) + (sessionCount t hw : Int) := by
      omega
    rw [if_pos this, Int.toNat_ofNat]

end Epoll

/-! ## Round-robin assignment -/

theorem mem_keys_mapSet {β : Type} (m : List (Int × β)) (k : Int) (v : β) :
    k ∈ (mapSet m k v).map Prod.fst := by
  simp [mapSet]

theorem mem_keys_mapSet_of_mem {β : Type} (m : List (Int × β)) (k j : Int) (v : β)
    (h : j ∈ m.map Prod.fst) : j ∈ (mapSet m k v).map Prod.fst := by
  by_cases hj : j = k
  · rw [hj]
    exact mem_keys_mapSet m k v
  · obtain ⟨e, he, hej⟩ := List.mem_map.1 h
    unfold mapSet mapErase
    rw [List.map_cons]
    refine List.mem_cons_of_mem _ (List.mem_map.2 ⟨e, List.mem_filter.2 ⟨he, ?_⟩, hej⟩)
    simpa [hej] using hj

theorem count_round_robin (n m j : Nat) (hn : 0 < n) (hj : j < n) :
    ((List.range m).map fun k => ((k % n : Nat) : Int)).count (j : Int) =
      m / n + if j < m % n then 1 else 0 := by
  have h : ((List.range m).map fun k => ((k % n : Nat) : Int)).count (j : Int) =
      Nat.count (fun k => k ≡ j [MOD n]) m := by
    induction m with
    | zero => simp
    | succ m ih =>
      rw [List.range_succ, List.map_append, List.count_append, ih, Nat.count_succ]
      congr 1
      have hjm : j % n = j := Nat.mod_eq_of_lt hj
      simp only [List.map_cons, List.map_nil, List.count_singleton, beq_iff_eq]
      by_cases hm : m % n = j
      · have h1 : m ≡ j [MOD n] := by rw [Nat.ModEq, hm, hjm]
        have h2 : ((m % n : Nat) : Int) = (j : Int) := by rw [hm]
        rw [if_pos h2, if_pos h1]
      · have h1 : ¬ m ≡ j [MOD n] := by rw [Nat.ModEq, hjm]; exact hm
        have h2 : ¬ ((m % n : Nat) : Int) = (j : Int) := by omega
        rw [if_neg h2, if_neg h1]
  rw [h, Nat.count_modEq_card m hn j, Nat.mod_eq_of_lt hj]

theorem floor_or_ceil (n m c : Nat) (hn : 0 < n) (j : Nat)
    (h : c = m / n + if j < m % n then 1 else 0) :
    c = m / n ∨ c = (m + n - 1) / n := by
  by_cases hj : j < m % n
  · right
    rw [h, if_pos hj]
    have h1 : 0 < m % n := by omega
    have h2 := Nat.div_add_mod m n
    have h3 : m + n - 1 = n * (m / n + 1) + (m % n - 1) := by
      rw [Nat.mul_add, Nat.mul_one]
      omega
    rw [h3, Nat.mul_add_div hn]
    have h4 : (m % n - 1) / n = 0 := Nat.div_eq_of_lt (by
      have := Nat.mod_lt m hn
      omega)
    rw [h4]
  · left
    rw [h, if_neg hj, Nat.add_zero]

namespace Epoll

theorem manager_updSession_find (m : SessionManager) (sid k : Int) (f : Session → Session) :
    mapFind (m.updSession sid f).sessions_ k =
      if k = sid then (mapFind m.sessions_ k).map f else mapFind m.sessions_ k := by
  unfold SessionManager.updSession
  cases h : mapFind m.sessions_ sid with
  | none =>
    by_cases hk : k = sid
    · simp [hk, h]
    · simp [hk]
  | some s =>
    simp only [Uring.mapFind_map_upd]
    by_cases hk : k = sid
    · simp [hk, h]
    · simp [hk]

theorem manager_updSession_fields (m : SessionManager) (sid : Int) (f : Session → Session) :
    (m.updSession sid f).available_sessions_ = m.available_sessions_ ∧
    (m.updSession sid f).next_session_index_ = m.next_session_index_ ∧
    (m.updSession sid f).client_sessions_ = m.client_sessions_ := by
  unfold SessionManager.updSession
  split <;> exact ⟨rfl, rfl, rfl⟩

theorem manager_clientFds_updSession (m : SessionManager) (sid k : Int) (f : Session → Session) :
    (m.updSession sid f).clientFds k =
      if k = sid then ((mapFind m.sessions_ k).map fun s => (f s).getClientFds).getD []
      else m.clientFds k := by
  unfold SessionManager.clientFds
  rw [manager_updSession_find]
  by_cases hk : k = sid
  · simp only [hk, if_true]
    cases mapFind m.sessions_ sid <;> rfl
  · simp only [hk, if_false]

theorem manager_addClient_fds (s : Session) (sock : Socket) (h : 0 ≤ sock.mSocketFd) :
    sock.mSocketFd ∈ (s.addClient (some sock)).getClientFds ∧
    ∀ fd ∈ s.getClientFds, fd ∈ (s.addClient (some sock)).getClientFds := by
  have hv : (!sock.isValid) = false := by simp [Socket.isValid, h]
  simp only [Session.addClient, hv, Bool.false_eq_true, if_false, Session.getClientFds,
    Socket.getSocketFd]
  exact ⟨mem_keys_mapSet _ _ _, fun fd hfd => mem_keys_mapSet_of_mem _ _ _ _ hfd⟩

theorem manager_assign_spec (m : SessionManager) (sock : Socket) (hsock : 0 ≤ sock.mSocketFd)
    (hne : m.available_sessions_ ≠ [])
    (hkeys : ∀ id ∈ m.available_sessions_, (mapFind m.sessions_ id).isSome = true) :
    (m.assignClientToSession (some sock)).1 =
      m.available_sessions_.getD (m.next_session_index_ % m.available_sessions_.length) 0 ∧
    (m.assignClientToSession (some sock)).2.available_sessions_ = m.available_sessions_ ∧
    (m.assignClientToSession (some sock)).2.next_session_index_ =
      (m.next_session_index_ + 1) % 2 ^ 64 ∧
    (∀ k, (mapFind (m.assignClientToSession (some sock)).2.sessions_ k).isSome =
      (mapFind m.sessions_ k).isSome) ∧
    sock.mSocketFd ∈ (m.assignClientToSession (some sock)).2.clientFds
      (m.assignClientToSession (some sock)).1 ∧
    (∀ k fd, fd ∈ m.clientFds k → fd ∈ (m.assignClientToSession (some sock)).2.clientFds k) ∧
    mapFind (m.assignClientToSession (some sock)).2.client_sessions_ sock.mSocketFd =
      some (m.assignClientToSession (some sock)).1 := by
  have hv : (!sock.isValid) = false := by simp [Socket.isValid, hsock]
  have he : m.available_sessions_.isEmpty = false := by
    cases h : m.available_sessions_ with
    | nil => exact absurd h hne
    | cons a l => rfl
  have hlen : 0 < m.available_sessions_.length := List.length_pos.2 hne
  have hidx : m.next_session_index_ % m.available_sessions_.length < m.available_sessions_.length :=
    Nat.mod_lt _ hlen
  obtain ⟨sid, hsid⟩ : ∃ sid, sid = m.available_sessions_.getD
      (m.next_session_index_ % m.available_sessions_.length) 0 := ⟨_, rfl⟩
  have hmem : sid ∈ m.available_sessions_ := by
    rw [hsid, List.getD_eq_getElem?_getD, List.getElem?_eq_getElem hidx]
    exact List.getElem_mem _
  obtain ⟨s0, hs0⟩ := Option.isSome_iff_exists.1 (hkeys sid hmem)
  unfold SessionManager.assignClientToSession
  simp only [hv, he, Bool.false_eq_true, if_false, ← hsid, hs0, Socket.getSocketFd]
  refine ⟨trivial, (manager_updSession_fields _ _ _).1, (manager_updSession_fields _ _ _).2.1, ?_, ?_, ?_, ?_⟩
  · intro k
    rw [manager_updSession_find]
    by_cases hk : k = sid
    · rw [if_pos hk]
      cases mapFind m.sessions_ k <;> rfl
    · rw [if_neg hk]
  · rw [manager_clientFds_updSession, if_pos rfl]
    simp only [hs0, Option.map_some', Option.getD_some]
    exact (manager_addClient_fds s0 sock hsock).1
  · intro k fd hfd
    rw [manager_clientFds_updSession]
    by_cases hk : k = sid
    · rw [if_pos hk]
      subst hk
      have hcf : m.clientFds k = s0.getClientFds := by
        simp [SessionManager.clientFds, hs0]
      simp only [hs0, Option.map_some', Option.getD_some]
      exact (manager_addClient_fds s0 sock hsock).2 fd (hcf ▸ hfd)
    · rw [if_neg hk]
      exact hfd
  · rw [(manager_updSession_fields _ _ _).2.2]
    exact mapFind_mapSet_same _ _ _

end Epoll

namespace Epoll

theorem manager_assignAll_spec (socks : List Socket) :
    ∀ m : SessionManager, (∀ s ∈ socks, 0 ≤ s.mSocketFd) → m.available_sessions_ ≠ [] →
      (∀ id ∈ m.available_sessions_, (mapFind m.sessions_ id).isSome = true) →
      m.next_session_index_ + socks.length < 2 ^ 64 →
      (m.assignAll socks).2 = (List.range socks.length).map (fun k =>
        m.available_sessions_.getD
          ((m.next_session_index_ + k) % m.available_sessions_.length) 0) ∧
      (∀ k fd, fd ∈ m.clientFds k → fd ∈ (m.assignAll socks).1.clientFds k) ∧
      (∀ i (hi : i < socks.length), (socks.get ⟨i, hi⟩).mSocketFd ∈
        (m.assignAll socks).1.clientFds (m.available_sessions_.getD
          ((m.next_session_index_ + i) % m.available_sessions_.length) 0)) := by
  induction socks with
  | nil =>
    intro m _ _ _ _
    exact ⟨rfl, fun _ _ h => h, fun i hi => absurd hi (by simp)⟩
  | cons sock rest ih =>
    intro m hv hne hkeys hidx
    have hsock := hv sock (List.mem_cons_self _ _)
    obtain ⟨h1, h2, h3, h4, h5, h6, _⟩ := manager_assign_spec m sock hsock hne hkeys
    rw [List.length_cons] at hidx
    have hmod : (m.next_session_index_ + 1) % 2 ^ 64 = m.next_session_index_ + 1 :=
      Nat.mod_eq_of_lt (by omega)
    rw [hmod] at h3
    obtain ⟨i1, i2, i3⟩ := ih (m.assignClientToSession (some sock)).2
      (fun s hs => hv s (List.mem_cons_of_mem _ hs)) (by rw [h2]; exact hne)
      (by
        intro id hid
        rw [h4]
        rw [h2] at hid
        exact hkeys id hid)
      (by rw [h3]; omega)
    rw [h2, h3] at i1 i3
    have hall : m.assignAll (sock :: rest) =
        (((m.assignClientToSession (some sock)).2.assignAll rest).1,
          (m.assignClientToSession (some sock)).1 ::
            ((m.assignClientToSession (some sock)).2.assignAll rest).2) := rfl
    rw [hall]
    dsimp only
    refine ⟨?_, fun k fd hfd => i2 k fd (h6 k fd hfd), ?_⟩
    · rw [i1, h1, List.length_cons, List.range_succ_eq_map, List.map_cons, List.map_map]
      congr 1
      apply List.map_congr_left
      intro k _
      simp only [Function.comp]
      congr 2
      omega
    · intro i hi
      cases i with
      | zero =>
        simp only [List.get_eq_getElem, List.getElem_cons_zero, Nat.add_zero]
        rw [← h1]
        exact i2 _ _ h5
      | succ i =>
        have hi2 : i < rest.length := by simpa using hi
        have := i3 i hi2
        simp only [List.get_eq_getElem, List.getElem_cons_succ] at this ⊢
        have he : m.next_session_index_ + (i + 1) = m.next_session_index_ + 1 + i := by omega
        rw [he]
        exact this

end Epoll

namespace Uring

theorem world_updSession_fields (w : World) (sid : Int) (f : Session → Session) :
    (w.updSession sid f).next_session_index_ = w.next_session_index_ ∧
    (w.updSession sid f).client_sessions_ = w.client_sessions_ := by
  unfold World.updSession
  split <;> exact ⟨rfl, rfl⟩

theorem world_addClient_fds (s : Session) (sock : Socket) (h : 0 ≤ sock.mSocketFd) :
    sock.mSocketFd ∈ (s.addClient (some sock)).getClientFds ∧
    ∀ fd ∈ s.getClientFds, fd ∈ (s.addClient (some sock)).getClientFds := by
  have hv : (!sock.isValid) = false := by simp [Socket.isValid, h]
  have hn : ¬ sock.mSocketFd < 0 := by omega
  simp only [Session.addClient, hv, Bool.false_eq_true, if_false, Session.getClientFds,
    Socket.getSocketFd, hn]
  exact ⟨mem_keys_mapSet _ _ _, fun fd hfd => mem_keys_mapSet_of_mem _ _ _ _ hfd⟩

theorem world_assign_spec (w : World) (sock : Socket) (hsock : 0 ≤ sock.mSocketFd)
    (hne : w.available_sessions_ ≠ [])
    (hkeys : ∀ id ∈ w.available_sessions_, (mapFind w.sessions_ id).isSome = true) :
    (w.assignClientToSession (some sock)).1 =
      w.available_sessions_.getD (w.next_session_index_ % w.available_sessions_.length) 0 ∧
    (w.assignClientToSession (some sock)).2.available_sessions_ = w.available_sessions_ ∧
    (w.assignClientToSession (some sock)).2.next_session_index_ =
      (w.next_session_index_ + 1) % 2 ^ 64 ∧
    (∀ k, (mapFind (w.assignClientToSession (some sock)).2.sessions_ k).isSome =
      (mapFind w.sessions_ k).isSome) ∧
    sock.mSocketFd ∈ (w.assignClientToSession (some sock)).2.clientFds
      (w.assignClientToSession (some sock)).1 ∧
    (∀ k fd, fd ∈ w.clientFds k → fd ∈ (w.assignClientToSession (some sock)).2.clientFds k) ∧
    mapFind (w.assignClientToSession (some sock)).2.client_sessions_ sock.mSocketFd =
      some (w.assignClientToSession (some sock)).1 := by
  have hv : (!sock.isValid) = false := by simp [Socket.isValid, hsock]
  have hn : ¬ sock.mSocketFd < 0 := by omega
  have he : w.available_sessions_.isEmpty = false := by
    cases h : w.available_sessions_ with
    | nil => exact absurd h hne
    | cons a l => rfl
  have hlen : 0 < w.available_sessions_.length := List.length_pos.2 hne
  have hidx : w.next_session_index_ % w.available_sessions_.length < w.available_sessions_.length :=
    Nat.mod_lt _ hlen
  obtain ⟨sid, hsid⟩ : ∃ sid, sid = w.available_sessions_.getD
      (w.next_session_index_ % w.available_sessions_.length) 0 := ⟨_, rfl⟩
  have hmem : sid ∈ w.available_sessions_ := by
    rw [hsid, List.getD_eq_getElem?_getD, List.getElem?_eq_getElem hidx]
    exact List.getElem_mem _
  obtain ⟨s0, hs0⟩ := Option.isSome_iff_exists.1 (hkeys sid hmem)
  unfold World.assignClientToSession
  simp only [hv, he, hn, Bool.false_eq_true, if_false, ← hsid, hs0, Socket.getSocketFd]
  obtain ⟨w2, hw2⟩ : ∃ w2 : World, w2 =
      { w with next_session_index_ := (w.next_session_index_ + 1) % 2 ^ 64
               client_sessions_ := mapSet w.client_sessions_ sock.mSocketFd sid } := ⟨_, rfl⟩
  have hs2 : ∀ k, w2.session k = w.session k := by intro k; rw [hw2]; rfl
  have hc2 : ∀ k, w2.clientFds k = w.clientFds k := by intro k; rw [hw2]; rfl
  have hgoal : (w2.updSession sid fun s => s.addClient (some sock)).available_sessions_ =
      w.available_sessions_ ∧
    (w2.updSession sid fun s => s.addClient (some sock)).next_session_index_ =
      (w.next_session_index_ + 1) % 2 ^ 64 ∧
    (∀ k, (mapFind (w2.updSession sid fun s => s.addClient (some sock)).sessions_ k).isSome =
      (mapFind w.sessions_ k).isSome) ∧
    sock.mSocketFd ∈ (w2.updSession sid fun s => s.addClient (some sock)).clientFds sid ∧
    (∀ k fd, fd ∈ w.clientFds k →
      fd ∈ (w2.updSession sid fun s => s.addClient (some sock)).clientFds k) ∧
    mapFind (w2.updSession sid fun s => s.addClient (some sock)).client_sessions_ sock.mSocketFd =
      some sid := by
    refine ⟨?_, ?_, ?_, ?_, ?_, ?_⟩
    · rw [available_updSession, hw2]
    · rw [(world_updSession_fields _ _ _).1, hw2]
    · intro k
      have := session_updSession w2 sid k fun s => s.addClient (some sock)
      unfold World.session at this
      rw [this]
      have h2 : mapFind w2.sessions_ k = mapFind w.sessions_ k := hs2 k
      by_cases hk : k = sid
      · rw [if_pos hk, h2]
        cases mapFind w.sessions_ k <;> rfl
      · rw [if_neg hk, h2]
    · rw [clientFds_updSession, if_pos rfl, hs2]
      have : w.session sid = some s0 := hs0
      simp only [this, Option.map_some', Option.getD_some]
      exact (world_addClient_fds s0 sock hsock).1
    · intro k fd hfd
      rw [clientFds_updSession]
      by_cases hk : k = sid
      · rw [if_pos hk, hs2]
        subst hk
        have hsk : w.session k = some s0 := hs0
        have hcf : w.clientFds k = s0.getClientFds := by
          simp [World.clientFds, hsk]
        simp only [hsk, Option.map_some', Option.getD_some]
        exact (world_addClient_fds s0 sock hsock).2 fd (hcf ▸ hfd)
      · rw [if_neg hk, hc2]
        exact hfd
    · rw [(world_updSession_fields _ _ _).2, hw2]
      exact Epoll.mapFind_mapSet_same _ _ _
  rw [hw2] at hgoal
  exact ⟨trivial, hgoal⟩

theorem world_assignAll_spec (socks : List Socket) :
    ∀ w : World, (∀ s ∈ socks, 0 ≤ s.mSocketFd) → w.available_sessions_ ≠ [] →
      (∀ id ∈ w.available_sessions_, (mapFind w.sessions_ id).isSome = true) →
      w.next_session_index_ + socks.length < 2 ^ 64 →
      (w.assignAll socks).2 = (List.range socks.length).map (fun k =>
        w.available_sessions_.getD
          ((w.next_session_index_ + k) % w.available_sessions_.length) 0) ∧
      (∀ k fd, fd ∈ w.clientFds k → fd ∈ (w.assignAll socks).1.clientFds k) ∧
      (∀ i (hi : i < socks.length), (socks.get ⟨i, hi⟩).mSocketFd ∈
        (w.assignAll socks).1.clientFds (w.available_sessions_.getD
          ((w.next_session_index_ + i) % w.available_sessions_.length) 0)) := by
  induction socks with
  | nil =>
    intro w _ _ _ _
    exact ⟨rfl, fun _ _ h => h, fun i hi => absurd hi (by simp)⟩
  | cons sock rest ih =>
    intro w hv hne hkeys hidx
    have hsock := hv sock (List.mem_cons_self _ _)
    obtain ⟨h1, h2, h3, h4, h5, h6, _⟩ := world_assign_spec w sock hsock hne hkeys
    rw [List.length_cons] at hidx
    have hmod : (w.next_session_index_ + 1) % 2 ^ 64 = w.next_session_index_ + 1 :=
      Nat.mod_eq_of_lt (by omega)
    rw [hmod] at h3
    obtain ⟨i1, i2, i3⟩ := ih (w.assignClientToSession (some sock)).2
      (fun s hs => hv s (List.mem_cons_of_mem _ hs)) (by rw [h2]; exact hne)
      (by
        intro id hid
        rw [h4]
        rw [h2] at hid
        exact hkeys id hid)
      (by rw [h3]; omega)
    rw [h2, h3] at i1 i3
    have hall : w.assignAll (sock :: rest) =
        (((w.assignClientToSession (some sock)).2.assignAll rest).1,
          (w.assignClientToSession (some sock)).1 ::
            ((w.assignClientToSession (some sock)).2.assignAll rest).2) := rfl
    rw [hall]
    dsimp only
    refine ⟨?_, fun k fd hfd => i2 k fd (h6 k fd hfd), ?_⟩
    · rw [i1, h1, List.length_cons, List.range_succ_eq_map, List.map_cons, List.map_map]
      congr 1
      apply List.map_congr_left
      intro k _
      simp only [Function.comp]
      congr 2
      omega
    · intro i hi
      cases i with
      | zero =>
        simp only [List.get_eq_getElem, List.getElem_cons_zero, Nat.add_zero]
        rw [← h1]
        exact i2 _ _ h5
      | succ i =>
        have hi2 : i < rest.length := by simpa using hi
        have := i3 i hi2
        simp only [List.get_eq_getElem, List.getElem_cons_succ] at this ⊢
        have he : w.next_session_index_ + (i + 1) = w.next_session_index_ + 1 + i := by omega
        rw [he]
        exact this

end Uring

theorem getD_range_mod (n k : Nat) (hn : 0 < n) :
    ((List.range n).map Int.ofNat).getD (k % n) 0 = ((k % n : Nat) : Int) := by
  have h := Nat.mod_lt k hn
  rw [List.getD_eq_getElem?_getD, List.getElem?_map, List.getElem?_range h]
  rfl

theorem sessionCount_pos (n hw : Nat) (hn : 0 < n) : sessionCount n hw = n := by
  unfold sessionCount
  rw [if_neg (by omega)]

/-- C12: on a manager freshly initialized with `n ≥ 1` sessions, in the epoll server and
in the io_uring server, the `k`-th of a sequence of `assignClientToSession` calls with
valid sockets returns session id `k mod n`, the client of that call is in the connection
map of that session afterwards, and of `m` such calls the number that went to a session
`j < n` is `m / n`, plus one when `j < m mod n`: the floor or the ceiling of `m / n`. -/
theorem assignClientToSession_is_round_robin (n hw : Nat) (created : Nat → Int)
    (ring_addr : Nat → Nat) (mem : Uring.Mem) (heap : Nat) (socks : List Socket)
    (hn : 0 < n) (hn31 : n ≤ 2 ^ 31) (hhw : hw < 2 ^ 32)
    (hc : ∀ j, created j ≠ -1)
    (hv : ∀ s ∈ socks, 0 ≤ s.mSocketFd)
    (hlen : socks.length < 2 ^ 64) :
    (∃ m, Epoll.SessionManager.initialize (Epoll.SessionManager.fresh.setThreadCount n hw) hw
        created = some m ∧
      (m.assignAll socks).2 = (List.range socks.length).map (fun k => ((k % n : Nat) : Int)) ∧
      (∀ i (hi : i < socks.length), (socks.get ⟨i, hi⟩).mSocketFd ∈
        (m.assignAll socks).1.clientFds ((i % n : Nat) : Int)) ∧
      (∀ j, j < n →
        (m.assignAll socks).2.count (j : Int) =
          socks.length / n + (if j < socks.length % n then 1 else 0) ∧
        ((m.assignAll socks).2.count (j : Int) = socks.length / n ∨
          (m.assignAll socks).2.count (j : Int) = (socks.length + n - 1) / n))) ∧
    (∃ g, Uring.World.initialize (Uring.World.fresh mem heap) n hw ring_addr = some g ∧
      (g.assignAll socks).2 = (List.range socks.length).map (fun k => ((k % n : Nat) : Int)) ∧
      (∀ i (hi : i < socks.length), (socks.get ⟨i, hi⟩).mSocketFd ∈
        (g.assignAll socks).1.clientFds ((i % n : Nat) : Int)) ∧
      (∀ j, j < n →
        (g.assignAll socks).2.count (j : Int) =
          socks.length / n + (if j < socks.length % n then 1 else 0) ∧
        ((g.assignAll socks).2.count (j : Int) = socks.length / n ∨
          (g.assignAll socks).2.count (j : Int) = (socks.length + n - 1) / n))) := by
  have hsc := sessionCount_pos n hw hn
  have hne : (List.range n).map Int.ofNat ≠ [] := by
    intro h
    have := congrArg List.length h
    simp at this
    omega
  have hmapgetD : ∀ k, ((List.range n).map Int.ofNat).getD
      ((0 + k) % ((List.range n).map Int.ofNat).length) 0 = ((k % n : Nat) : Int) := by
    intro k
    rw [List.length_map, List.length_range, Nat.zero_add]
    exact getD_range_mod n k hn
  have hcount : ∀ (l : List Int), l = (List.range socks.length).map (fun k => ((k % n : Nat) : Int)) →
      ∀ j, j < n → l.count (j : Int) = socks.length / n + (if j < socks.length % n then 1 else 0) ∧
        (l.count (j : Int) = socks.length / n ∨ l.count (j : Int) = (socks.length + n - 1) / n) := by
    intro l hl j hj
    have h := count_round_robin n socks.length j hn hj
    rw [← hl] at h
    exact ⟨h, floor_or_ceil n socks.length _ hn j h⟩
  constructor
  · obtain ⟨f, hf, hav, _, hfind, _, hidx⟩ := Epoll.manager_initialize_spec
      Epoll.SessionManager.fresh n hw created (by omega) hhw (by rw [hsc]; exact hn31) hc
    rw [hsc] at hav hfind
    have hidx0 : f.next_session_index_ = 0 := hidx
    have hkeys : ∀ id ∈ f.available_sessions_, (mapFind f.sessions_ id).isSome = true := by
      intro id hid
      rw [hav] at hid
      obtain ⟨j, hj, rfl⟩ := List.mem_map.1 hid
      rw [List.mem_range] at hj
      have h1 : mapFind f.sessions_ (Int.ofNat j) = Epoll.Session.new (j : Int) (created j) :=
        hfind j hj
      rw [h1]
      obtain ⟨s, hs, _⟩ := Epoll.session_new_ok (j : Int) (created j) (hc j)
      rw [hs]
      rfl
    obtain ⟨a1, _, a3⟩ := Epoll.manager_assignAll_spec socks f hv (by rw [hav]; exact hne) hkeys
      (by rw [hidx0]; omega)
    rw [hav, hidx0] at a1 a3
    simp only [hmapgetD] at a1 a3
    exact ⟨f, hf, a1, a3, hcount _ a1⟩
  · obtain ⟨g, hg, hav, _, hfind, hidx⟩ := Uring.world_initialize_spec (Uring.World.fresh mem heap)
      n hw ring_addr hhw (by rw [hsc]; exact hn31)
      (fun e he => absurd he (List.not_mem_nil _))
    rw [hsc] at hav hfind
    have hidx0 : g.next_session_index_ = 0 := hidx
    have hkeys : ∀ id ∈ g.available_sessions_, (mapFind g.sessions_ id).isSome = true := by
      intro id hid
      rw [hav] at hid
      obtain ⟨j, hj, rfl⟩ := List.mem_map.1 hid
      rw [List.mem_range] at hj
      have h1 := hfind j hj
      have h2 : mapFind g.sessions_ (Int.ofNat j) =
          some (Uring.Session.new (j : Int) (ring_addr j)) := h1
      rw [h2]
      rfl
    obtain ⟨a1, _, a3⟩ := Uring.world_assignAll_spec socks g hv (by rw [hav]; exact hne) hkeys
      (by rw [hidx0]; omega)
    rw [hav, hidx0] at a1 a3
    simp only [hmapgetD] at a1 a3
    exact ⟨g, hg, a1, a3, hcount _ a1⟩

set_option maxRecDepth 100000 in
/-- Witness for C12: three sessions and the six connections `sixClients`: connections 1
and 4 go to session 0, connections 2 and 5 to session 1, connections 3 and 6 to
session 2, in both servers. -/
theorem assignClientToSession_is_round_robin_witness :
    (∃ m, Epoll.SessionManager.initialize (Epoll.SessionManager.fresh.setThreadCount 3 8) 8
        (fun _ => 3) = some m ∧ (m.assignAll sixClients).2 = [0, 1, 2, 0, 1, 2]) ∧
    (∃ g, Uring.World.initialize (Uring.World.fresh (fun _ => 0) 0x20000000) 3 8 demoRings =
        some g ∧ (g.assignAll sixClients).2 = [0, 1, 2, 0, 1, 2]) :=
  have h := assignClientToSession_is_round_robin 3 8 (fun _ => 3) demoRings (fun _ => 0)
    0x20000000 sixClients (by decide) (by decide) (by decide) (fun _ => (by decide : (3 : Int) ≠ -1)) (by decide)
    (by decide)
  ⟨h.1.imp fun _ hm => ⟨hm.1, hm.2.1⟩, h.2.imp fun _ hg => ⟨hg.1, hg.2.1⟩⟩


set_option maxRecDepth 100000 in
/-- C17, as the claim states it, fails: a manager is initialized with two sessions, one
connection is assigned, and the manager is initialized again with two sessions. The next
assignment on the fresh manager went to session 0; after the second `initialize` it goes
to session 1, in the epoll server and, once the peer has closed the connection, in the
io_uring server. While the connection is still in its session, `initialize` of the
io_uring server does not return. -/
theorem initialize_again_does_not_restart_round_robin :
    (( Epoll.SessionManager.initialize (Epoll.SessionManager.fresh.setThreadCount 2 8) 8
        fun _ => 3).map fun m => (m.assignClientToSession (some ⟨6⟩)).1) = some 0 ∧
    (( Epoll.SessionManager.initialize (Epoll.usedManager.setThreadCount 2 8) 8
        fun _ => 3).map fun m => (m.assignClientToSession (some ⟨6⟩)).1) = some 1 ∧
    (( Uring.World.initialize (Uring.World.fresh (fun _ => 0) 0x20000000) 2 8
        demoRings).map fun w => (w.assignClientToSession (some ⟨6⟩)).1) = some 0 ∧
    (Uring.closedClientWorld.clientFds 0 = [] ∧ Uring.closedClientWorld.clientFds 1 = [] ∧
      Uring.closedClientWorld.next_session_index_ = 1) ∧
    (( Uring.World.initialize Uring.closedClientWorld 2 8
        demoRings).map fun w => (w.assignClientToSession (some ⟨6⟩)).1) = some 1 ∧
    Uring.twoSessionWorld.clientFds 0 = [5] ∧
    ( Uring.World.initialize Uring.twoSessionWorld 2 8 demoRings).isNone = true := by
  decide

/-- C17 amended: for every prior state of the manager from which the call returns, which
in the io_uring server is every state in which no session has a valid connection,
`initialize` with thread count `t` on a host with hardware concurrency `hw` creates
`sessionCount t hw` sessions (`t` when `t > 0`, else `hw`, and 1 when that is 0 too): the
session id list is `[0, ..., count - 1]`, the session map holds exactly one fresh session
with no clients under each of these ids, and the epoll manager's client map is empty. The
round-robin counter is left as it was: assignment continues from its value and starts at
session 0 only when the counter is 0, as on a fresh manager. -/
theorem initialize_recreates_sessions_and_keeps_round_robin_counter
    (m : Epoll.SessionManager) (w : Uring.World) (t hw : Nat) (created : Nat → Int)
    (ring_addr : Nat → Nat)
    (ht : t < 2 ^ 32) (hhw : hw < 2 ^ 32) (hn : sessionCount t hw ≤ 2 ^ 31)
    (hc : ∀ j, created j ≠ -1)
    (hidle : ∀ e ∈ w.sessions_, e.2.hasValidClient = false) :
    (∃ f, Epoll.SessionManager.initialize (m.setThreadCount t hw) hw created = some f ∧
      f.available_sessions_ = (List.range (sessionCount t hw)).map Int.ofNat ∧
      f.sessions_.length = sessionCount t hw ∧
      (∀ j : Nat, j < sessionCount t hw →
        ∃ s, mapFind f.sessions_ (j : Int) = some s ∧ s.session_id_ = (j : Int) ∧
          s.client_sockets_ = []) ∧
      f.client_sessions_ = [] ∧
      f.next_session_index_ = m.next_session_index_) ∧
    (∃ g, Uring.World.initialize w t hw ring_addr = some g ∧
      g.available_sessions_ = (List.range (sessionCount t hw)).map Int.ofNat ∧
      g.sessions_.length = sessionCount t hw ∧
      (∀ j : Nat, j < sessionCount t hw →
        mapFind g.sessions_ (j : Int) = some (Uring.Session.new (j : Int) (ring_addr j))) ∧
      g.next_session_index_ = w.next_session_index_) ∧
    (0 < t → sessionCount t hw = t) ∧
    sessionCount 0 hw = max 1 hw := by
  refine ⟨?_, Uring.world_initialize_spec w t hw ring_addr hhw hn hidle, sessionCount_pos t hw, ?_⟩
  · obtain ⟨f, hf, hav, hlen, hfind, hcs, hidx⟩ :=
      Epoll.manager_initialize_spec m t hw created ht hhw hn hc
    refine ⟨f, hf, hav, hlen, ?_, hcs, hidx⟩
    intro j hj
    obtain ⟨s, hs, h1, h2⟩ := Epoll.session_new_ok (j : Int) (created j) (hc j)
    exact ⟨s, (hfind j hj).trans hs, h1, h2⟩
  · unfold sessionCount
    by_cases h : hw = 0
    · simp [h]
    · simp only [if_true, if_neg h]
      omega

set_option maxRecDepth 100000 in
/-- Witness for C17 amended: `initialize` with thread count 2 on managers that have assigned
one connection, which the io_uring server has closed since: the counter stays at 1. -/
theorem initialize_recreates_sessions_and_keeps_round_robin_counter_witness :
    (∀ e ∈ Uring.closedClientWorld.sessions_, e.2.hasValidClient = false) ∧
    (∃ f, Epoll.SessionManager.initialize (Epoll.usedManager.setThreadCount 2 8) 8
        (fun _ => 3) = some f ∧ f.client_sessions_ = [] ∧ f.next_session_index_ = 1) ∧
    (∃ g, Uring.World.initialize Uring.closedClientWorld 2 8 demoRings = some g ∧
      g.available_sessions_ = [0, 1] ∧ g.next_session_index_ = 1) :=
  have h := initialize_recreates_sessions_and_keeps_round_robin_counter Epoll.usedManager
    Uring.closedClientWorld 2 8 (fun _ => 3) demoRings (by decide) (by decide) (by decide)
    (fun _ => (by decide : (3 : Int) ≠ -1)) (by decide)
  ⟨by decide, h.1.imp fun _ hf => ⟨hf.1, hf.2.2.2.2.1, hf.2.2.2.2.2.trans (by decide)⟩,
    h.2.1.imp fun _ hg => ⟨hg.1, hg.2.1.trans (by decide), hg.2.2.2.2.trans (by decide)⟩⟩

namespace Epoll

/-! ## Failure paths of the pool and of the manager of the epoll server -/

set_option maxRecDepth 100000 in
/-- C22, at the failing input: a pool of one buffer of 512 bytes; `makeMessage` with a
payload of 600 bytes on the buffer obtained from `allocateBuffer` leaves `length = 603`,
above the buffer size 512 (and has stored 603 bytes in the slot of 512). -/
theorem makeMessage_length_exceeds_small_buffer :
    (EPollBuffer.new 512 1).buffer_size_ = 512 ∧
    (EPollBuffer.new 512 1).allocateBuffer.1.buffer_id = 0 ∧
    ((EPollBuffer.new 512 1).allocateBuffer.2.makeMessage
        (EPollBuffer.new 512 1).allocateBuffer.1 SERVER_ECHO
        (some (List.replicate 600 65)) 600).1.length = 603 ∧
    ¬ (((EPollBuffer.new 512 1).allocateBuffer.2.makeMessage
        (EPollBuffer.new 512 1).allocateBuffer.1 SERVER_ECHO
        (some (List.replicate 600 65)) 600).1.length ≤
      ((EPollBuffer.new 512 1).allocateBuffer.2.makeMessage
        (EPollBuffer.new 512 1).allocateBuffer.1 SERVER_ECHO
        (some (List.replicate 600 65)) 600).2.buffer_size_) := by
  decide

set_option maxRecDepth 100000 in
/-- C26, at the failing input: on the reactor of the demo session (initialized, 256 free
buffers, descriptor 7 not registered) `prepareWrite(7, 01 02 03, 3)` returns false, and
afterwards 255 buffers are free and buffer 0 with these 3 bytes is queued for
descriptor 7. -/
theorem prepareWrite_failure_keeps_buffer_queued :
    demoSession.epoll_.epoll_initialized_ = true ∧
    mapFind demoSession.epoll_.interest 7 = none ∧
    demoSession.epoll_.buffer_manager_.free_buffers_.length = 256 ∧
    demoSession.epoll_.buffer_manager_.queue 7 = [] ∧
    (demoSession.epoll_.prepareWrite 7 (some [1, 2, 3]) 3).1 = false ∧
    (demoSession.epoll_.prepareWrite 7 (some [1, 2, 3]) 3).2.buffer_manager_.free_buffers_.length
      = 255 ∧
    (demoSession.epoll_.prepareWrite 7 (some [1, 2, 3]) 3).2.buffer_manager_.queue 7 =
      [{ data := some 0, length := 3, write_offset := 0, buffer_id := 0 }] := by
  decide

set_option maxRecDepth 100000 in
/-- C28, at the failing inputs: the manager `usedManager` has the sessions 0 and 1, and
session 0 has descriptor 5 in its connection map. `getSessionClients(0)` returns the
empty set, and `getSessionClients(9)`, for an id that is not present, returns no set at
all: the call dereferences the end iterator. -/
theorem getSessionClients_returns_empty_set_for_present_session :
    (mapFind usedManager.sessions_ 0).isSome = true ∧
    usedManager.clientFds 0 = [5] ∧
    usedManager.getSessionClients 0 = some [] ∧
    (mapFind usedManager.sessions_ 9).isSome = false ∧
    usedManager.getSessionClients 9 = none := by
  decide

end Epoll

namespace Uring

/-! ## The buffer a read completion is parsed from -/

set_option maxRecDepth 100000 in
/-- C25, at the failing input: connection 5 has sent `13 01 00 'A'` (buffer 0, handled) and
sends `13 01 00 'B'`, which the kernel delivers in buffer 1: the completion has the
buffer flag set and `flags >> 16 = 1`. The write `handleRead` submits for it starts at
byte 3 of buffer 0 and its context carries buffer index 0, the index of the context of
the read, not 1. -/
theorem handleRead_uses_buffer_index_of_context :
    (demoCqe 4 1).flags &&& IORING_CQE_F_BUFFER ≠ 0 ∧
    (demoCqe 4 1).flags >>> IORING_CQE_BUFFER_SHIFT = 1 ∧
    (getContext (demoCqe 4 1)).buffer_idx = 0 ∧
    memRead (secondDelivery [0x13, 1, 0, 0x41] [0x13, 1, 0, 0x42]).mem (demoBuf 1) 4 =
      [0x13, 1, 0, 0x42] ∧
    ((secondDelivery [0x13, 1, 0, 0x41] [0x13, 1, 0, 0x42]).session 0).map
      (fun s => s.io_ring_.writes.length) = some 1 ∧
    ((handleRead (secondDelivery [0x13, 1, 0, 0x41] [0x13, 1, 0, 0x42]) 0 (demoCqe 4 1)
        (getContext (demoCqe 4 1))).1.session 0).map
      (fun s => (s.io_ring_.writes.drop 1).map fun q =>
        (q.addr, (getContext ⟨q.user_data, 0, 0⟩).op_type,
          (getContext ⟨q.user_data, 0, 0⟩).buffer_idx)) =
      some [(demoBuf 0 + 3, OP_WRITE, 0)] ∧
    demoBuf 0 + 3 < demoBuf 0 + IO_BUFFER_SIZE ∧ demoBuf 0 + IO_BUFFER_SIZE ≤ demoBuf 1 := by
  decide

set_option maxRecDepth 100000 in
/-- C27, at the failing input: the client sends the chat text `hi`: `sendChat` hands
`13 02 00 'h' 'i'` to `send`; the bytes arrive in buffer 0 and are handled (one message
counted, one write submitted). The client then sends the chat text `B`: `sendChat` hands
`13 01 00 'B'` to `send`, and the kernel delivers these 4 bytes in buffer 1
(`flags >> 16 = 1`, `res = 4`). `handleRead` validates buffer 0 (length 2, so 5 bytes are
expected) and closes the connection: it leaves the connection map, a close is submitted,
and no further message is counted and no further write submitted. -/
theorem handleRead_closes_on_chat_frame_in_second_buffer :
    ChatClient.sendChat ⟨3, true⟩ [104, 105] 5 = (true, some [0x13, 2, 0, 104, 105]) ∧
    ChatClient.sendChat ⟨3, true⟩ [0x42] 4 = (true, some [0x13, 1, 0, 0x42]) ∧
    memRead (secondDelivery [0x13, 2, 0, 104, 105] [0x13, 1, 0, 0x42]).mem (demoBuf 1) 4 =
      [0x13, 1, 0, 0x42] ∧
    (demoCqe 4 1).flags >>> IORING_CQE_BUFFER_SHIFT = 1 ∧
    (secondDelivery [0x13, 2, 0, 104, 105] [0x13, 1, 0, 0x42]).clientFds 0 = [5] ∧
    (secondDelivery [0x13, 2, 0, 104, 105] [0x13, 1, 0, 0x42]).totalMessages 0 = 1 ∧
    ((secondDelivery [0x13, 2, 0, 104, 105] [0x13, 1, 0, 0x42]).session 0).map
        (fun s => (s.io_ring_.closes.length, s.io_ring_.writes.length)) = some (0, 1) ∧
    (handleRead (secondDelivery [0x13, 2, 0, 104, 105] [0x13, 1, 0, 0x42]) 0 (demoCqe 4 1)
      (getContext (demoCqe 4 1))).1.clientFds 0 = [] ∧
    (handleRead (secondDelivery [0x13, 2, 0, 104, 105] [0x13, 1, 0, 0x42]) 0 (demoCqe 4 1)
      (getContext (demoCqe 4 1))).1.totalMessages 0 = 1 ∧
    ((handleRead (secondDelivery [0x13, 2, 0, 104, 105] [0x13, 1, 0, 0x42]) 0 (demoCqe 4 1)
      (getContext (demoCqe 4 1))).1.session 0).map
        (fun s => (s.io_ring_.closes.length, s.io_ring_.writes.length)) = some (1, 1) := by
  decide

end Uring

namespace Epoll

/-! ## Backpressure and the bound of the read loop -/

/-- C21: in the epoll server, when the free list of the session's pool is empty,
`handleRead` returns the session as it was and consumes no outcome of `read`: no read
is performed, nothing is closed or unregistered, and the connection map, the pool and
every write queue are unchanged. -/
theorem handleRead_without_free_buffer_is_noop (s : Session) (client_socket : Option Socket)
    (reads : List ReadResult)
    (hfree : s.epoll_.buffer_manager_.free_buffers_ = []) :
    s.handleRead client_socket reads = (s, reads) := by
  cases client_socket with
  | none => rfl
  | some sock =>
    unfold Session.handleRead
    dsimp only
    by_cases hv : (!sock.isValid) = true
    · rw [if_pos hv]
    · rw [if_neg hv]
      have h : MAX_READ_ATTEMPTS = 99 + 1 := rfl
      rw [h, Session.handleReadLoop]
      simp [EPollBuffer.hasAvailableBuffers, hfree]

set_option maxRecDepth 100000 in
/-- Witness for C21: the demo session with every buffer lent; 8 bytes are ready on
connection 5. -/
theorem handleRead_without_free_buffer_is_noop_witness :
    drainedSession.handleRead (some ⟨5⟩) [ReadResult.data (chatFrame [72, 101, 108, 108, 111])] =
      (drainedSession, [ReadResult.data (chatFrame [72, 101, 108, 108, 111])]) :=
  handleRead_without_free_buffer_is_noop drainedSession (some ⟨5⟩)
    [ReadResult.data (chatFrame [72, 101, 108, 108, 111])] (by decide)

theorem readToBuffer_called (p : EPollBuffer) (b : IOBuffer) (r : ReadResult) (e : Nat) :
    ∃ k, k ≤ 1 ∧ ∀ reads : List ReadResult,
      (if (p.readToBuffer b r e).2.2.2.2 then reads.tail else reads) = reads.drop k := by
  cases (p.readToBuffer b r e).2.2.2.2 with
  | false => exact ⟨0, by omega, fun reads => rfl⟩
  | true => exact ⟨1, le_refl 1, fun reads => by simp⟩

/-- The read loop with `attempts` iterations left consumes at most `attempts` outcomes of
`read`. -/
theorem handleReadLoop_reads_at_most (sock : Socket) (attempts : Nat) :
    ∀ (s : Session) (reads : List ReadResult),
      ∃ k, k ≤ attempts ∧ (Session.handleReadLoop sock attempts s reads).2 = reads.drop k := by
  induction attempts with
  | zero =>
    intro s reads
    exact ⟨0, le_refl 0, rfl⟩
  | succ attempts ih =>
    intro s reads
    rw [Session.handleReadLoop]
    dsimp only
    by_cases h1 : (!s.epoll_.buffer_manager_.hasAvailableBuffers) = true
    · rw [if_pos h1]
      exact ⟨0, by omega, rfl⟩
    rw [if_neg h1]
    by_cases h2 : s.epoll_.buffer_manager_.allocateBuffer.1.data.isNone = true
    · rw [if_pos h2]
      exact ⟨0, by omega, rfl⟩
    rw [if_neg h2]
    obtain ⟨k, hk, hdrop⟩ := readToBuffer_called s.epoll_.buffer_manager_.allocateBuffer.2
      s.epoll_.buffer_manager_.allocateBuffer.1 (reads.headD (ReadResult.fail EAGAIN)) s.errno
    generalize EPollBuffer.readToBuffer _ _ _ _ = r at hdrop ⊢
    obtain ⟨n, b1, p2, e1, called⟩ := r
    dsimp only at hdrop ⊢
    by_cases h3 : n = 0
    · rw [if_pos h3]
      exact ⟨k, by omega, hdrop reads⟩
    rw [if_neg h3]
    by_cases h4 : n < 0
    · rw [if_pos h4]
      by_cases h5 : e1 = EAGAIN
      · rw [if_pos h5]
        exact ⟨k, by omega, hdrop reads⟩
      · rw [if_neg h5]
        exact ⟨k, by omega, hdrop reads⟩
    rw [if_neg h4]
    split
    · exact ⟨k, by omega, hdrop reads⟩
    · obtain ⟨k2, hk2, h⟩ := ih
        (Session.withPool
          (Session.echoFrame
            { s with epoll_ := { s.epoll_ with buffer_manager_ := p2 }, errno := e1 }
            sock.getSocketFd b1 n)
          fun q => q.releaseBuffer b1.buffer_id)
        (if called = true then reads.tail else reads)
      refine ⟨k + k2, by omega, ?_⟩
      rw [h, hdrop reads, List.drop_drop]

/-- C24: in the epoll server one invocation of `handleRead` returns after at most 100
`read` calls on the connection, whatever the session, the socket and the outcomes of the
`read` calls are: the outcomes left over are the given ones without the first `k`, for
some `k ≤ 100`. -/
theorem handleRead_reads_at_most_100_times (s : Session) (client_socket : Option Socket)
    (reads : List ReadResult) :
    ∃ k, k ≤ 100 ∧ (s.handleRead client_socket reads).2 = reads.drop k := by
  cases client_socket with
  | none => exact ⟨0, by omega, rfl⟩
  | some sock =>
    unfold Session.handleRead
    dsimp only
    by_cases hv : (!sock.isValid) = true
    · rw [if_pos hv]
      exact ⟨0, by omega, rfl⟩
    · rw [if_neg hv]
      exact handleReadLoop_reads_at_most sock MAX_READ_ATTEMPTS s reads

end Epoll

namespace Uring

/-! ## The completion context and the buffer addresses -/

/-- C29: for every `client_fd` from -1 up (an `int32_t`), every operation type (one byte)
and every 16-bit buffer index, `getContext` of a completion that carries the `user_data`
written by `setContext` is exactly that `client_fd`, operation type and buffer index,
whatever the entry held before. -/
theorem getContext_setContext (sqe : Sqe) (type : Nat) (client_fd : Int) (buffer_idx : Nat)
    (res : Int) (flags : Nat)
    (hfd : -1 ≤ client_fd) (hfd32 : client_fd < 2 ^ 31) (ht : type < 256)
    (hidx : buffer_idx < 65536) :
    getContext { user_data := (setContext sqe type client_fd buffer_idx).user_data
                 res := res, flags := flags } =
      { client_fd := client_fd, op_type := type, buffer_idx := buffer_idx } := by
  have h1 : ¬ client_fd < -1 := by omega
  obtain ⟨a, ha⟩ : ∃ a, a = ofInt32 client_fd := ⟨_, rfl⟩
  have ha32 : a < 2 ^ 32 := by
    rw [ha, ofInt32]
    omega
  have hto : toInt32 a = client_fd := by
    rw [toInt32, ha, ofInt32]
    split <;> omega
  obtain ⟨c, hc⟩ : ∃ c, c = sqe.user_data / 2 ^ 56 % 256 := ⟨_, rfl⟩
  have hu : (setContext sqe type client_fd buffer_idx).user_data =
      a + 2 ^ 32 * type + 2 ^ 40 * buffer_idx + 2 ^ 56 * c := by
    rw [setContext, if_neg h1, ha, hc, Nat.mod_eq_of_lt ht, Nat.mod_eq_of_lt hidx]
  unfold getContext
  dsimp only
  rw [hu]
  have e1 : (a + 2 ^ 32 * type + 2 ^ 40 * buffer_idx + 2 ^ 56 * c) % 2 ^ 32 = a := by omega
  have e2 : (a + 2 ^ 32 * type + 2 ^ 40 * buffer_idx + 2 ^ 56 * c) / 2 ^ 32 % 256 = type := by
    omega
  have e3 : (a + 2 ^ 32 * type + 2 ^ 40 * buffer_idx + 2 ^ 56 * c) / 2 ^ 40 % 65536 =
      buffer_idx := by omega
  rw [e1, e2, e3, hto]

/-- Witness for C29: the context of a write to descriptor 5 with buffer index 4095, and of
an accept (descriptor -1). -/
theorem getContext_setContext_witness :
    getContext { user_data := (setContext Sqe.blank OP_WRITE 5 4095).user_data
                 res := 0, flags := 0 } =
      { client_fd := 5, op_type := OP_WRITE, buffer_idx := 4095 } ∧
    getContext { user_data := (setContext Sqe.blank OP_ACCEPT (-1) 0).user_data
                 res := 0, flags := 0 } =
      { client_fd := -1, op_type := OP_ACCEPT, buffer_idx := 0 } :=
  ⟨getContext_setContext Sqe.blank OP_WRITE 5 4095 0 0 (by decide) (by decide) (by decide)
      (by decide),
   getContext_setContext Sqe.blank OP_ACCEPT (-1) 0 0 0 (by decide) (by decide) (by decide)
      (by decide)⟩

theorem log2_io_buffer_size : log2 IO_BUFFER_SIZE = 10 := by
  decide

theorem getBufferAddr_value (idx base : Nat) (hidx : idx < NUM_IO_BUFFERS) (hbase : base ≠ 0) :
    UringBuffer.getBufferAddr idx base = some (base + idx * IO_BUFFER_SIZE) := by
  have h1 : ¬ idx ≥ NUM_IO_BUFFERS := by omega
  unfold NUM_IO_BUFFERS at hidx
  have h2 : idx * 2 ^ 10 % 2 ^ 32 = idx * 1024 := by omega
  rw [UringBuffer.getBufferAddr, if_neg h1, if_neg hbase, log2_io_buffer_size,
    Nat.shiftLeft_eq, h2]
  rfl

/-- C30: for every index below 4096 and every non-null base, `getBufferAddr` returns
`base + idx * 1024`; with the base of a ring mapped at `ring_addr`, the 1024-byte regions
of two distinct indices do not overlap, and every region lies behind the 4096 ring
entries (16 bytes each) and inside the `buffer_ring_size()` bytes of the mapping; for
every index from 4096 up it returns null. -/
theorem getBufferAddr_regions (ring_addr : Nat) :
    (∀ idx base, idx < NUM_IO_BUFFERS → base ≠ 0 →
      UringBuffer.getBufferAddr idx base = some (base + idx * 1024)) ∧
    (∀ i j a b, i < NUM_IO_BUFFERS → j < NUM_IO_BUFFERS → i ≠ j →
      UringBuffer.getBufferAddr i (get_buffer_base_addr ring_addr) = some a →
      UringBuffer.getBufferAddr j (get_buffer_base_addr ring_addr) = some b →
      a + IO_BUFFER_SIZE ≤ b ∨ b + IO_BUFFER_SIZE ≤ a) ∧
    (∀ i a, i < NUM_IO_BUFFERS →
      UringBuffer.getBufferAddr i (get_buffer_base_addr ring_addr) = some a →
      ring_addr + SIZEOF_IO_URING_BUF * NUM_IO_BUFFERS ≤ a ∧
      a + IO_BUFFER_SIZE ≤ ring_addr + buffer_ring_size) ∧
    (∀ idx base, NUM_IO_BUFFERS ≤ idx → UringBuffer.getBufferAddr idx base = none) := by
  have hb : get_buffer_base_addr ring_addr ≠ 0 := by
    unfold get_buffer_base_addr SIZEOF_IO_URING_BUF NUM_IO_BUFFERS
    omega
  have hsz : buffer_ring_size = 4259840 := by decide
  refine ⟨fun idx base hi hbase => getBufferAddr_value idx base hi hbase, ?_, ?_, ?_⟩
  · intro i j a b hi hj hij ha hb2
    rw [getBufferAddr_value i _ hi hb] at ha
    rw [getBufferAddr_value j _ hj hb] at hb2
    simp only [Option.some.injEq] at ha hb2
    unfold IO_BUFFER_SIZE at *
    omega
  · intro i a hi ha
    rw [getBufferAddr_value i _ hi hb] at ha
    simp only [Option.some.injEq] at ha
    rw [hsz]
    unfold get_buffer_base_addr at ha
    unfold IO_BUFFER_SIZE SIZEOF_IO_URING_BUF NUM_IO_BUFFERS at *
    omega
  · intro idx base hidx
    rw [UringBuffer.getBufferAddr, if_pos hidx]

/-- Witness for C30: buffers 0 and 4095 of the demo ring, and index 4096. -/
theorem getBufferAddr_regions_witness :
    UringBuffer.getBufferAddr 4095 (get_buffer_base_addr demoRingAddr) =
      some (get_buffer_base_addr demoRingAddr + 4095 * 1024) ∧
    UringBuffer.getBufferAddr 4096 (get_buffer_base_addr demoRingAddr) = none :=
  ⟨(getBufferAddr_regions demoRingAddr).1 4095 (get_buffer_base_addr demoRingAddr) (by decide)
      (by decide),
   (getBufferAddr_regions demoRingAddr).2.2.2 4096 (get_buffer_base_addr demoRingAddr)
      (by decide)⟩

end Uring

namespace Epoll

/-! ## Draining the ready list of the reactor -/

theorem getEventsLoop_spec (evs rest : List EpollEvent) (max_events : Int) (fuel : Nat) :
    ∀ (c : Nat) (out : List EpollEvent) (n : Nat), c ≤ evs.length →
      n = min (max_events.toNat - out.length) (evs.length - c) → n ≤ fuel →
      EventList.getEventsLoop fuel
          { events_ := evs ++ rest, num_events_ := (evs.length : Int), current_event_ := (c : Int) }
          max_events out =
        (out ++ (evs.drop c).take n,
          { events_ := evs ++ rest, num_events_ := (evs.length : Int)
            current_event_ := ((c + n : Nat) : Int) }) := by
  induction fuel with
  | zero =>
    intro c out n _ _ hfuel
    have h0 : n = 0 := by omega
    subst h0
    simp [EventList.getEventsLoop]
  | succ fuel ih =>
    intro c out n hc hn hfuel
    rw [EventList.getEventsLoop]
    dsimp only
    by_cases hcond : (c : Int) < (evs.length : Int) ∧ (out.length : Int) < max_events
    · rw [if_pos hcond]
      have hc1 : c < evs.length := by omega
      have hn1 : 1 ≤ n := by omega
      have hget : (evs ++ rest).getD (c : Int).toNat ⟨0, 0⟩ = evs.get ⟨c, hc1⟩ := by
        rw [Int.toNat_ofNat, List.getD_eq_getElem?_getD, List.getElem?_append_left hc1,
          List.getElem?_eq_getElem hc1]
        rfl
      rw [hget]
      have h := ih (c + 1) (out ++ [evs.get ⟨c, hc1⟩]) (n - 1) (by omega)
        (by rw [List.length_append, List.length_singleton]; omega) (by omega)
      have hcast : ((c : Int) + 1) = ((c + 1 : Nat) : Int) := by omega
      rw [hcast, h]
      have hd : evs.drop c = evs.get ⟨c, hc1⟩ :: evs.drop (c + 1) := by
        rw [List.get_eq_getElem]
        exact List.drop_eq_getElem_cons hc1
      have ht : (evs.drop c).take n = evs.get ⟨c, hc1⟩ :: (evs.drop (c + 1)).take (n - 1) := by
        obtain ⟨m, rfl⟩ : ∃ m, n = m + 1 := ⟨n - 1, by omega⟩
        rw [hd, List.take_succ_cons, Nat.add_sub_cancel]
      have he : c + 1 + (n - 1) = c + n := by omega
      rw [ht, he, List.append_assoc, List.singleton_append]
    · rw [if_neg hcond]
      have h0 : n = 0 := by omega
      subst h0
      simp

theorem getEvents_spec (evs rest : List EpollEvent) (c : Nat) (max_events : Int)
    (hc : c ≤ evs.length) (hmax : 0 < max_events) :
    EventList.getEvents
        { events_ := evs ++ rest, num_events_ := (evs.length : Int), current_event_ := (c : Int) }
        true max_events =
      (((min max_events.toNat (evs.length - c) : Nat) : Int),
        (evs.drop c).take (min max_events.toNat (evs.length - c)),
        { events_ := evs ++ rest, num_events_ := (evs.length : Int)
          current_event_ := ((c + min max_events.toNat (evs.length - c) : Nat) : Int) }) := by
  have hn : ¬ ((!true) = true ∨ max_events ≤ 0) := by
    simp only [Bool.not_true, Bool.false_eq_true, false_or]
    omega
  unfold EventList.getEvents
  rw [if_neg hn]
  dsimp only
  rw [getEventsLoop_spec evs rest max_events max_events.toNat c []
    (min max_events.toNat (evs.length - c)) hc (by simp) (Nat.min_le_left _ _)]
  simp

theorem getEvents_refuses (q : EventList) (events : Bool) (max_events : Int)
    (h : events = false ∨ max_events ≤ 0) : q.getEvents events max_events = (0, [], q) := by
  unfold EventList.getEvents
  rcases h with h | h
  · simp [h]
  · simp [h]

theorem drain_spec (evs rest : List EpollEvent) (caps : List Int) :
    ∀ c : Nat, c ≤ evs.length →
      (EventList.drain { events_ := evs ++ rest, num_events_ := (evs.length : Int)
                         current_event_ := (c : Int) } caps).1.flatten =
        (evs.drop c).take (min (evs.length - c) (caps.map Int.toNat).sum) ∧
      (EventList.drain { events_ := evs ++ rest, num_events_ := (evs.length : Int)
                         current_event_ := (c : Int) } caps).2 =
        { events_ := evs ++ rest, num_events_ := (evs.length : Int)
          current_event_ := ((c + min (evs.length - c) (caps.map Int.toNat).sum : Nat) : Int) } := by
  induction caps with
  | nil =>
    intro c _
    simp [EventList.drain]
  | cons cap caps ih =>
    intro c hc
    unfold EventList.drain
    dsimp only
    by_cases hcap : 0 < cap
    · rw [getEvents_spec evs rest c cap hc hcap]
      dsimp only
      obtain ⟨n, hn⟩ : ∃ n, n = min cap.toNat (evs.length - c) := ⟨_, rfl⟩
      rw [← hn]
      have hcn : c + n ≤ evs.length := by omega
      obtain ⟨h1, h2⟩ := ih (c + n) hcn
      rw [List.flatten_cons, h1, h2, List.map_cons, List.sum_cons]
      obtain ⟨t, ht⟩ : ∃ t, t = (caps.map Int.toNat).sum := ⟨_, rfl⟩
      rw [← ht]
      constructor
      · have hsplit : (evs.drop c).take n ++ (evs.drop (c + n)).take (min (evs.length - (c + n)) t)
            = (evs.drop c).take (n + min (evs.length - (c + n)) t) := by
          rw [List.take_add, List.drop_drop]
        rw [hsplit]
        congr 1
        omega
      · congr 2
        omega
    · rw [getEvents_refuses _ true cap (Or.inr (by omega))]
      dsimp only
      obtain ⟨h1, h2⟩ := ih c hc
      have h0 : cap.toNat = 0 := by omega
      rw [List.flatten_cons, h1, h2, List.nil_append, List.map_cons, List.sum_cons, h0,
        Nat.zero_add]
      exact ⟨rfl, rfl⟩

end Epoll

namespace Epoll

theorem waitForEvents_ready (e : EPoll) (q0 : EventList) (evs : List EpollEvent)
    (hinit : e.epoll_initialized_ = true) (hk : evs.length ≤ MAX_EVENTS) :
    e.waitForEvents q0 (WaitResult.ready evs) =
      ((evs.length : Int),
        { events_ := evs ++ q0.events_.drop evs.length, num_events_ := (evs.length : Int)
          current_event_ := ((0 : Nat) : Int) }) := by
  simp [EPoll.waitForEvents, hinit, List.take_of_length_le hk]

/-- C23: after `waitForEvents` has reported the `k` ready events `evs` (at most
`MAX_EVENTS`), successive `getEvents` calls with the capacities `caps` return, put
together, the first `min k (sum of the positive capacities)` events of `evs` in their
order; the call that follows them with capacity `c > 0` returns `min c remaining` and
stores exactly the next events of `evs`; once the capacities add up to `k` every event
has been returned once and every further call returns 0; and a call with a null array
or a capacity `≤ 0` returns 0 and leaves the cursor where it was. -/
theorem getEvents_drains_ready_events_in_order (e : EPoll) (q0 : EventList)
    (evs : List EpollEvent)
    (hinit : e.epoll_initialized_ = true) (hk : evs.length ≤ MAX_EVENTS) :
    (e.waitForEvents q0 (WaitResult.ready evs)).1 = (evs.length : Int) ∧
    (∀ caps : List Int,
      ((e.waitForEvents q0 (WaitResult.ready evs)).2.drain caps).1.flatten =
        evs.take (min evs.length (caps.map Int.toNat).sum)) ∧
    (∀ (caps : List Int) (c : Int), 0 < c →
      (((e.waitForEvents q0 (WaitResult.ready evs)).2.drain caps).2.getEvents true c).1 =
        ((min c.toNat (evs.length - min evs.length (caps.map Int.toNat).sum) : Nat) : Int) ∧
      (((e.waitForEvents q0 (WaitResult.ready evs)).2.drain caps).2.getEvents true c).2.1 =
        (evs.drop (min evs.length (caps.map Int.toNat).sum)).take
          (min c.toNat (evs.length - min evs.length (caps.map Int.toNat).sum))) ∧
    (∀ (caps : List Int) (c : Int), evs.length ≤ (caps.map Int.toNat).sum →
      ((e.waitForEvents q0 (WaitResult.ready evs)).2.drain caps).1.flatten = evs ∧
      (((e.waitForEvents q0 (WaitResult.ready evs)).2.drain caps).2.getEvents true c).1 = 0) ∧
    (∀ (q : EventList) (events : Bool) (c : Int), events = false ∨ c ≤ 0 →
      q.getEvents events c = (0, [], q)) := by
  rw [waitForEvents_ready e q0 evs hinit hk]
  dsimp only
  have hd := fun caps => drain_spec evs (q0.events_.drop evs.length) caps 0 (Nat.zero_le _)
  simp only [Nat.sub_zero, Nat.zero_add, List.drop_zero] at hd
  refine ⟨rfl, fun caps => (hd caps).1, ?_, ?_, fun q events c h => getEvents_refuses q events c h⟩
  · intro caps c hc
    rw [(hd caps).2, getEvents_spec evs _ _ c (Nat.min_le_left _ _) hc]
    exact ⟨rfl, rfl⟩
  · intro caps c hsum
    have hmin : min evs.length (caps.map Int.toNat).sum = evs.length := Nat.min_eq_left hsum
    constructor
    · rw [(hd caps).1, hmin, List.take_length]
    · rw [(hd caps).2, hmin]
      by_cases hc : 0 < c
      · rw [getEvents_spec evs _ _ c (le_refl _) hc]
        simp
      · rw [getEvents_refuses _ true c (Or.inr (by omega))]

set_option maxRecDepth 100000 in
/-- Witness for C23: three ready events drained with the capacities 2, 0, -3, 5, 1. -/
theorem getEvents_drains_ready_events_in_order_witness :
    (demoSession.epoll_.waitForEvents EventList.new (WaitResult.ready demoEvents)).1 = 3 ∧
    ((demoSession.epoll_.waitForEvents EventList.new (WaitResult.ready demoEvents)).2.drain
      [2, 0, -3, 5, 1]).1.flatten = demoEvents :=
  have h := getEvents_drains_ready_events_in_order demoSession.epoll_ EventList.new demoEvents
    (by decide) (by decide)
  ⟨h.1, (h.2.2.2.1 [2, 0, -3, 5, 1] 1 (by decide)).1⟩

end Epoll

namespace Epoll

/-- The bounds `write_offset ≤ length ≤ buffer_size_` of a handle are kept by
`readToBuffer` and `writeFromBuffer` for every buffer size, and by `makeMessage` when the
buffer size is at least 1024. -/
theorem buffer_bounds_kept (p : EPollBuffer) (b : IOBuffer)
    (h : b.write_offset ≤ b.length ∧ b.length ≤ p.buffer_size_) :
    (∀ r e, (p.readToBuffer b r e).2.1.write_offset ≤ (p.readToBuffer b r e).2.1.length ∧
      (p.readToBuffer b r e).2.1.length ≤ p.buffer_size_) ∧
    (∀ w e, (p.writeFromBuffer b w e).2.1.write_offset ≤ (p.writeFromBuffer b w e).2.1.length ∧
      (p.writeFromBuffer b w e).2.1.length ≤ p.buffer_size_) ∧
    (∀ type data length, 1024 ≤ p.buffer_size_ →
      (p.makeMessage b type data length).1.write_offset ≤
        (p.makeMessage b type data length).1.length ∧
      (p.makeMessage b type data length).1.length ≤ p.buffer_size_) := by
  refine ⟨?_, ?_, ?_⟩
  · intro r e
    unfold EPollBuffer.readToBuffer
    by_cases hg : b.data.isNone = true ∨ b.length ≥ p.buffer_size_
    · rw [if_pos hg]
      exact h
    · rw [if_neg hg]
      cases r with
      | data bs =>
        dsimp only
        have hl : (bs.take (p.buffer_size_ - b.length)).length ≤ p.buffer_size_ - b.length := by
          rw [List.length_take]
          exact Nat.min_le_left _ _
        split
        · dsimp only
          omega
        · exact h
      | fail errno =>
        dsimp only
        split <;> exact h
  · intro w e
    unfold EPollBuffer.writeFromBuffer
    by_cases hg : b.data.isNone = true ∨ b.write_offset ≥ b.length
    · rw [if_pos hg]
      exact h
    · rw [if_neg hg]
      cases w with
      | wrote n =>
        dsimp only
        have hl : min n (b.length - b.write_offset) ≤ b.length - b.write_offset :=
          Nat.min_le_right _ _
        split
        · dsimp only
          omega
        · exact h
      | fail errno =>
        dsimp only
        split <;> exact h
  · intro type data length hB
    unfold EPollBuffer.makeMessage
    by_cases hg : b.data.isNone = true ∨ length > MAX_MESSAGE_SIZE
    · rw [if_pos hg]
      exact h
    · rw [if_neg hg]
      dsimp only
      unfold MAX_MESSAGE_SIZE at hg
      unfold CHAT_MESSAGE_HEADER_SIZE
      omega

end Epoll

namespace Uring

/-- The bytes `ChatClient::sendChat` hands to `send` for a text `P` of 1 to 1021 bytes:
`13`, `|P|` as a little-endian `uint16_t`, then `P`. -/
theorem sendChat_bytes (c : ChatClient) (P : List Nat) (bytesSent : Int)
    (hsock : 0 ≤ c.socket_) (hrun : c.running_ = true)
    (h1 : 1 ≤ P.length) (h2 : P.length ≤ 1021) :
    (c.sendChat P bytesSent).2 = some (chatFrame P) := by
  have hg : ¬ (c.socket_ < 0 ∨ (!c.running_) = true) := by
    rw [hrun]
    simp only [Bool.not_true, Bool.false_eq_true, or_false]
    omega
  have hm : ¬ (P.length > MAX_MESSAGE_SIZE) := by
    unfold MAX_MESSAGE_SIZE
    omega
  have hpos : P.length > 0 := by omega
  have hmod : P.length % 65536 = P.length := by omega
  unfold ChatClient.sendChat ChatClient.sendMessage
  rw [if_neg hg, if_neg hm]
  simp only [hpos, if_true, hmod, List.take_length, Epoll.writeBytes_zero]
  have hh : (headerBytes CLIENT_CHAT P.length).length = 3 := by simp [headerBytes, u16le]
  unfold writeBytes
  rw [hh]
  simp only [CHAT_MESSAGE_HEADER_SIZE, List.drop_replicate, Nat.add_sub_cancel_left]
  rw [List.take_left' hh]
  have hd : List.drop (3 + P.length) (headerBytes CLIENT_CHAT P.length ++ List.replicate P.length 0)
      = [] := by
    apply List.drop_eq_nil_of_le
    rw [List.length_append, hh, List.length_replicate]
  rw [hd, List.append_nil]
  rfl

end Uring
